import Mathlib

/-!
# Device fleet management: the in-memory registry

A shallow embedding of `cpp_server/device_fleet_management.h`:

* the enumerations `State`, `ActionType`, `ActionStatus`;
* `Action` with the process-wide generator `Action::_id_gen` (a 32-bit `int`);
* `Device`, a lock-protected record; every method is one critical section and is
  embedded as a function on the record;
* `DevicePool`, the registry.  `std::shared_ptr<Device>` is embedded as an address into
  a heap of `Device` objects, because the worker started by `Initiate` keeps the pointer
  it captured even when the registry entry is replaced.

Two views of the registry are given: the methods run by a single caller with nothing in
between (`DevicePool.RegisterDevice`, `DevicePool.Initiate`, ...), and the same methods
cut at their critical sections and interleaved by a scheduler (`Task`, `Sys.exec`).
`Sys.in_turn_mem` shows that the two views agree.

Of `cpp_server/device_fleet_management_server.cc` the handlers `SetDeviceStatus` and
`GetDeviceAction` are embedded (`DeviceFleetManagementImpl`).
-/

namespace Fleet

/-! ## Enumerations (lines 18-37) -/

inductive State
  | IDLE | BUSY | OFFLINE | MAINTENANCE | UPDATING | RECOVERING | ERROR
deriving DecidableEq, Repr, Inhabited

inductive ActionType
  | SOFTWARE_UPDATE
deriving DecidableEq, Repr, Inhabited

inductive ActionStatus
  | PENDING | RUNNING | COMPLETED | FAILED
deriving DecidableEq, Repr, Inhabited

/-! ## `std::unordered_map<int, V>`

The program only ever uses `find` and `m[key] = v`; it never iterates, so the bucket
order is not observable and an association list with first-match lookup is enough. -/

/-- The map `std::unordered_map<int, V>` as a list of key/value entries. -/
abbrev unordered_map (V : Type) := List (Int × V)

/-- The call `m.find(key)`: the value stored under `key`, `none` for `m.end()`. -/
def umap_find {V : Type} : unordered_map V → Int → Option V
  | [], _ => none
  | (k, v) :: m, key => if k = key then some v else umap_find m key

/-- The statement `m[key] = v`: overwrite the entry of `key` when there is one, insert
otherwise. -/
def umap_assign {V : Type} : unordered_map V → Int → V → unordered_map V
  | [], key, v => [(key, v)]
  | (k, w) :: m, key, v =>
    if k = key then (key, v) :: m else (k, w) :: umap_assign m key v

/-- The keys of a map, in list order. -/
def umap_keys {V : Type} (m : unordered_map V) : List Int := m.map Prod.fst

/-! ## 32-bit `int` -/

/-- Two's-complement reduction of an integer to the range of a 32-bit `int`. -/
def wrap32 (x : Int) : Int := (x + 2 ^ 31) % 2 ^ 32 - 2 ^ 31

/-- The first `n` values handed out by a generator that holds `g` and is advanced by
`fetch_add(1)`: `g`, `g + 1`, ..., each reduced to 32 bits. -/
def id_seq (g : Int) (n : Nat) : List Int :=
  (List.range n).map (fun (k : Nat) => wrap32 (g + (k : Int)))

/-! ## Action (lines 40-67) -/

/-- The class `Action`, one field per data member. -/
structure Action where
  _action_type : ActionType
  _action_status : ActionStatus
  _action_param : String
  _action_id : Int
deriving DecidableEq, Repr

/-- The getter `Action::id`. -/
def Action.id (a : Action) : Int := a._action_id

/-- The getter `Action::status`. -/
def Action.status (a : Action) : ActionStatus := a._action_status

/-- The setter `Action::set_status`. -/
def Action.set_status (a : Action) (st : ActionStatus) : Action :=
  { a with _action_status := st }

/-- The constructor `Action(action_type, action_param)` (lines 51-56), given the current
value of `Action::_id_gen`: the new action is `PENDING` (member initialiser, line 42),
takes the old value of the generator as its id, and the generator is advanced by
`fetch_add(1)`, which wraps in 32 bits.  Returns the action and the new generator. -/
def Action.create (id_gen : Int) (action_type : ActionType) (action_param : String) :
    Action × Int :=
  ({ _action_type := action_type, _action_status := ActionStatus.PENDING,
     _action_param := action_param, _action_id := id_gen },
   wrap32 (id_gen + 1))

/-! ## Device (lines 70-121) -/

/-- The class `Device` without its mutex. -/
structure Device where
  _device_info : String
  _device_state : State
  _actions : unordered_map Action
deriving DecidableEq, Repr

/-- The constructor `Device(State st)` (line 77): empty info, no actions. -/
def Device.create (st : State) : Device :=
  { _device_info := "", _device_state := st, _actions := [] }

/-- The method `Device::set_info` (lines 80-83). -/
def Device.set_info (d : Device) (info : String) : Device :=
  { d with _device_info := info }

/-- The method `Device::set_state` (lines 85-88). -/
def Device.set_state (d : Device) (st : State) : Device :=
  { d with _device_state := st }

/-- The method `Device::get_state` (lines 90-93). -/
def Device.get_state (d : Device) : State := d._device_state

/-- The method `Device::get_info` (lines 95-98). -/
def Device.get_info (d : Device) : String := d._device_info

/-- The method `Device::add_action` (lines 101-104): `_actions[ac.id()] = ac`. -/
def Device.add_action (d : Device) (ac : Action) : Device :=
  { d with _actions := umap_assign d._actions ac.id ac }

/-- The method `Device::get_action_status` (lines 106-111). -/
def Device.get_action_status (d : Device) (id : Int) : Option ActionStatus :=
  match umap_find d._actions id with
  | none => none
  | some ac => some ac.status

/-- The method `Device::update_action_status` (lines 114-120): the returned flag and the
device afterwards. -/
def Device.update_action_status (d : Device) (id : Int) (st : ActionStatus) :
    Bool × Device :=
  match umap_find d._actions id with
  | none => (false, d)
  | some ac => (true, { d with _actions := umap_assign d._actions id (ac.set_status st) })

/-! ## The process memory -/

/-- Everything the registry code reads or writes: the `Device` objects made by
`std::make_shared` (a `std::shared_ptr<Device>` is the position of its object in `heap`),
the table `DevicePool::_pool` of the singleton, and the static `Action::_id_gen`. -/
structure Memory where
  heap : List Device
  _pool : unordered_map Nat
  _id_gen : Int
deriving DecidableEq, Repr

/-- The memory at process start: no device, empty table, `_id_gen { 1 }` (line 67). -/
def Memory.init : Memory := { heap := [], _pool := [], _id_gen := 1 }

/-- Every pointer stored in the table points to an object of the heap, and the generator
holds a 32-bit `int`. -/
def Memory.wf (m : Memory) : Prop :=
  (∀ e ∈ m._pool, e.2 < m.heap.length) ∧ -2 ^ 31 ≤ m._id_gen ∧ m._id_gen < 2 ^ 31

instance (m : Memory) : Decidable m.wf := by
  unfold Memory.wf; infer_instance

/-- The object behind a pointer. -/
def Memory.deref (m : Memory) (dev : Nat) : Option Device := m.heap[dev]?

/-- Run a mutating `Device` method through a pointer: `dev->f(...)`. -/
def Memory.call (m : Memory) (dev : Nat) (f : Device → Device) : Memory :=
  { m with heap := m.heap.modify f dev }

/-! ## DevicePool, one caller at a time (lines 124-221)

Each method is run from its first to its last statement with no other thread in between.
Non-`const` methods return their result together with the memory afterwards. -/

/-- The method `DevicePool::RegisterDevice` (lines 141-145): make a fresh `Device` and
store its pointer under `device_id`, replacing the entry when there is one. -/
def DevicePool.RegisterDevice (m : Memory) (device_id : Int) (state : State) : Memory :=
  { m with heap := m.heap ++ [Device.create state],
           _pool := umap_assign m._pool device_id m.heap.length }

/-- The method `DevicePool::SetDeviceStatus` (lines 148-158). -/
def DevicePool.SetDeviceStatus (m : Memory) (device_id : Int) (state : State) :
    Bool × Memory :=
  match umap_find m._pool device_id with
  | none => (false, m)
  | some dev => (true, m.call dev (fun d => d.set_state state))

/-- The method `DevicePool::GetDevice` (lines 161-166): the stored pointer, `none` for
`nullptr`. -/
def DevicePool.GetDevice (m : Memory) (device_id : Int) : Option Nat × Memory :=
  (umap_find m._pool device_id, m)

/-- The synchronous part of `DevicePool::Initiate` on a device that was found
(lines 181-187): construct the action, mark the device `UPDATING`, set the action
`RUNNING`, record it in the device.  Returns the action id and the memory. -/
def DevicePool.Initiate_dispatch (m : Memory) (dev : Nat) (action_type : ActionType)
    (action_param : String) : Int × Memory :=
  let (action, g) := Action.create m._id_gen action_type action_param
  let action_id := action.id
  let m1 := { m with _id_gen := g }
  let m2 := m1.call dev (fun d => d.set_state State.UPDATING)
  let action := action.set_status ActionStatus.RUNNING
  let m3 := m2.call dev (fun d => d.add_action action)
  (action_id, m3)

/-- The body of the task given to `std::async` (lines 191-204).  `sleep_for` does not
throw, so the `catch` branch (line 200) is never taken: the action is marked `COMPLETED`
and the device is reset to `IDLE`. -/
def DevicePool.Initiate_worker (m : Memory) (dev : Nat) (action_id : Int) : Memory :=
  let m1 := m.call dev (fun d => (d.update_action_status action_id ActionStatus.COMPLETED).2)
  m1.call dev (fun d => d.set_state State.IDLE)

/-- The method `DevicePool::Initiate` (lines 169-208) as its caller sees it.  The future
returned by `std::async(std::launch::async, ...)` at line 190 is a temporary that is not
stored; it is destroyed at the end of that statement (line 205), and the destructor of a
future obtained from `std::async` blocks until the task has finished.  So `return
action_id` (line 207) is reached only after the task body has run. -/
def DevicePool.Initiate (m : Memory) (device_id : Int) (action_type : ActionType)
    (action_param : String) : Int × Memory :=
  match umap_find m._pool device_id with
  | none => (-1, m)
  | some dev =>
    let (action_id, m1) := DevicePool.Initiate_dispatch m dev action_type action_param
    (action_id, DevicePool.Initiate_worker m1 dev action_id)

/-- The method `DevicePool::GetDeviceAction` (lines 211-220). -/
def DevicePool.GetDeviceAction (m : Memory) (device_id : Int) (action_id : Int) :
    Option ActionStatus × Memory :=
  match umap_find m._pool device_id with
  | none => (none, m)
  | some dev =>
    match m.deref dev with
    | none => (none, m)
    | some d => (d.get_action_status action_id, m)

/-! ## Calls and what they return -/

/-- A call of one of the five public methods of `DevicePool`. -/
inductive Call
  | RegisterDevice (device_id : Int) (state : State)
  | SetDeviceStatus (device_id : Int) (state : State)
  | GetDevice (device_id : Int)
  | Initiate (device_id : Int) (action_type : ActionType) (action_param : String)
  | GetDeviceAction (device_id : Int) (action_id : Int)
deriving DecidableEq, Repr

/-- The value a call hands back to its caller. -/
inductive Ret
  | void
  | bool (b : Bool)
  | ptr (dev : Option Nat)
  | int (i : Int)
  | status (st : Option ActionStatus)
deriving DecidableEq, Repr

/-- Run one call to its end with nothing in between. -/
def DevicePool.invoke (m : Memory) : Call → Ret × Memory
  | Call.RegisterDevice device_id state => (Ret.void, DevicePool.RegisterDevice m device_id state)
  | Call.SetDeviceStatus device_id state =>
    let r := DevicePool.SetDeviceStatus m device_id state
    (Ret.bool r.1, r.2)
  | Call.GetDevice device_id =>
    let r := DevicePool.GetDevice m device_id
    (Ret.ptr r.1, r.2)
  | Call.Initiate device_id action_type action_param =>
    let r := DevicePool.Initiate m device_id action_type action_param
    (Ret.int r.1, r.2)
  | Call.GetDeviceAction device_id action_id =>
    let r := DevicePool.GetDeviceAction m device_id action_id
    (Ret.status r.1, r.2)

/-- A caller makes the calls of a list one after the other: the memory at the end. -/
def DevicePool.run (m : Memory) : List Call → Memory
  | [] => m
  | c :: cs => DevicePool.run (DevicePool.invoke m c).2 cs

/-- The action ids returned, in call order, by the calls of `Initiate` that found their
device, when the calls of a list are made one after the other. -/
def DevicePool.returned_ids (m : Memory) : List Call → List Int
  | [] => []
  | Call.Initiate device_id action_type action_param :: cs =>
    let r := DevicePool.Initiate m device_id action_type action_param
    match umap_find m._pool device_id with
    | none => DevicePool.returned_ids r.2 cs
    | some _ => r.1 :: DevicePool.returned_ids r.2 cs
  | c :: cs => DevicePool.returned_ids (DevicePool.invoke m c).2 cs

/-! ## DevicePool under a scheduler

Each method is cut where it takes or releases a lock, or touches the atomic generator.
A `Task` is a call in flight: the statement it will run next and its live locals.  The
caller of `Initiate` and the task it hands to `std::async` form one `Task`, because the
caller does nothing but wait for that task (see `DevicePool.Initiate`). -/

/-- A call in flight, named by the line it is about to run. -/
inductive Task
  /-- In `RegisterDevice`, before line 142.  The new object is private until line 144
  publishes it, so lines 142-144 are one step. -/
  | reg (device_id : Int) (state : State)
  | reg_ret
  /-- In `SetDeviceStatus` before the lookup (line 151). -/
  | set_find (device_id : Int) (state : State)
  /-- In `SetDeviceStatus` before `dev->set_state(state)` (line 156). -/
  | set_apply (dev : Nat) (state : State)
  | set_ret (found : Bool)
  /-- In `GetDevice` before the lookup (line 162). -/
  | dev_find (device_id : Int)
  | dev_ret (dev : Option Nat)
  /-- In `Initiate` before the lookup (line 172). -/
  | ini_find (device_id : Int) (action_type : ActionType) (action_param : String)
  /-- In `Initiate` at `return -1` (line 175). -/
  | ini_notfound
  /-- In `Initiate` before the construction of the action (line 181). -/
  | ini_ctor (dev : Nat) (action_type : ActionType) (action_param : String)
  /-- In `Initiate` before `dev->set_state(State::UPDATING)` (line 185). -/
  | ini_mark (dev : Nat) (action : Action)
  /-- In `Initiate` before `dev->add_action(action)` (line 187); line 186 has run. -/
  | ini_add (dev : Nat) (action : Action)
  /-- In the worker, before `update_action_status` (line 196); its caller waits at line 205. -/
  | wrk_update (dev : Nat) (action_id : Int)
  /-- In the worker, before `dev->set_state(State::IDLE)` (line 204). -/
  | wrk_reset (dev : Nat) (action_id : Int)
  /-- In `Initiate` at `return action_id` (line 207). -/
  | ini_ret (action_id : Int)
  /-- In `GetDeviceAction` before the lookup (line 214). -/
  | get_find (device_id : Int) (action_id : Int)
  /-- In `GetDeviceAction` before `dev->get_action_status(action_id)` (line 219). -/
  | get_read (dev : Nat) (action_id : Int)
  | get_ret (status : Option ActionStatus)
deriving DecidableEq, Repr

/-- The first program point of a call. -/
def Call.start : Call → Task
  | Call.RegisterDevice device_id state => Task.reg device_id state
  | Call.SetDeviceStatus device_id state => Task.set_find device_id state
  | Call.GetDevice device_id => Task.dev_find device_id
  | Call.Initiate device_id action_type action_param =>
    Task.ini_find device_id action_type action_param
  | Call.GetDeviceAction device_id action_id => Task.get_find device_id action_id

/-- What a task has returned to its caller, `none` while it is still running. -/
def Task.result : Task → Option Ret
  | Task.reg_ret => some Ret.void
  | Task.set_ret found => some (Ret.bool found)
  | Task.dev_ret dev => some (Ret.ptr dev)
  | Task.ini_notfound => some (Ret.int (-1))
  | Task.ini_ret action_id => some (Ret.int action_id)
  | Task.get_ret status => some (Ret.status status)
  | _ => none

/-- The task has returned. -/
def Task.finished (t : Task) : Bool := t.result.isSome

/-- One atomic step of a task: the memory afterwards and the next program point.  A task
that has returned does nothing. -/
def Task.step (m : Memory) : Task → Memory × Task
  | Task.reg device_id state => (DevicePool.RegisterDevice m device_id state, Task.reg_ret)
  | Task.set_find device_id state =>
    match umap_find m._pool device_id with
    | none => (m, Task.set_ret false)
    | some dev => (m, Task.set_apply dev state)
  | Task.set_apply dev state => (m.call dev (fun d => d.set_state state), Task.set_ret true)
  | Task.dev_find device_id => (m, Task.dev_ret (umap_find m._pool device_id))
  | Task.ini_find device_id action_type action_param =>
    match umap_find m._pool device_id with
    | none => (m, Task.ini_notfound)
    | some dev => (m, Task.ini_ctor dev action_type action_param)
  | Task.ini_ctor dev action_type action_param =>
    let (action, g) := Action.create m._id_gen action_type action_param
    ({ m with _id_gen := g }, Task.ini_mark dev action)
  | Task.ini_mark dev action =>
    (m.call dev (fun d => d.set_state State.UPDATING),
     Task.ini_add dev (action.set_status ActionStatus.RUNNING))
  | Task.ini_add dev action =>
    (m.call dev (fun d => d.add_action action), Task.wrk_update dev action.id)
  | Task.wrk_update dev action_id =>
    (m.call dev (fun d => (d.update_action_status action_id ActionStatus.COMPLETED).2),
     Task.wrk_reset dev action_id)
  | Task.wrk_reset dev action_id =>
    (m.call dev (fun d => d.set_state State.IDLE), Task.ini_ret action_id)
  | Task.get_find device_id action_id =>
    match umap_find m._pool device_id with
    | none => (m, Task.get_ret none)
    | some dev => (m, Task.get_read dev action_id)
  | Task.get_read dev action_id =>
    match m.deref dev with
    | none => (m, Task.get_ret none)
    | some d => (m, Task.get_ret (d.get_action_status action_id))
  | t => (m, t)

/-- Let a task take `n` steps in a row. -/
def Task.run : Nat → Memory → Task → Memory × Task
  | 0, m, t => (m, t)
  | n + 1, m, t => Task.run n (t.step m).1 (t.step m).2

/-- The action id a task got from the constructor of `Action`, once it has one. -/
def Task.held : Task → Option Int
  | Task.ini_mark _ action => some action.id
  | Task.ini_add _ action => some action.id
  | Task.wrk_update _ action_id => some action_id
  | Task.wrk_reset _ action_id => some action_id
  | Task.ini_ret action_id => some action_id
  | _ => none

/-- An upper bound on the steps a task still takes before it has returned. -/
def Task.rank : Task → Nat
  | Task.reg _ _ => 1
  | Task.set_find _ _ => 2
  | Task.set_apply _ _ => 1
  | Task.dev_find _ => 1
  | Task.ini_find _ _ _ => 6
  | Task.ini_ctor _ _ _ => 5
  | Task.ini_mark _ _ => 4
  | Task.ini_add _ _ => 3
  | Task.wrk_update _ _ => 2
  | Task.wrk_reset _ _ => 1
  | Task.get_find _ _ => 2
  | Task.get_read _ _ => 1
  | _ => 0

/-- The task is at a program point of `Initiate(id, ...)` that, once past the lookup,
works on the object `dev`. -/
def Task.initiates (id : Int) (dev : Nat) : Task → Prop
  | Task.ini_find device_id _ _ => device_id = id
  | Task.ini_ctor h _ _ => h = dev
  | Task.ini_mark h _ => h = dev
  | Task.ini_add h _ => h = dev
  | Task.wrk_update h _ => h = dev
  | Task.wrk_reset h _ => h = dev
  | Task.ini_ret _ => True
  | _ => False

/-- What the device `d` holds for the action of a task of `Initiate`: an entry once line
187 has recorded it, with status `COMPLETED` once the worker has passed line 196. -/
def Task.recorded (d : Device) : Task → Prop
  | Task.wrk_update _ action_id => d.get_action_status action_id ≠ none
  | Task.wrk_reset _ action_id => d.get_action_status action_id = some ActionStatus.COMPLETED
  | Task.ini_ret action_id => d.get_action_status action_id = some ActionStatus.COMPLETED
  | _ => True

/-- The memory together with the calls in flight; a call keeps its position. -/
structure Sys where
  mem : Memory
  threads : List Task
deriving DecidableEq, Repr

/-- The scheduler lets the call at position `i` take one step. -/
def Sys.advance (s : Sys) (i : Nat) : Sys :=
  match s.threads[i]? with
  | none => s
  | some t => { mem := (t.step s.mem).1, threads := s.threads.set i (t.step s.mem).2 }

/-- Run a schedule: the list of positions that take a step, in order. -/
def Sys.exec (s : Sys) (sched : List Nat) : Sys := sched.foldl Sys.advance s

/-- The action ids handed out by the constructor of `Action` along a schedule, in the
order in which they are handed out. -/
def Sys.issued (s : Sys) : List Nat → List Int
  | [] => []
  | i :: sched =>
    match s.threads[i]? with
    | some (Task.ini_ctor _ _ _) => s.mem._id_gen :: Sys.issued (s.advance i) sched
    | _ => Sys.issued (s.advance i) sched

/-- The calls of a list, all made and none started yet, on memory `m`. -/
def Sys.calls (m : Memory) (cs : List Call) : Sys := { mem := m, threads := cs.map Call.start }

/-- The schedule that runs the calls of `n` positions one after the other, each to its
end (no call needs more than six steps). -/
def Sys.in_turn (n : Nat) : List Nat := (List.range n).flatMap (fun i => List.replicate 6 i)

/-- The state `s` of a run of the calls `cs` in which `id` stays registered with the
object `dev`: the table still maps `id` to `dev`, the object exists, no call in flight is
about to register `id`, and every call `Initiate(id, ...)` of `cs` is, at its position,
at a program point that works on `dev`. -/
def Sys.serves (cs : List Call) (id : Int) (dev : Nat) (s : Sys) : Prop :=
  umap_find s.mem._pool id = some dev ∧
  (∃ d, s.mem.deref dev = some d) ∧
  (∀ t ∈ s.threads, ∀ st, t ≠ Task.reg id st) ∧
  (∀ (j : Nat) (ty : ActionType) (p : String) (t : Task),
    cs[j]? = some (Call.Initiate id ty p) → s.threads[j]? = some t → t.initiates id dev)

/-- In state `s` every call `Initiate(id, ...)` of `cs` finds in the object `dev` what it
has recorded so far. -/
def Sys.records (cs : List Call) (id : Int) (dev : Nat) (s : Sys) : Prop :=
  ∀ (j : Nat) (ty : ActionType) (p : String) (t : Task) (d : Device),
    cs[j]? = some (Call.Initiate id ty p) → s.threads[j]? = some t →
    s.mem.deref dev = some d → t.recorded d

/-- Sample calls: device 7 is registered, then `Initiate` is called on it twice. -/
def Call.sample_session : List Call :=
  [Call.RegisterDevice 7 State.IDLE, Call.Initiate 7 ActionType.SOFTWARE_UPDATE "v2.0",
   Call.Initiate 7 ActionType.SOFTWARE_UPDATE "v2.1"]

/-- Sample calls: `Initiate` is called twice on device 7. -/
def Call.sample_pair : List Call :=
  [Call.Initiate 7 ActionType.SOFTWARE_UPDATE "v2.0",
   Call.Initiate 7 ActionType.SOFTWARE_UPDATE "v2.1"]

/-- A sample schedule for `Call.sample_session`: the registration first, then the two
calls of `Initiate` interleaved. -/
def Sys.sample_session_sched : List Nat := [0, 1, 2, 1, 2, 2, 1, 1, 2, 2, 1, 1, 2]

/-- A sample schedule for `Call.sample_pair`: the two calls interleaved step by step. -/
def Sys.sample_pair_sched : List Nat := [0, 1, 1, 0, 0, 1, 1, 0, 0, 1, 0, 1]

/-- A sample device: `BUSY`, with the running action 4. -/
def Device.sample : Device :=
  { _device_info := "", _device_state := State.BUSY,
    _actions := [(4, { _action_type := ActionType.SOFTWARE_UPDATE,
                       _action_status := ActionStatus.RUNNING,
                       _action_param := "v1.9", _action_id := 4 })] }

/-- A sample memory: device 7 is registered, `BUSY`, and holds the running action 4;
the generator is at 5. -/
def Memory.sample : Memory :=
  { heap := [Device.sample],
    _pool := [(7, 0)],
    _id_gen := 5 }

/-- What the registry shows for a device id: the object its entry points to. -/
def Memory.view (m : Memory) (device_id : Int) : Option Device :=
  match umap_find m._pool device_id with
  | none => none
  | some dev => m.deref dev

/-- One call of a mutating method of `Device`. -/
inductive DeviceOp
  | set_info (info : String)
  | set_state (st : State)
  | add_action (ac : Action)
  | update_action_status (id : Int) (st : ActionStatus)
deriving DecidableEq, Repr

/-- The device after one call of a mutating method. -/
def Device.apply (d : Device) : DeviceOp → Device
  | DeviceOp.set_info info => d.set_info info
  | DeviceOp.set_state st => d.set_state st
  | DeviceOp.add_action ac => d.add_action ac
  | DeviceOp.update_action_status id st => (d.update_action_status id st).2

/-! ## The service handlers (`device_fleet_management_server.cc`) -/

/-- The values of `grpc::StatusCode` that the handlers return. -/
inductive StatusCode
  | OK | NOT_FOUND | INTERNAL
deriving DecidableEq, Repr

/-- The handler `DeviceFleetManagementImpl::SetDeviceStatus` (server lines 35-48): the
status code and the memory.  The registry call does not throw, so the `catch` branch is
not taken. -/
def DeviceFleetManagementImpl.SetDeviceStatus (m : Memory) (device_id : Int) (state : State) :
    StatusCode × Memory :=
  let ok := DevicePool.SetDeviceStatus m device_id state
  if !ok.1 then (StatusCode.NOT_FOUND, ok.2) else (StatusCode.OK, ok.2)

/-- The handler `DeviceFleetManagementImpl::GetDeviceAction` (server lines 95-108): the
status code, the field written into the reply, and the memory.  The generated message
class is not among the sources, so what `reply->set_action_status` stores for the
optional it is given is the parameter `encode`.  The registry call does not throw, so the
`catch` branch is not taken. -/
def DeviceFleetManagementImpl.GetDeviceAction {R : Type} (encode : Option ActionStatus → R)
    (m : Memory) (device_id action_id : Int) : StatusCode × R × Memory :=
  let status := DevicePool.GetDeviceAction m device_id action_id
  (StatusCode.OK, encode status.1, status.2)

/-- The status of the local `Action` of a call of `Initiate`: `PENDING` from its
construction (line 181) until line 186 has set it `RUNNING`. -/
def Task.local_ok : Task → Prop
  | Task.ini_mark _ action => action.status = ActionStatus.PENDING
  | Task.ini_add _ action => action.status = ActionStatus.RUNNING
  | _ => True

/-- A sample schedule for `Call.sample_session`: the registration, the synchronous part of
the first `Initiate`, the synchronous part of the second, then the worker of the first. -/
def Sys.sample_overlap_sched : List Nat := [0, 1, 1, 1, 1, 2, 2, 2, 2, 1, 1]

/-- The action id a call of `Initiate` has recorded in its device (line 187), once it
has. -/
def Task.added : Task → Option Int
  | Task.wrk_update _ action_id => some action_id
  | Task.wrk_reset _ action_id => some action_id
  | Task.ini_ret action_id => some action_id
  | _ => none

/-- Every key of every action map was recorded by a call that is still in the thread
list. -/
def Sys.keys_added (s : Sys) : Prop :=
  ∀ (h : Nat) (d : Device) (a : Int), s.mem.deref h = some d → a ∈ umap_keys d._actions →
    ∃ (j : Nat) (u : Task), s.threads[j]? = some u ∧ u.added = some a

/-- The memory reached from process start by `RegisterDevice(0, IDLE)` followed by
`2 ^ 32` calls of `Initiate(0, SOFTWARE_UPDATE, "")` made one after the other. -/
def Memory.wrapped : Memory :=
  DevicePool.run Memory.init
    (Call.RegisterDevice 0 State.IDLE ::
      List.replicate (2 ^ 32) (Call.Initiate 0 ActionType.SOFTWARE_UPDATE ""))

/-- Whether a call is a call of `Initiate`. -/
def Call.is_initiate : Call → Bool
  | Call.Initiate _ _ _ => true
  | _ => false

/-- Whether a task is at a program point of `Initiate` (lines 169 to 207, the worker
included). -/
def Task.in_initiate : Task → Bool
  | Task.ini_find _ _ _ => true
  | Task.ini_notfound => true
  | Task.ini_ctor _ _ _ => true
  | Task.ini_mark _ _ => true
  | Task.ini_add _ _ => true
  | Task.wrk_update _ _ => true
  | Task.wrk_reset _ _ => true
  | Task.ini_ret _ => true
  | _ => false

/-- Sample calls: device 7 is registered in the state `s`, then `Initiate` is called twice
on it. -/
def Call.sample_overlap (s : State) : List Call :=
  [Call.RegisterDevice 7 s, Call.Initiate 7 ActionType.SOFTWARE_UPDATE "v2.0",
   Call.Initiate 7 ActionType.SOFTWARE_UPDATE "v2.1"]

/-- A sample schedule for three calls: the first call, then the synchronous part of the
second, then the synchronous part of the third; no worker has taken a step. -/
def Sys.sample_dispatch_sched : List Nat := [0, 1, 1, 1, 1, 2, 2, 2, 2]

theorem umap_find_assign_same {V : Type} (m : unordered_map V) (key : Int) (v : V) :
    umap_find (umap_assign m key v) key = some v := by
  induction m with
  | nil => simp [umap_assign, umap_find]
  | cons e m ih =>
    obtain ⟨k, w⟩ := e
    by_cases hk : k = key
    · simp [umap_assign, umap_find, hk]
    · simp [umap_assign, umap_find, hk, ih]

theorem umap_find_assign_other {V : Type} (m : unordered_map V) (key j : Int) (v : V)
    (hj : j ≠ key) : umap_find (umap_assign m key v) j = umap_find m j := by
  induction m with
  | nil => simp [umap_assign, umap_find, Ne.symm hj]
  | cons e m ih =>
    obtain ⟨k, w⟩ := e
    by_cases hk : k = key
    · subst hk
      simp [umap_assign, umap_find, Ne.symm hj]
    · by_cases hkj : k = j
      · subst hkj
        simp [umap_assign, umap_find, hk]
      · simp [umap_assign, umap_find, hk, hkj, ih]

theorem umap_find_none_iff {V : Type} (m : unordered_map V) (key : Int) :
    umap_find m key = none ↔ key ∉ umap_keys m := by
  induction m with
  | nil => simp [umap_find, umap_keys]
  | cons e m ih =>
    obtain ⟨k, w⟩ := e
    by_cases hk : k = key
    · simp [umap_find, umap_keys, hk]
    · have hk2 : ¬ key = k := fun h => hk h.symm
      simpa [umap_find, umap_keys, hk, hk2] using ih

theorem umap_find_mem {V : Type} (m : unordered_map V) (key : Int) (v : V)
    (h : umap_find m key = some v) : (key, v) ∈ m := by
  induction m with
  | nil => simp [umap_find] at h
  | cons e m ih =>
    obtain ⟨k, w⟩ := e
    by_cases hk : k = key
    · simp [umap_find, hk] at h
      simp [hk, h]
    · simp [umap_find, hk] at h
      exact List.mem_cons_of_mem _ (ih h)

theorem umap_keys_assign {V : Type} (m : unordered_map V) (key : Int) (v : V) (j : Int) :
    j ∈ umap_keys (umap_assign m key v) ↔ j = key ∨ j ∈ umap_keys m := by
  induction m with
  | nil => simp [umap_assign, umap_keys]
  | cons e m ih =>
    obtain ⟨k, w⟩ := e
    simp only [umap_keys] at ih
    by_cases hk : k = key
    · subst hk
      simp [umap_assign, umap_keys]
    · simp only [umap_assign, hk, if_false, umap_keys, List.map_cons, List.mem_cons, ih]
      tauto

theorem umap_assign_nodup {V : Type} (m : unordered_map V) (key : Int) (v : V)
    (h : (umap_keys m).Nodup) : (umap_keys (umap_assign m key v)).Nodup := by
  induction m with
  | nil => simp [umap_assign, umap_keys]
  | cons e m ih =>
    obtain ⟨k, w⟩ := e
    have h2 : k ∉ umap_keys m ∧ (umap_keys m).Nodup := by
      simpa [umap_keys] using h
    by_cases hk : k = key
    · subst hk
      simpa [umap_assign, umap_keys] using h
    · have hmem := umap_keys_assign m key v k
      have hnot : k ∉ umap_keys (umap_assign m key v) := by
        rw [hmem]; tauto
      have ih2 := ih h2.2
      simp only [umap_assign, hk, if_false, umap_keys, List.map_cons, List.nodup_cons]
      exact ⟨hnot, ih2⟩

/-! ## Lemmas on the heap -/

theorem Memory.deref_call_same (m : Memory) (dev : Nat) (f : Device → Device) :
    (m.call dev f).deref dev = (m.deref dev).map f := by
  simp [Memory.call, Memory.deref, List.getElem?_modify_eq]

theorem Memory.deref_call_other (m : Memory) (dev dev2 : Nat) (f : Device → Device)
    (h : dev ≠ dev2) : (m.call dev f).deref dev2 = m.deref dev2 := by
  simp [Memory.call, Memory.deref, List.getElem?_modify_ne f m.heap h]

theorem Memory.deref_of_wf (m : Memory) (hwf : m.wf) (device_id : Int) (dev : Nat)
    (h : umap_find m._pool device_id = some dev) : ∃ d, m.deref dev = some d := by
  have hlt : dev < m.heap.length := hwf.1 _ (umap_find_mem _ _ _ h)
  exact ⟨m.heap[dev], by simp [Memory.deref, hlt]⟩

/-! ## Registration and lookup -/

/-- C1: after `RegisterDevice(id, s)`, `GetDevice(id)` is a non-null pointer to a device
whose `get_state()` is `s`, whose `get_info()` is the empty string and whose action map
is empty, so that `get_action_status(a)` is absent for every action id `a`. -/
theorem C1_register_then_get (m : Memory) (id : Int) (s : State) :
    ∃ dev d, (DevicePool.GetDevice (DevicePool.RegisterDevice m id s) id).1 = some dev ∧
      (DevicePool.RegisterDevice m id s).deref dev = some d ∧
      d.get_state = s ∧ d.get_info = "" ∧ d._actions = [] ∧
      ∀ a, d.get_action_status a = none := by
  refine ⟨m.heap.length, Device.create s, ?_, ?_, rfl, rfl, rfl, ?_⟩
  · simp [DevicePool.GetDevice, DevicePool.RegisterDevice, umap_find_assign_same]
  · simp [DevicePool.RegisterDevice, Memory.deref]
  · intro a
    simp [Device.get_action_status, Device.create, umap_find]

/-! ## Initiate -/

theorem Sys.advance_notfound (m : Memory) (i : Nat) :
    Sys.advance ⟨m, [Task.ini_notfound]⟩ i = ⟨m, [Task.ini_notfound]⟩ := by
  cases i with
  | zero => simp [Sys.advance, Task.step]
  | succ n => simp [Sys.advance]

theorem Sys.exec_notfound (m : Memory) (sched : List Nat) :
    Sys.exec ⟨m, [Task.ini_notfound]⟩ sched = ⟨m, [Task.ini_notfound]⟩ := by
  induction sched with
  | nil => rfl
  | cons i sched ih =>
    simp only [Sys.exec, List.foldl_cons, Sys.advance_notfound]
    exact ih

/-- C2: when `device_id` is not registered, `Initiate` returns `-1` and leaves the whole
memory as it was (table, every device, the id generator).  Under the scheduler the call
goes in one step to `return -1` with the memory unchanged, and whatever is scheduled
afterwards it stays there: no worker program point is ever entered. -/
theorem C2_initiate_unknown_device (m : Memory) (device_id : Int) (action_type : ActionType)
    (action_param : String) (h : umap_find m._pool device_id = none) :
    DevicePool.Initiate m device_id action_type action_param = (-1, m) ∧
    Task.step m (Task.ini_find device_id action_type action_param) = (m, Task.ini_notfound) ∧
    ∀ sched, Sys.exec (Sys.calls m [Call.Initiate device_id action_type action_param])
      (0 :: sched) = ⟨m, [Task.ini_notfound]⟩ := by
  refine ⟨?_, ?_, ?_⟩
  · simp [DevicePool.Initiate, h]
  · simp [Task.step, h]
  · intro sched
    have h1 : Sys.advance (Sys.calls m [Call.Initiate device_id action_type action_param]) 0
        = ⟨m, [Task.ini_notfound]⟩ := by
      simp [Sys.advance, Sys.calls, Call.start, Task.step, h]
    simp only [Sys.exec, List.foldl_cons, h1]
    exact Sys.exec_notfound m sched

/-- C2 on the memory at process start, where device 5 is not registered. -/
theorem C2_initiate_unknown_device_witness :
    umap_find Memory.init._pool 5 = none ∧
    (DevicePool.Initiate Memory.init 5 ActionType.SOFTWARE_UPDATE "v2.0" = (-1, Memory.init) ∧
     Task.step Memory.init (Task.ini_find 5 ActionType.SOFTWARE_UPDATE "v2.0")
       = (Memory.init, Task.ini_notfound) ∧
     ∀ sched, Sys.exec (Sys.calls Memory.init [Call.Initiate 5 ActionType.SOFTWARE_UPDATE "v2.0"])
       (0 :: sched) = ⟨Memory.init, [Task.ini_notfound]⟩) :=
  ⟨by decide, C2_initiate_unknown_device Memory.init 5 ActionType.SOFTWARE_UPDATE "v2.0"
    (by decide)⟩

/-- C3: evaluation of the code on `RegisterDevice(7, IDLE)` followed by
`Initiate(7, SOFTWARE_UPDATE, "v2.0")`.  The call returns action id 1.  After the
synchronous part (line 187) the action is `RUNNING`, but when `Initiate` returns, the
worker has already run (the discarded future of line 190 is joined at line 205), so
`GetDeviceAction(7, 1)` is `COMPLETED`, not `RUNNING`. -/
theorem C3_status_at_return_is_completed :
    (DevicePool.Initiate (DevicePool.RegisterDevice Memory.init 7 State.IDLE) 7
        ActionType.SOFTWARE_UPDATE "v2.0").1 = 1 ∧
    (DevicePool.GetDeviceAction
        (DevicePool.Initiate_dispatch (DevicePool.RegisterDevice Memory.init 7 State.IDLE) 0
          ActionType.SOFTWARE_UPDATE "v2.0").2 7 1).1 = some ActionStatus.RUNNING ∧
    (DevicePool.GetDeviceAction
        (DevicePool.Initiate (DevicePool.RegisterDevice Memory.init 7 State.IDLE) 7
          ActionType.SOFTWARE_UPDATE "v2.0").2 7 1).1 = some ActionStatus.COMPLETED ∧
    (DevicePool.GetDeviceAction
        (DevicePool.Initiate (DevicePool.RegisterDevice Memory.init 7 State.IDLE) 7
          ActionType.SOFTWARE_UPDATE "v2.0").2 7 1).1 ≠ some ActionStatus.RUNNING := by
  decide

/-! ### The synchronous part and the worker -/

theorem Device.get_action_status_add_action (d : Device) (ac : Action) :
    (d.add_action ac).get_action_status ac.id = some ac.status := by
  simp [Device.get_action_status, Device.add_action, umap_find_assign_same]

theorem Device.get_action_status_add_action_other (d : Device) (ac : Action) (j : Int)
    (hj : j ≠ ac.id) : (d.add_action ac).get_action_status j = d.get_action_status j := by
  simp [Device.get_action_status, Device.add_action, umap_find_assign_other _ _ _ _ hj]

theorem Device.get_action_status_set_state (d : Device) (st : State) (j : Int) :
    (d.set_state st).get_action_status j = d.get_action_status j := rfl

theorem Device.get_action_status_update_same (d : Device) (id : Int) (st : ActionStatus)
    (h : d.get_action_status id ≠ none) :
    (d.update_action_status id st).2.get_action_status id = some st := by
  unfold Device.get_action_status at h
  unfold Device.update_action_status
  cases hf : umap_find d._actions id with
  | none => simp [hf] at h
  | some ac =>
    simp [Device.get_action_status, umap_find_assign_same, Action.status, Action.set_status]

theorem Device.get_action_status_update_other (d : Device) (id j : Int) (st : ActionStatus)
    (hj : j ≠ id) :
    (d.update_action_status id st).2.get_action_status j = d.get_action_status j := by
  unfold Device.update_action_status
  cases hf : umap_find d._actions id with
  | none => rfl
  | some ac => simp [Device.get_action_status, umap_find_assign_other _ _ _ _ hj]

theorem Device.get_state_update (d : Device) (id : Int) (st : ActionStatus) :
    (d.update_action_status id st).2.get_state = d.get_state := by
  unfold Device.update_action_status
  cases hf : umap_find d._actions id <;> rfl

theorem Device.get_info_update (d : Device) (id : Int) (st : ActionStatus) :
    (d.update_action_status id st).2.get_info = d.get_info := by
  unfold Device.update_action_status
  cases hf : umap_find d._actions id <;> rfl

/-- The device behind `dev` after the synchronous part of `Initiate`. -/
theorem DevicePool.deref_dispatch (m : Memory) (dev : Nat) (action_type : ActionType)
    (action_param : String) :
    (DevicePool.Initiate_dispatch m dev action_type action_param).2.deref dev =
      (m.deref dev).map (fun d => (d.set_state State.UPDATING).add_action
        { _action_type := action_type, _action_status := ActionStatus.RUNNING,
          _action_param := action_param, _action_id := m._id_gen }) := by
  simp only [DevicePool.Initiate_dispatch, Action.create, Memory.deref_call_same,
    Action.set_status]
  have h0 : Memory.deref { m with _id_gen := wrap32 (m._id_gen + 1) } dev = m.deref dev := rfl
  rw [h0]
  cases h : m.deref dev <;> simp [Action.id]

theorem DevicePool.dispatch_fst (m : Memory) (dev : Nat) (action_type : ActionType)
    (action_param : String) :
    (DevicePool.Initiate_dispatch m dev action_type action_param).1 = m._id_gen := rfl

theorem DevicePool.dispatch_pool (m : Memory) (dev : Nat) (action_type : ActionType)
    (action_param : String) :
    (DevicePool.Initiate_dispatch m dev action_type action_param).2._pool = m._pool := rfl

theorem DevicePool.dispatch_id_gen (m : Memory) (dev : Nat) (action_type : ActionType)
    (action_param : String) :
    (DevicePool.Initiate_dispatch m dev action_type action_param).2._id_gen
      = wrap32 (m._id_gen + 1) := rfl

theorem DevicePool.worker_pool (m : Memory) (dev : Nat) (action_id : Int) :
    (DevicePool.Initiate_worker m dev action_id)._pool = m._pool := rfl

theorem DevicePool.worker_id_gen (m : Memory) (dev : Nat) (action_id : Int) :
    (DevicePool.Initiate_worker m dev action_id)._id_gen = m._id_gen := rfl

/-- The device behind `dev` after the worker has run. -/
theorem DevicePool.deref_worker (m : Memory) (dev : Nat) (action_id : Int) :
    (DevicePool.Initiate_worker m dev action_id).deref dev =
      (m.deref dev).map (fun d =>
        ((d.update_action_status action_id ActionStatus.COMPLETED).2).set_state State.IDLE) := by
  simp only [DevicePool.Initiate_worker, Memory.deref_call_same]
  cases h : m.deref dev <;> simp

/-- Three steps of the scheduler view, from line 181, are the synchronous part. -/
theorem Task.run_dispatch (m : Memory) (dev : Nat) (action_type : ActionType)
    (action_param : String) :
    Task.run 3 m (Task.ini_ctor dev action_type action_param) =
      ((DevicePool.Initiate_dispatch m dev action_type action_param).2,
       Task.wrk_update dev (DevicePool.Initiate_dispatch m dev action_type action_param).1) := rfl

/-- Two steps of the scheduler view, from line 196, are the worker. -/
theorem Task.run_worker (m : Memory) (dev : Nat) (action_id : Int) :
    Task.run 2 m (Task.wrk_update dev action_id) =
      (DevicePool.Initiate_worker m dev action_id, Task.ini_ret action_id) := rfl

/-- Six steps of the scheduler view with nothing in between are `DevicePool.Initiate`. -/
theorem Task.run_Initiate (m : Memory) (device_id : Int) (action_type : ActionType)
    (action_param : String) :
    (Task.run 6 m (Task.ini_find device_id action_type action_param)).1 =
      (DevicePool.Initiate m device_id action_type action_param).2 ∧
    (Task.run 6 m (Task.ini_find device_id action_type action_param)).2.result =
      some (Ret.int (DevicePool.Initiate m device_id action_type action_param).1) := by
  cases h : umap_find m._pool device_id with
  | none => simp [Task.run, Task.step, DevicePool.Initiate, h, Task.result]
  | some dev =>
    simp only [Task.run, Task.step, DevicePool.Initiate, h]
    exact ⟨rfl, rfl⟩

theorem DevicePool.Initiate_found (m : Memory) (device_id : Int) (dev : Nat)
    (action_type : ActionType) (action_param : String)
    (hreg : umap_find m._pool device_id = some dev) :
    DevicePool.Initiate m device_id action_type action_param =
      (m._id_gen, DevicePool.Initiate_worker
        (DevicePool.Initiate_dispatch m dev action_type action_param).2 dev m._id_gen) := by
  simp only [DevicePool.Initiate, hreg]
  rfl

/-- The status of the new action and the state of the device once the worker has run
after the synchronous part, with nothing in between. -/
theorem DevicePool.settled (m : Memory) (dev : Nat) (d0 : Device)
    (action_type : ActionType) (action_param : String) (hd : m.deref dev = some d0) :
    ∃ d, (DevicePool.Initiate_worker
        (DevicePool.Initiate_dispatch m dev action_type action_param).2 dev m._id_gen).deref dev
        = some d ∧
      d.get_action_status m._id_gen = some ActionStatus.COMPLETED ∧
      d.get_state = State.IDLE ∧ d.get_info = d0.get_info := by
  rw [DevicePool.deref_worker, DevicePool.deref_dispatch, hd]
  refine ⟨_, rfl, ?_, rfl, ?_⟩
  · rw [Device.get_action_status_set_state]
    apply Device.get_action_status_update_same
    have h := Device.get_action_status_add_action (d0.set_state State.UPDATING)
      { _action_type := action_type, _action_status := ActionStatus.RUNNING,
        _action_param := action_param, _action_id := m._id_gen }
    simp only [Action.id] at h
    rw [h]
    simp
  · show (Device.update_action_status _ _ _).2.get_info = _
    rw [Device.get_info_update]
    rfl

/-- C4: on a registered device, whatever state it held before the call, once `Initiate`
has returned `a` and its worker has run to the end with nothing else in between (which
is `DevicePool.Initiate`: the synchronous part followed by the worker),
`GetDeviceAction(id, a)` is `COMPLETED` and `GetDevice(id)->get_state()` is `IDLE`. -/
theorem C4_settled_completed_and_idle (m : Memory) (hwf : m.wf) (id : Int) (dev : Nat)
    (action_type : ActionType) (action_param : String)
    (hreg : umap_find m._pool id = some dev) :
    (DevicePool.Initiate m id action_type action_param).2 =
      DevicePool.Initiate_worker
        (DevicePool.Initiate_dispatch m dev action_type action_param).2 dev
        (DevicePool.Initiate m id action_type action_param).1 ∧
    (DevicePool.GetDeviceAction (DevicePool.Initiate m id action_type action_param).2 id
        (DevicePool.Initiate m id action_type action_param).1).1
      = some ActionStatus.COMPLETED ∧
    ∃ d, (DevicePool.GetDevice (DevicePool.Initiate m id action_type action_param).2 id).1
        = some dev ∧
      (DevicePool.Initiate m id action_type action_param).2.deref dev = some d ∧
      d.get_state = State.IDLE := by
  obtain ⟨d0, hd0⟩ := Memory.deref_of_wf m hwf id dev hreg
  obtain ⟨d, hd, hst, hidle, _⟩ := DevicePool.settled m dev d0 action_type action_param hd0
  rw [DevicePool.Initiate_found m id dev action_type action_param hreg]
  refine ⟨rfl, ?_, d, ?_, hd, hidle⟩
  · simp only [DevicePool.GetDeviceAction, DevicePool.worker_pool, DevicePool.dispatch_pool,
      hreg, hd, hst]
  · simp only [DevicePool.GetDevice, DevicePool.worker_pool, DevicePool.dispatch_pool, hreg]

/-- C4 on a registry whose only device, 3, was registered in state `MAINTENANCE`. -/
theorem C4_settled_completed_and_idle_witness :
    (DevicePool.RegisterDevice Memory.init 3 State.MAINTENANCE).wf ∧
    umap_find (DevicePool.RegisterDevice Memory.init 3 State.MAINTENANCE)._pool 3 = some 0 ∧
    ((DevicePool.Initiate (DevicePool.RegisterDevice Memory.init 3 State.MAINTENANCE) 3
        ActionType.SOFTWARE_UPDATE "v2.0").2 =
      DevicePool.Initiate_worker
        (DevicePool.Initiate_dispatch (DevicePool.RegisterDevice Memory.init 3 State.MAINTENANCE)
          0 ActionType.SOFTWARE_UPDATE "v2.0").2 0
        (DevicePool.Initiate (DevicePool.RegisterDevice Memory.init 3 State.MAINTENANCE) 3
          ActionType.SOFTWARE_UPDATE "v2.0").1 ∧
    (DevicePool.GetDeviceAction
        (DevicePool.Initiate (DevicePool.RegisterDevice Memory.init 3 State.MAINTENANCE) 3
          ActionType.SOFTWARE_UPDATE "v2.0").2 3
        (DevicePool.Initiate (DevicePool.RegisterDevice Memory.init 3 State.MAINTENANCE) 3
          ActionType.SOFTWARE_UPDATE "v2.0").1).1
      = some ActionStatus.COMPLETED ∧
    ∃ d, (DevicePool.GetDevice
        (DevicePool.Initiate (DevicePool.RegisterDevice Memory.init 3 State.MAINTENANCE) 3
          ActionType.SOFTWARE_UPDATE "v2.0").2 3).1 = some 0 ∧
      (DevicePool.Initiate (DevicePool.RegisterDevice Memory.init 3 State.MAINTENANCE) 3
          ActionType.SOFTWARE_UPDATE "v2.0").2.deref 0 = some d ∧
      d.get_state = State.IDLE) :=
  ⟨by decide, by decide,
    C4_settled_completed_and_idle (DevicePool.RegisterDevice Memory.init 3 State.MAINTENANCE)
      (by decide) 3 0 ActionType.SOFTWARE_UPDATE "v2.0" (by decide)⟩

/-- C9: on a registered device in any state, right after the synchronous part of
`Initiate` (three scheduler steps from line 181) `GetDevice(id)->get_state()` is
`UPDATING`; after the worker (two more steps) it is `IDLE`, which is not the state held
before the call unless that state was `IDLE`. -/
theorem C9_updating_then_idle (m : Memory) (hwf : m.wf) (id : Int) (dev : Nat)
    (action_type : ActionType) (action_param : String)
    (hreg : umap_find m._pool id = some dev) :
    (Task.step m (Task.ini_find id action_type action_param)
      = (m, Task.ini_ctor dev action_type action_param)) ∧
    (∃ d, (DevicePool.GetDevice
          (Task.run 3 m (Task.ini_ctor dev action_type action_param)).1 id).1 = some dev ∧
        (Task.run 3 m (Task.ini_ctor dev action_type action_param)).1.deref dev = some d ∧
        d.get_state = State.UPDATING) ∧
    (∃ d, (DevicePool.GetDevice
          (Task.run 5 m (Task.ini_ctor dev action_type action_param)).1 id).1 = some dev ∧
        (Task.run 5 m (Task.ini_ctor dev action_type action_param)).1.deref dev = some d ∧
        d.get_state = State.IDLE ∧
        ∀ d0, m.deref dev = some d0 → d0.get_state ≠ State.IDLE →
          d.get_state ≠ d0.get_state) ∧
    (Task.run 5 m (Task.ini_ctor dev action_type action_param)).1 =
      (DevicePool.Initiate m id action_type action_param).2 := by
  obtain ⟨d0, hd0⟩ := Memory.deref_of_wf m hwf id dev hreg
  obtain ⟨d, hd, _, hidle, _⟩ := DevicePool.settled m dev d0 action_type action_param hd0
  have h5 : (Task.run 5 m (Task.ini_ctor dev action_type action_param)).1 =
      DevicePool.Initiate_worker
        (DevicePool.Initiate_dispatch m dev action_type action_param).2 dev m._id_gen := rfl
  refine ⟨?_, ?_, ?_, ?_⟩
  · simp [Task.step, hreg]
  · rw [Task.run_dispatch]
    refine ⟨(d0.set_state State.UPDATING).add_action
        { _action_type := action_type, _action_status := ActionStatus.RUNNING,
          _action_param := action_param, _action_id := m._id_gen }, ?_, ?_, ?_⟩
    · simp only [DevicePool.GetDevice, DevicePool.dispatch_pool, hreg]
    · simp only [DevicePool.deref_dispatch, hd0, Option.map_some']
    · rfl
  · rw [h5]
    refine ⟨d, ?_, hd, hidle, ?_⟩
    · simp only [DevicePool.GetDevice, DevicePool.worker_pool, DevicePool.dispatch_pool, hreg]
    · intro d1 _ hne
      rw [hidle]
      exact fun h => hne h.symm
  · rw [h5, DevicePool.Initiate_found m id dev action_type action_param hreg]

/-- C9 on a registry whose only device, 3, was registered in state `MAINTENANCE`. -/
theorem C9_updating_then_idle_witness :
    (DevicePool.RegisterDevice Memory.init 3 State.MAINTENANCE).wf ∧
    umap_find (DevicePool.RegisterDevice Memory.init 3 State.MAINTENANCE)._pool 3 = some 0 ∧
    ((Task.step (DevicePool.RegisterDevice Memory.init 3 State.MAINTENANCE)
        (Task.ini_find 3 ActionType.SOFTWARE_UPDATE "v2.0")
      = (DevicePool.RegisterDevice Memory.init 3 State.MAINTENANCE,
         Task.ini_ctor 0 ActionType.SOFTWARE_UPDATE "v2.0")) ∧
    (∃ d, (DevicePool.GetDevice
          (Task.run 3 (DevicePool.RegisterDevice Memory.init 3 State.MAINTENANCE)
            (Task.ini_ctor 0 ActionType.SOFTWARE_UPDATE "v2.0")).1 3).1 = some 0 ∧
        (Task.run 3 (DevicePool.RegisterDevice Memory.init 3 State.MAINTENANCE)
            (Task.ini_ctor 0 ActionType.SOFTWARE_UPDATE "v2.0")).1.deref 0 = some d ∧
        d.get_state = State.UPDATING) ∧
    (∃ d, (DevicePool.GetDevice
          (Task.run 5 (DevicePool.RegisterDevice Memory.init 3 State.MAINTENANCE)
            (Task.ini_ctor 0 ActionType.SOFTWARE_UPDATE "v2.0")).1 3).1 = some 0 ∧
        (Task.run 5 (DevicePool.RegisterDevice Memory.init 3 State.MAINTENANCE)
            (Task.ini_ctor 0 ActionType.SOFTWARE_UPDATE "v2.0")).1.deref 0 = some d ∧
        d.get_state = State.IDLE ∧
        ∀ d0, (DevicePool.RegisterDevice Memory.init 3 State.MAINTENANCE).deref 0 = some d0 →
          d0.get_state ≠ State.IDLE → d.get_state ≠ d0.get_state) ∧
    (Task.run 5 (DevicePool.RegisterDevice Memory.init 3 State.MAINTENANCE)
        (Task.ini_ctor 0 ActionType.SOFTWARE_UPDATE "v2.0")).1 =
      (DevicePool.Initiate (DevicePool.RegisterDevice Memory.init 3 State.MAINTENANCE) 3
        ActionType.SOFTWARE_UPDATE "v2.0").2) :=
  ⟨by decide, by decide,
    C9_updating_then_idle (DevicePool.RegisterDevice Memory.init 3 State.MAINTENANCE)
      (by decide) 3 0 ActionType.SOFTWARE_UPDATE "v2.0" (by decide)⟩

/-! ## Reading an action status -/

theorem Memory.view_isSome_of_wf (m : Memory) (hwf : m.wf) (device_id : Int) :
    device_id ∈ umap_keys m._pool ↔ ∃ d, m.view device_id = some d := by
  constructor
  · intro hk
    cases hf : umap_find m._pool device_id with
    | none => exact absurd hk ((umap_find_none_iff _ _).1 hf)
    | some dev =>
      obtain ⟨d, hd⟩ := Memory.deref_of_wf m hwf device_id dev hf
      exact ⟨d, by simp [Memory.view, hf, hd]⟩
  · rintro ⟨d, hd⟩
    by_contra hk
    have hf := (umap_find_none_iff _ _).2 hk
    simp [Memory.view, hf] at hd

theorem DevicePool.GetDeviceAction_eq (m : Memory) (device_id action_id : Int) :
    (DevicePool.GetDeviceAction m device_id action_id).1 =
      (m.view device_id).bind (fun d => d.get_action_status action_id) := by
  unfold DevicePool.GetDeviceAction Memory.view
  cases hf : umap_find m._pool device_id with
  | none => rfl
  | some dev =>
    cases hd : m.deref dev with
    | none => simp [hd]
    | some d => simp [hd]

/-- C6: `GetDeviceAction(device_id, action_id)` leaves the memory unchanged; it returns a
status exactly when `device_id` is registered and `action_id` is a key of the action map
of its device, and that status is the one stored for the action; it returns the one
absent value both for an unknown device and for an unknown action of a known device. -/
theorem C6_get_device_action (m : Memory) (hwf : m.wf) (device_id action_id : Int) :
    (DevicePool.GetDeviceAction m device_id action_id).2 = m ∧
    ((DevicePool.GetDeviceAction m device_id action_id).1 ≠ none ↔
      device_id ∈ umap_keys m._pool ∧
        ∃ d, m.view device_id = some d ∧ action_id ∈ umap_keys d._actions) ∧
    (∀ st, (DevicePool.GetDeviceAction m device_id action_id).1 = some st ↔
      ∃ d ac, m.view device_id = some d ∧ umap_find d._actions action_id = some ac ∧
        ac.status = st) ∧
    (device_id ∉ umap_keys m._pool →
      (DevicePool.GetDeviceAction m device_id action_id).1 = none) ∧
    (∀ d, m.view device_id = some d → action_id ∉ umap_keys d._actions →
      (DevicePool.GetDeviceAction m device_id action_id).1 = none) := by
  have hres := DevicePool.GetDeviceAction_eq m device_id action_id
  have hst : ∀ st, (DevicePool.GetDeviceAction m device_id action_id).1 = some st ↔
      ∃ d ac, m.view device_id = some d ∧ umap_find d._actions action_id = some ac ∧
        ac.status = st := by
    intro st
    rw [hres]
    cases hv : m.view device_id with
    | none => simp
    | some d =>
      cases hf : umap_find d._actions action_id with
      | none => simp [Device.get_action_status, hf]
      | some ac => simp [Device.get_action_status, hf]
  refine ⟨?_, ?_, hst, ?_, ?_⟩
  · unfold DevicePool.GetDeviceAction
    cases hf : umap_find m._pool device_id with
    | none => rfl
    | some dev => cases hd : m.deref dev <;> simp [hd]
  · constructor
    · intro hne
      obtain ⟨st, hsome⟩ := Option.ne_none_iff_exists'.1 hne
      obtain ⟨d, ac, hv, hf, _⟩ := (hst st).1 hsome
      refine ⟨(Memory.view_isSome_of_wf m hwf device_id).2 ⟨d, hv⟩, d, hv, ?_⟩
      by_contra hk
      rw [(umap_find_none_iff _ _).2 hk] at hf
      exact Option.noConfusion hf
    · rintro ⟨_, d, hv, hk⟩
      cases hf : umap_find d._actions action_id with
      | none => exact absurd hk ((umap_find_none_iff _ _).1 hf)
      | some ac =>
        rw [(hst ac.status).2 ⟨d, ac, hv, hf, rfl⟩]
        simp
  · intro hk
    have hf := (umap_find_none_iff _ _).2 hk
    rw [hres]
    simp [Memory.view, hf]
  · intro d hv hk
    have hf := (umap_find_none_iff _ _).2 hk
    rw [hres, hv]
    simp [Device.get_action_status, hf]

/-- C6 on `Memory.sample`, for device 7 and its action 4. -/
theorem C6_get_device_action_witness :
    Memory.sample.wf ∧
    ((DevicePool.GetDeviceAction Memory.sample 7 4).2 = Memory.sample ∧
    ((DevicePool.GetDeviceAction Memory.sample 7 4).1 ≠ none ↔
      7 ∈ umap_keys Memory.sample._pool ∧
        ∃ d, Memory.sample.view 7 = some d ∧ 4 ∈ umap_keys d._actions) ∧
    (∀ st, (DevicePool.GetDeviceAction Memory.sample 7 4).1 = some st ↔
      ∃ d ac, Memory.sample.view 7 = some d ∧ umap_find d._actions 4 = some ac ∧
        ac.status = st) ∧
    (7 ∉ umap_keys Memory.sample._pool →
      (DevicePool.GetDeviceAction Memory.sample 7 4).1 = none) ∧
    (∀ d, Memory.sample.view 7 = some d → 4 ∉ umap_keys d._actions →
      (DevicePool.GetDeviceAction Memory.sample 7 4).1 = none)) :=
  ⟨by decide, C6_get_device_action Memory.sample (by decide) 7 4⟩

/-! ## Re-registration and status changes -/

theorem umap_assign_mem {V : Type} (m : unordered_map V) (key : Int) (v : V) (e : Int × V)
    (he : e ∈ umap_assign m key v) : e = (key, v) ∨ e ∈ m := by
  induction m with
  | nil => simpa [umap_assign] using he
  | cons x m ih =>
    obtain ⟨k, w⟩ := x
    by_cases hk : k = key
    · simp only [umap_assign, hk, if_true, List.mem_cons] at he
      rcases he with he | he
      · exact Or.inl he
      · exact Or.inr (List.mem_cons_of_mem _ he)
    · simp only [umap_assign, hk, if_false, List.mem_cons] at he
      rcases he with he | he
      · exact Or.inr (by simp [he])
      · rcases ih he with h | h
        · exact Or.inl h
        · exact Or.inr (List.mem_cons_of_mem _ h)

theorem DevicePool.RegisterDevice_wf (m : Memory) (hwf : m.wf) (id : Int) (s : State) :
    (DevicePool.RegisterDevice m id s).wf := by
  refine ⟨?_, hwf.2⟩
  intro e he
  simp only [DevicePool.RegisterDevice, List.length_append, List.length_singleton]
  rcases umap_assign_mem _ _ _ _ he with h | h
  · simp [h]
  · exact Nat.lt_succ_of_lt (hwf.1 e h)

theorem DevicePool.RegisterDevice_view_same (m : Memory) (id : Int) (s : State) :
    (DevicePool.RegisterDevice m id s).view id = some (Device.create s) := by
  simp [Memory.view, DevicePool.RegisterDevice, umap_find_assign_same, Memory.deref]

theorem DevicePool.RegisterDevice_view_other (m : Memory) (hwf : m.wf) (id j : Int)
    (s : State) (hj : j ≠ id) :
    (DevicePool.RegisterDevice m id s).view j = m.view j := by
  simp only [Memory.view, DevicePool.RegisterDevice, umap_find_assign_other _ _ _ _ hj]
  cases hf : umap_find m._pool j with
  | none => rfl
  | some dev =>
    have hlt : dev < m.heap.length := hwf.1 _ (umap_find_mem _ _ _ hf)
    simp [Memory.deref, List.getElem?_append_left hlt]

/-- C7: after `RegisterDevice(id, s)` no action is reachable under `id`
(`GetDeviceAction(id, a)` is absent for every `a`, so for every id the old device held);
for every other device id `j` the pointer returned by `GetDevice(j)`, the device it points
to (state, info, actions) and every `GetDeviceAction(j, a)` are unchanged; and registering
`id` with `s` a second time shows the same device under every id as registering once. -/
theorem C7_reregister_replaces (m : Memory) (hwf : m.wf) (id : Int) (s : State) :
    (∀ a, (DevicePool.GetDeviceAction (DevicePool.RegisterDevice m id s) id a).1 = none) ∧
    (∀ j, j ≠ id →
      (DevicePool.GetDevice (DevicePool.RegisterDevice m id s) j).1
        = (DevicePool.GetDevice m j).1 ∧
      (DevicePool.RegisterDevice m id s).view j = m.view j ∧
      ∀ a, (DevicePool.GetDeviceAction (DevicePool.RegisterDevice m id s) j a).1
        = (DevicePool.GetDeviceAction m j a).1) ∧
    (∀ j, (DevicePool.RegisterDevice (DevicePool.RegisterDevice m id s) id s).view j
        = (DevicePool.RegisterDevice m id s).view j) ∧
    (DevicePool.RegisterDevice (DevicePool.RegisterDevice m id s) id s)._id_gen
        = (DevicePool.RegisterDevice m id s)._id_gen := by
  refine ⟨?_, ?_, ?_, rfl⟩
  · intro a
    rw [DevicePool.GetDeviceAction_eq, DevicePool.RegisterDevice_view_same]
    simp [Device.get_action_status, Device.create, umap_find]
  · intro j hj
    have hv := DevicePool.RegisterDevice_view_other m hwf id j s hj
    refine ⟨?_, hv, ?_⟩
    · simp [DevicePool.GetDevice, DevicePool.RegisterDevice, umap_find_assign_other _ _ _ _ hj]
    · intro a
      rw [DevicePool.GetDeviceAction_eq, DevicePool.GetDeviceAction_eq, hv]
  · intro j
    by_cases hj : j = id
    · subst hj
      rw [DevicePool.RegisterDevice_view_same, DevicePool.RegisterDevice_view_same]
    · exact DevicePool.RegisterDevice_view_other _
        (DevicePool.RegisterDevice_wf m hwf id s) id j s hj

/-- C7 on `Memory.sample`: device 7, which holds action 4, is registered again. -/
theorem C7_reregister_replaces_witness :
    Memory.sample.wf ∧
    ((∀ a, (DevicePool.GetDeviceAction
        (DevicePool.RegisterDevice Memory.sample 7 State.OFFLINE) 7 a).1 = none) ∧
    (∀ j, j ≠ 7 →
      (DevicePool.GetDevice (DevicePool.RegisterDevice Memory.sample 7 State.OFFLINE) j).1
        = (DevicePool.GetDevice Memory.sample j).1 ∧
      (DevicePool.RegisterDevice Memory.sample 7 State.OFFLINE).view j = Memory.sample.view j ∧
      ∀ a, (DevicePool.GetDeviceAction
          (DevicePool.RegisterDevice Memory.sample 7 State.OFFLINE) j a).1
        = (DevicePool.GetDeviceAction Memory.sample j a).1) ∧
    (∀ j, (DevicePool.RegisterDevice
          (DevicePool.RegisterDevice Memory.sample 7 State.OFFLINE) 7 State.OFFLINE).view j
        = (DevicePool.RegisterDevice Memory.sample 7 State.OFFLINE).view j) ∧
    (DevicePool.RegisterDevice
          (DevicePool.RegisterDevice Memory.sample 7 State.OFFLINE) 7 State.OFFLINE)._id_gen
        = (DevicePool.RegisterDevice Memory.sample 7 State.OFFLINE)._id_gen) :=
  ⟨by decide, C7_reregister_replaces Memory.sample (by decide) 7 State.OFFLINE⟩

/-- C8: `SetDeviceStatus(id, s)` returns `false` exactly when `id` is not registered, and
then the memory is unchanged; when `id` is registered it returns `true`, the table and
the id generator are unchanged, the device of `id` has state `s` with its info and its
action map as before, and every other device object is unchanged. -/
theorem C8_set_device_status (m : Memory) (hwf : m.wf) (id : Int) (s : State) :
    ((DevicePool.SetDeviceStatus m id s).1 = false ↔ id ∉ umap_keys m._pool) ∧
    (id ∉ umap_keys m._pool → (DevicePool.SetDeviceStatus m id s).2 = m) ∧
    (id ∈ umap_keys m._pool →
      (DevicePool.SetDeviceStatus m id s).1 = true ∧
      (DevicePool.SetDeviceStatus m id s).2._pool = m._pool ∧
      (DevicePool.SetDeviceStatus m id s).2._id_gen = m._id_gen ∧
      ∃ dev d0 d, umap_find m._pool id = some dev ∧ m.deref dev = some d0 ∧
        (DevicePool.SetDeviceStatus m id s).2.deref dev = some d ∧
        d.get_state = s ∧ d.get_info = d0.get_info ∧ d._actions = d0._actions ∧
        ∀ dev2, dev2 ≠ dev →
          (DevicePool.SetDeviceStatus m id s).2.deref dev2 = m.deref dev2) := by
  refine ⟨?_, ?_, ?_⟩
  · rw [← umap_find_none_iff]
    unfold DevicePool.SetDeviceStatus
    cases hf : umap_find m._pool id <;> simp
  · intro hk
    have hf := (umap_find_none_iff _ _).2 hk
    simp [DevicePool.SetDeviceStatus, hf]
  · intro hk
    cases hf : umap_find m._pool id with
    | none => exact absurd hk ((umap_find_none_iff _ _).1 hf)
    | some dev =>
      obtain ⟨d0, hd0⟩ := Memory.deref_of_wf m hwf id dev hf
      have hs : DevicePool.SetDeviceStatus m id s
          = (true, m.call dev (fun d => d.set_state s)) := by
        simp [DevicePool.SetDeviceStatus, hf]
      rw [hs]
      refine ⟨rfl, rfl, rfl, dev, d0, d0.set_state s, rfl, hd0, ?_, rfl, rfl, rfl, ?_⟩
      · rw [Memory.deref_call_same, hd0]
        rfl
      · intro dev2 hne
        exact Memory.deref_call_other m dev dev2 _ (Ne.symm hne)

/-- C8 on `Memory.sample`: device 7 is set to `ERROR`. -/
theorem C8_set_device_status_witness :
    Memory.sample.wf ∧
    (((DevicePool.SetDeviceStatus Memory.sample 7 State.ERROR).1 = false ↔
        7 ∉ umap_keys Memory.sample._pool) ∧
    (7 ∉ umap_keys Memory.sample._pool →
      (DevicePool.SetDeviceStatus Memory.sample 7 State.ERROR).2 = Memory.sample) ∧
    (7 ∈ umap_keys Memory.sample._pool →
      (DevicePool.SetDeviceStatus Memory.sample 7 State.ERROR).1 = true ∧
      (DevicePool.SetDeviceStatus Memory.sample 7 State.ERROR).2._pool = Memory.sample._pool ∧
      (DevicePool.SetDeviceStatus Memory.sample 7 State.ERROR).2._id_gen
        = Memory.sample._id_gen ∧
      ∃ dev d0 d, umap_find Memory.sample._pool 7 = some dev ∧
        Memory.sample.deref dev = some d0 ∧
        (DevicePool.SetDeviceStatus Memory.sample 7 State.ERROR).2.deref dev = some d ∧
        d.get_state = State.ERROR ∧ d.get_info = d0.get_info ∧ d._actions = d0._actions ∧
        ∀ dev2, dev2 ≠ dev →
          (DevicePool.SetDeviceStatus Memory.sample 7 State.ERROR).2.deref dev2
            = Memory.sample.deref dev2)) :=
  ⟨by decide, C8_set_device_status Memory.sample (by decide) 7 State.ERROR⟩

/-! ## The id generator -/

theorem wrap32_wrap32_add (x y : Int) : wrap32 (wrap32 x + y) = wrap32 (x + y) := by
  unfold wrap32
  omega

theorem wrap32_of_range (x : Int) (h1 : -2 ^ 31 ≤ x) (h2 : x < 2 ^ 31) : wrap32 x = x := by
  unfold wrap32
  omega

theorem wrap32_range (x : Int) : -2 ^ 31 ≤ wrap32 x ∧ wrap32 x < 2 ^ 31 := by
  unfold wrap32
  omega

theorem wrap32_inj (g : Int) (j k : Nat) (hj : j < 2 ^ 32) (hk : k < 2 ^ 32)
    (h : wrap32 (g + j) = wrap32 (g + k)) : j = k := by
  unfold wrap32 at h
  omega

theorem id_seq_length (g : Int) (n : Nat) : (id_seq g n).length = n := by
  simp [id_seq]

theorem id_seq_cons (g : Int) (n : Nat) (h1 : -2 ^ 31 ≤ g) (h2 : g < 2 ^ 31) :
    id_seq g (n + 1) = g :: id_seq (wrap32 (g + 1)) n := by
  unfold id_seq
  rw [List.range_succ_eq_map, List.map_cons, List.map_map]
  congr 1
  · simpa using wrap32_of_range g h1 h2
  · apply List.map_congr_left
    intro k _
    simp only [Function.comp, Nat.succ_eq_add_one, Nat.cast_add, Nat.cast_one]
    rw [wrap32_wrap32_add]
    congr 1
    omega

theorem id_seq_snoc (g : Int) (n : Nat) :
    id_seq g (n + 1) = id_seq g n ++ [wrap32 (g + n)] := by
  simp [id_seq, List.range_succ]

/-- While the generator stays below `2 ^ 31` the ids it hands out increase strictly. -/
theorem id_seq_increasing (g : Int) (n : Nat) (h1 : -2 ^ 31 ≤ g) (h2 : g + n ≤ 2 ^ 31) :
    (id_seq g n).Pairwise (fun a b => a < b) := by
  unfold id_seq
  rw [List.pairwise_map]
  refine List.Pairwise.imp_of_mem ?_ (List.pairwise_lt_range n)
  intro a b ha hb hab
  have ha2 := List.mem_range.1 ha
  have hb2 := List.mem_range.1 hb
  unfold wrap32
  omega

/-- Within `2 ^ 32` consecutive values no id comes twice. -/
theorem id_seq_nodup (g : Int) (n : Nat) (hn : n ≤ 2 ^ 32) : (id_seq g n).Nodup := by
  unfold id_seq
  refine List.Nodup.map_on ?_ (List.nodup_range n)
  intro a ha b hb hab
  have ha2 := List.mem_range.1 ha
  have hb2 := List.mem_range.1 hb
  exact wrap32_inj g a b (by omega) (by omega) hab

/-- Once the generator has passed `2 ^ 31 - 1` the ids no longer increase. -/
theorem id_seq_not_increasing (g : Int) (n : Nat) (h1 : -2 ^ 31 ≤ g) (h2 : g < 2 ^ 31)
    (h3 : 2 ^ 31 < g + n) : ¬ (id_seq g n).Pairwise (fun a b => a < b) := by
  intro hp
  rw [List.pairwise_iff_getElem] at hp
  have hlen := id_seq_length g n
  have hi : (2 ^ 31 - 1 - g).toNat < (id_seq g n).length := by rw [hlen]; omega
  have hj : (2 ^ 31 - 1 - g).toNat + 1 < (id_seq g n).length := by rw [hlen]; omega
  have h := hp _ _ hi hj (Nat.lt_succ_self _)
  simp only [id_seq, List.getElem_map, List.getElem_range] at h
  unfold wrap32 at h
  omega

/-! ### Calls made one after the other -/

theorem DevicePool.SetDeviceStatus_id_gen (m : Memory) (id : Int) (st : State) :
    (DevicePool.SetDeviceStatus m id st).2._id_gen = m._id_gen := by
  unfold DevicePool.SetDeviceStatus
  cases umap_find m._pool id <;> rfl

theorem DevicePool.GetDeviceAction_mem (m : Memory) (id a : Int) :
    (DevicePool.GetDeviceAction m id a).2 = m := by
  unfold DevicePool.GetDeviceAction
  cases hf : umap_find m._pool id with
  | none => rfl
  | some dev => cases hd : m.deref dev <;> simp [hd]

/-- The ids returned by a list of calls made in a row are the consecutive values of the
generator, and the generator ends that many values further. -/
theorem DevicePool.returned_ids_eq (cs : List Call) :
    ∀ m : Memory, -2 ^ 31 ≤ m._id_gen → m._id_gen < 2 ^ 31 →
      DevicePool.returned_ids m cs = id_seq m._id_gen (DevicePool.returned_ids m cs).length ∧
      (DevicePool.run m cs)._id_gen
        = wrap32 (m._id_gen + ((DevicePool.returned_ids m cs).length : Int)) := by
  induction cs with
  | nil =>
    intro m h1 h2
    simp [DevicePool.returned_ids, DevicePool.run, id_seq, wrap32_of_range _ h1 h2]
  | cons c cs ih =>
    intro m h1 h2
    cases c with
    | RegisterDevice id st =>
      exact ih (DevicePool.RegisterDevice m id st) h1 h2
    | SetDeviceStatus id st =>
      have hg := DevicePool.SetDeviceStatus_id_gen m id st
      have h := ih (DevicePool.SetDeviceStatus m id st).2 (by rw [hg]; exact h1)
        (by rw [hg]; exact h2)
      rw [hg] at h
      exact h
    | GetDevice id =>
      exact ih m h1 h2
    | GetDeviceAction id a =>
      have hm := DevicePool.GetDeviceAction_mem m id a
      have h := ih (DevicePool.GetDeviceAction m id a).2 (by rw [hm]; exact h1)
        (by rw [hm]; exact h2)
      simp only [DevicePool.returned_ids, DevicePool.run, DevicePool.invoke]
      rw [hm] at h ⊢
      exact h
    | Initiate id ty p =>
      cases hf : umap_find m._pool id with
      | none =>
        have hm : DevicePool.Initiate m id ty p = (-1, m) := by
          simp [DevicePool.Initiate, hf]
        simp only [DevicePool.returned_ids, DevicePool.run, DevicePool.invoke, hf, hm]
        exact ih m h1 h2
      | some dev =>
        have hm := DevicePool.Initiate_found m id dev ty p hf
        have hr := wrap32_range (m._id_gen + 1)
        have h := ih (DevicePool.Initiate m id ty p).2 (by rw [hm]; exact hr.1)
          (by rw [hm]; exact hr.2)
        simp only [DevicePool.returned_ids, DevicePool.run, DevicePool.invoke, hf,
          List.length_cons]
        rw [hm] at h ⊢
        simp only [DevicePool.worker_id_gen, DevicePool.dispatch_id_gen] at h ⊢
        rw [id_seq_cons _ _ h1 h2]
        refine ⟨?_, ?_⟩
        · rw [← h.1]
        · rw [h.2, wrap32_wrap32_add]
          congr 1
          push_cast
          ring

theorem DevicePool.returned_ids_replicate (id : Int) (ty : ActionType) (p : String)
    (dev : Nat) (n : Nat) :
    ∀ m : Memory, umap_find m._pool id = some dev →
      (DevicePool.returned_ids m (List.replicate n (Call.Initiate id ty p))).length = n := by
  induction n with
  | zero => intro m _; rfl
  | succ n ih =>
    intro m hf
    have hm := DevicePool.Initiate_found m id dev ty p hf
    simp only [List.replicate_succ, DevicePool.returned_ids, hf, List.length_cons]
    rw [ih]
    rw [hm]
    exact hf

/-! ### Calls under the scheduler -/

theorem Memory.call_id_gen (m : Memory) (dev : Nat) (f : Device → Device) :
    (m.call dev f)._id_gen = m._id_gen := rfl

theorem Memory.call_pool (m : Memory) (dev : Nat) (f : Device → Device) :
    (m.call dev f)._pool = m._pool := rfl

/-- A step either is the construction of an action, which hands out the value of the
generator and advances it, or leaves the generator and the id held by the task alone. -/
theorem Task.step_issue (m : Memory) (t : Task) :
    (∃ dev ty p, t = Task.ini_ctor dev ty p ∧
        (t.step m).1._id_gen = wrap32 (m._id_gen + 1) ∧
        t.held = none ∧ (t.step m).2.held = some m._id_gen) ∨
    ((∀ dev ty p, t ≠ Task.ini_ctor dev ty p) ∧
        (t.step m).1._id_gen = m._id_gen ∧ (t.step m).2.held = t.held) := by
  cases t with
  | ini_ctor dev ty p => exact Or.inl ⟨dev, ty, p, rfl, rfl, rfl, rfl⟩
  | set_find id st =>
    refine Or.inr ⟨by intros; simp, ?_⟩
    simp only [Task.step]
    cases umap_find m._pool id <;> exact ⟨rfl, rfl⟩
  | ini_find id ty p =>
    refine Or.inr ⟨by intros; simp, ?_⟩
    simp only [Task.step]
    cases umap_find m._pool id <;> exact ⟨rfl, rfl⟩
  | get_find id a =>
    refine Or.inr ⟨by intros; simp, ?_⟩
    simp only [Task.step]
    cases umap_find m._pool id <;> exact ⟨rfl, rfl⟩
  | get_read dev a =>
    refine Or.inr ⟨by intros; simp, ?_⟩
    simp only [Task.step]
    cases m.deref dev <;> exact ⟨rfl, rfl⟩
  | _ => exact Or.inr ⟨by intros; simp, rfl, rfl⟩

theorem Sys.advance_none (s : Sys) (i : Nat) (h : s.threads[i]? = none) :
    s.advance i = s := by
  simp [Sys.advance, h]

theorem Sys.advance_some (s : Sys) (i : Nat) (t : Task) (h : s.threads[i]? = some t) :
    s.advance i = { mem := (t.step s.mem).1, threads := s.threads.set i (t.step s.mem).2 } := by
  simp [Sys.advance, h]

/-- The thread list around the position that takes a step. -/
theorem Sys.advance_split (s : Sys) (i : Nat) (t : Task) (h : s.threads[i]? = some t) :
    ∃ l₁ l₂, s.threads = l₁ ++ t :: l₂ ∧ l₁.length = i ∧
      (s.advance i).threads = l₁ ++ (t.step s.mem).2 :: l₂ ∧
      (s.advance i).mem = (t.step s.mem).1 := by
  obtain ⟨hi, ht⟩ := List.getElem?_eq_some.1 h
  refine ⟨s.threads.take i, s.threads.drop (i + 1), ?_, ?_, ?_, ?_⟩
  · rw [← ht]
    exact (List.take_append_drop i s.threads).symm.trans (by rw [List.drop_eq_getElem_cons hi])
  · simp [List.length_take, Nat.min_eq_left (Nat.le_of_lt hi)]
  · rw [Sys.advance_some s i t h]
    simp [List.set_eq_take_append_cons_drop, hi]
  · rw [Sys.advance_some s i t h]

theorem Sys.issued_cons_none (s : Sys) (i : Nat) (sched : List Nat)
    (h : s.threads[i]? = none) : s.issued (i :: sched) = s.issued sched := by
  simp [Sys.issued, h, Sys.advance_none s i h]

theorem Sys.issued_cons_ctor (s : Sys) (i : Nat) (sched : List Nat) (dev : Nat)
    (ty : ActionType) (p : String) (h : s.threads[i]? = some (Task.ini_ctor dev ty p)) :
    s.issued (i :: sched) = s.mem._id_gen :: (s.advance i).issued sched := by
  simp [Sys.issued, h]

theorem Sys.issued_cons_other (s : Sys) (i : Nat) (sched : List Nat) (t : Task)
    (h : s.threads[i]? = some t) (hne : ∀ dev ty p, t ≠ Task.ini_ctor dev ty p) :
    s.issued (i :: sched) = (s.advance i).issued sched := by
  cases t with
  | ini_ctor dev ty p => exact absurd rfl (hne dev ty p)
  | _ => simp [Sys.issued, h]

theorem Sys.exec_cons (s : Sys) (i : Nat) (sched : List Nat) :
    s.exec (i :: sched) = (s.advance i).exec sched := rfl

/-- The ids handed out along a schedule are the consecutive values of the generator, and
the generator ends that many values further. -/
theorem Sys.issued_eq (sched : List Nat) :
    ∀ s : Sys, -2 ^ 31 ≤ s.mem._id_gen → s.mem._id_gen < 2 ^ 31 →
      s.issued sched = id_seq s.mem._id_gen (s.issued sched).length ∧
      (s.exec sched).mem._id_gen = wrap32 (s.mem._id_gen + ((s.issued sched).length : Int)) := by
  induction sched with
  | nil =>
    intro s h1 h2
    simp [Sys.issued, Sys.exec, id_seq, wrap32_of_range _ h1 h2]
  | cons i sched ih =>
    intro s h1 h2
    rw [Sys.exec_cons]
    cases h : s.threads[i]? with
    | none =>
      rw [Sys.issued_cons_none s i sched h, Sys.advance_none s i h]
      exact ih s h1 h2
    | some t =>
      have hmem : (s.advance i).mem = (t.step s.mem).1 := by rw [Sys.advance_some s i t h]
      rcases Task.step_issue s.mem t with ⟨dev, ty, p, ht, hg, _, _⟩ | ⟨hne, hg, _⟩
      · subst ht
        have hr := wrap32_range (s.mem._id_gen + 1)
        have hg2 : (s.advance i).mem._id_gen = wrap32 (s.mem._id_gen + 1) := by rw [hmem, hg]
        have h3 := ih (s.advance i) (by rw [hg2]; exact hr.1) (by rw [hg2]; exact hr.2)
        rw [Sys.issued_cons_ctor s i sched dev ty p h, List.length_cons,
          id_seq_cons _ _ h1 h2]
        rw [hg2] at h3
        refine ⟨?_, ?_⟩
        · rw [← h3.1]
        · rw [h3.2, wrap32_wrap32_add]
          congr 1
          push_cast
          ring
      · have hg2 : (s.advance i).mem._id_gen = s.mem._id_gen := by rw [hmem, hg]
        have h3 := ih (s.advance i) (by rw [hg2]; exact h1) (by rw [hg2]; exact h2)
        rw [Sys.issued_cons_other s i sched t h hne]
        rw [hg2] at h3
        exact h3

/-- Every id handed out along a schedule is held by exactly one call, and the calls hold
no other ids than those they held before and those handed out. -/
theorem Sys.held_perm (sched : List Nat) :
    ∀ s : Sys, ((s.exec sched).threads.filterMap Task.held).Perm
      (s.threads.filterMap Task.held ++ s.issued sched) := by
  induction sched with
  | nil => intro s; simp [Sys.issued, Sys.exec]
  | cons i sched ih =>
    intro s
    rw [Sys.exec_cons]
    cases h : s.threads[i]? with
    | none =>
      rw [Sys.issued_cons_none s i sched h, Sys.advance_none s i h]
      exact ih s
    | some t =>
      obtain ⟨l₁, l₂, hs, _, hadv, hmem⟩ := Sys.advance_split s i t h
      refine (ih (s.advance i)).trans ?_
      rcases Task.step_issue s.mem t with ⟨dev, ty, p, ht, _, hh1, hh2⟩ | ⟨hne, _, hh⟩
      · rw [ht] at h
        rw [Sys.issued_cons_ctor s i sched dev ty p h, hadv, hs]
        simp only [List.filterMap_append, List.filterMap_cons, hh1, hh2, List.append_assoc]
        refine List.Perm.append_left _ ?_
        exact List.perm_middle.symm
      · rw [Sys.issued_cons_other s i sched t h hne, hadv, hs]
        simp only [List.filterMap_append, List.filterMap_cons, hh]
        exact List.Perm.refl _

theorem Call.start_held (c : Call) : c.start.held = none := by
  cases c <;> rfl

theorem Sys.calls_held (m : Memory) (cs : List Call) :
    (Sys.calls m cs).threads.filterMap Task.held = [] := by
  induction cs with
  | nil => rfl
  | cons c cs ih =>
    simp only [Sys.calls, List.map_cons, List.filterMap_cons, Call.start_held] at ih ⊢
    exact ih

theorem id_seq_getElem? (g : Int) (n k : Nat) (hk : k < n) :
    (id_seq g n)[k]? = some (wrap32 (g + (k : Int))) := by
  simp [id_seq, List.getElem?_map, List.getElem?_range hk]

/-- The ids returned by `n` calls of `Initiate(0, ...)` made in a row right after
`RegisterDevice(0, IDLE)` at process start. -/
theorem DevicePool.returned_ids_from_start (n : Nat) :
    DevicePool.returned_ids Memory.init
      (Call.RegisterDevice 0 State.IDLE ::
        List.replicate n (Call.Initiate 0 ActionType.SOFTWARE_UPDATE "")) = id_seq 1 n := by
  have hreg : umap_find (DevicePool.RegisterDevice Memory.init 0 State.IDLE)._pool 0 = some 0 :=
    rfl
  have hlen := DevicePool.returned_ids_replicate 0 ActionType.SOFTWARE_UPDATE "" 0 n
    (DevicePool.RegisterDevice Memory.init 0 State.IDLE) hreg
  have h := (DevicePool.returned_ids_eq
    (List.replicate n (Call.Initiate 0 ActionType.SOFTWARE_UPDATE ""))
    (DevicePool.RegisterDevice Memory.init 0 State.IDLE) (by decide) (by decide)).1
  rw [hlen] at h
  exact h

/-- C5 as stated fails: at process start, `RegisterDevice(0, IDLE)` followed by `2 ^ 31`
calls of `Initiate(0, SOFTWARE_UPDATE, "")` made one after the other.  The call number
`2 ^ 31 - 1` returns `2147483647` and the next one returns `-2147483648`, so the ids
returned are not strictly increasing in call order. -/
theorem C5_ids_wrap_counterexample :
    (DevicePool.returned_ids Memory.init
      (Call.RegisterDevice 0 State.IDLE ::
        List.replicate (2 ^ 31) (Call.Initiate 0 ActionType.SOFTWARE_UPDATE "")))[2 ^ 31 - 2]?
      = some 2147483647 ∧
    (DevicePool.returned_ids Memory.init
      (Call.RegisterDevice 0 State.IDLE ::
        List.replicate (2 ^ 31) (Call.Initiate 0 ActionType.SOFTWARE_UPDATE "")))[2 ^ 31 - 1]?
      = some (-2147483648) ∧
    ¬ (DevicePool.returned_ids Memory.init
      (Call.RegisterDevice 0 State.IDLE ::
        List.replicate (2 ^ 31) (Call.Initiate 0 ActionType.SOFTWARE_UPDATE ""))).Pairwise
      (fun a b => a < b) := by
  rw [DevicePool.returned_ids_from_start]
  refine ⟨?_, ?_, ?_⟩
  · rw [id_seq_getElem? 1 (2 ^ 31) (2 ^ 31 - 2) (by norm_num)]
    decide
  · rw [id_seq_getElem? 1 (2 ^ 31) (2 ^ 31 - 1) (by norm_num)]
    decide
  · exact id_seq_not_increasing 1 (2 ^ 31) (by norm_num) (by norm_num) (by norm_num)

/-- C5 (amended): from a memory whose generator holds `g`, as long as the generator has
not passed `2 ^ 31 - 1` (that is `g + n ≤ 2 ^ 31` for the `n` ids handed out; `n ≤ 2 ^ 31 - 1`
from process start) the action ids come out strictly increasing, and within `2 ^ 32` ids
none comes twice.  This holds for the ids returned, in call order, by any list of calls
made one after the other, and under the scheduler for the ids in the order in which the
calls construct their `Action`; there the ids held or returned by the calls are exactly
the ids handed out, one call each.  In both views the ids are `g, g + 1, ...` reduced to
32 bits. -/
theorem C5_ids_increasing_until_wrap (m : Memory) (hwf : m.wf) (cs : List Call)
    (sched : List Nat) :
    (DevicePool.returned_ids m cs = id_seq m._id_gen (DevicePool.returned_ids m cs).length ∧
     (m._id_gen + ((DevicePool.returned_ids m cs).length : Int) ≤ 2 ^ 31 →
        (DevicePool.returned_ids m cs).Pairwise (fun a b => a < b)) ∧
     ((DevicePool.returned_ids m cs).length ≤ 2 ^ 32 →
        (DevicePool.returned_ids m cs).Nodup)) ∧
    ((Sys.calls m cs).issued sched
        = id_seq m._id_gen ((Sys.calls m cs).issued sched).length ∧
     (m._id_gen + (((Sys.calls m cs).issued sched).length : Int) ≤ 2 ^ 31 →
        ((Sys.calls m cs).issued sched).Pairwise (fun a b => a < b)) ∧
     (((Sys.calls m cs).exec sched).threads.filterMap Task.held).Perm
        ((Sys.calls m cs).issued sched) ∧
     (((Sys.calls m cs).issued sched).length ≤ 2 ^ 32 →
        (((Sys.calls m cs).exec sched).threads.filterMap Task.held).Nodup)) := by
  obtain ⟨_, h1, h2⟩ := hwf
  have hseq := (DevicePool.returned_ids_eq cs m h1 h2).1
  have hiss := (Sys.issued_eq sched (Sys.calls m cs) h1 h2).1
  have hperm := Sys.held_perm sched (Sys.calls m cs)
  rw [Sys.calls_held, List.nil_append] at hperm
  have hg : (Sys.calls m cs).mem._id_gen = m._id_gen := rfl
  rw [hg] at hiss
  refine ⟨⟨hseq, ?_, ?_⟩, hiss, ?_, hperm, ?_⟩
  · intro hb
    rw [hseq]
    exact id_seq_increasing _ _ h1 hb
  · intro hb
    rw [hseq]
    exact id_seq_nodup _ _ hb
  · intro hb
    rw [hiss]
    exact id_seq_increasing _ _ h1 hb
  · intro hb
    rw [hperm.nodup_iff, hiss]
    exact id_seq_nodup _ _ hb

/-- C5 (amended) at process start, for `Call.sample_session` and one of its schedules. -/
theorem C5_ids_increasing_until_wrap_witness :
    Memory.init.wf ∧
    ((DevicePool.returned_ids Memory.init Call.sample_session
        = id_seq Memory.init._id_gen
            (DevicePool.returned_ids Memory.init Call.sample_session).length ∧
     (Memory.init._id_gen
          + ((DevicePool.returned_ids Memory.init Call.sample_session).length : Int) ≤ 2 ^ 31 →
        (DevicePool.returned_ids Memory.init Call.sample_session).Pairwise
          (fun a b => a < b)) ∧
     ((DevicePool.returned_ids Memory.init Call.sample_session).length ≤ 2 ^ 32 →
        (DevicePool.returned_ids Memory.init Call.sample_session).Nodup)) ∧
    ((Sys.calls Memory.init Call.sample_session).issued Sys.sample_session_sched
        = id_seq Memory.init._id_gen
            ((Sys.calls Memory.init Call.sample_session).issued
              Sys.sample_session_sched).length ∧
     (Memory.init._id_gen
          + (((Sys.calls Memory.init Call.sample_session).issued
              Sys.sample_session_sched).length : Int) ≤ 2 ^ 31 →
        ((Sys.calls Memory.init Call.sample_session).issued Sys.sample_session_sched).Pairwise
          (fun a b => a < b)) ∧
     (((Sys.calls Memory.init Call.sample_session).exec
          Sys.sample_session_sched).threads.filterMap Task.held).Perm
        ((Sys.calls Memory.init Call.sample_session).issued Sys.sample_session_sched) ∧
     (((Sys.calls Memory.init Call.sample_session).issued
          Sys.sample_session_sched).length ≤ 2 ^ 32 →
        (((Sys.calls Memory.init Call.sample_session).exec
          Sys.sample_session_sched).threads.filterMap Task.held).Nodup))) :=
  ⟨by decide, C5_ids_increasing_until_wrap Memory.init (by decide) Call.sample_session
    Sys.sample_session_sched⟩

/-! ### Every schedule can be completed -/

theorem Task.rank_step (m : Memory) (t : Task) : (t.step m).2.rank ≤ t.rank - 1 := by
  cases t with
  | set_find id st => simp only [Task.step]; cases umap_find m._pool id <;> simp [Task.rank]
  | ini_find id ty p => simp only [Task.step]; cases umap_find m._pool id <;> simp [Task.rank]
  | get_find id a => simp only [Task.step]; cases umap_find m._pool id <;> simp [Task.rank]
  | get_read dev a => simp only [Task.step]; cases m.deref dev <;> simp [Task.rank]
  | _ => simp [Task.step, Task.rank]

theorem Task.rank_le (t : Task) : t.rank ≤ 6 := by
  cases t <;> simp [Task.rank]

theorem Task.finished_of_rank (t : Task) (h : t.rank = 0) : t.finished = true := by
  cases t <;> simp_all [Task.rank, Task.finished, Task.result]

theorem Sys.advance_length (s : Sys) (i : Nat) :
    (s.advance i).threads.length = s.threads.length := by
  cases h : s.threads[i]? with
  | none => rw [Sys.advance_none s i h]
  | some t => rw [Sys.advance_some s i t h]; simp

theorem Sys.exec_length (sched : List Nat) :
    ∀ s : Sys, (s.exec sched).threads.length = s.threads.length := by
  induction sched with
  | nil => intro s; rfl
  | cons i sched ih => intro s; rw [Sys.exec_cons, ih, Sys.advance_length]

theorem Sys.advance_getElem? (s : Sys) (i j : Nat) :
    (s.advance i).threads[j]? =
      if i = j then (s.threads[j]?).map (fun t => (t.step s.mem).2) else s.threads[j]? := by
  cases h : s.threads[i]? with
  | none =>
    rw [Sys.advance_none s i h]
    by_cases hij : i = j
    · subst hij; simp [h]
    · simp [hij]
  | some t =>
    rw [Sys.advance_some s i t h]
    by_cases hij : i = j
    · subst hij
      have hi := (List.getElem?_eq_some.1 h).1
      simp [h, List.getElem?_set, hi]
    · simp [List.getElem?_set, hij]

theorem Sys.advance_rank (s : Sys) (i j : Nat) (t2 : Task)
    (h : (s.advance i).threads[j]? = some t2) :
    ∃ t, s.threads[j]? = some t ∧ t2.rank ≤ t.rank ∧
      (j = i → t2.rank ≤ t.rank - 1) := by
  rw [Sys.advance_getElem?] at h
  by_cases hij : i = j
  · subst hij
    simp only [if_true] at h
    cases ht : s.threads[i]? with
    | none => simp [ht] at h
    | some t =>
      simp only [ht, Option.map_some', Option.some.injEq] at h
      subst h
      have := Task.rank_step s.mem t
      exact ⟨t, rfl, by omega, fun _ => this⟩
  · simp only [hij, if_false] at h
    exact ⟨t2, h, le_refl _, fun hji => absurd hji.symm hij⟩

theorem Sys.exec_replicate_rank (i : Nat) (k : Nat) :
    ∀ (s : Sys) (j : Nat) (t2 : Task),
      (s.exec (List.replicate k i)).threads[j]? = some t2 →
      ∃ t, s.threads[j]? = some t ∧ t2.rank ≤ t.rank ∧
        (j = i → t2.rank ≤ t.rank - k) := by
  induction k with
  | zero =>
    intro s j t2 h
    exact ⟨t2, h, le_refl _, fun _ => by omega⟩
  | succ k ih =>
    intro s j t2 h
    rw [List.replicate_succ, Sys.exec_cons] at h
    obtain ⟨t1, h1, hr1, hk1⟩ := ih (s.advance i) j t2 h
    obtain ⟨t, h0, hr0, hk0⟩ := Sys.advance_rank s i j t1 h1
    refine ⟨t, h0, by omega, fun hji => ?_⟩
    have a := hk1 hji
    have b := hk0 hji
    omega

theorem Sys.exec_append (s : Sys) (l₁ l₂ : List Nat) :
    s.exec (l₁ ++ l₂) = (s.exec l₁).exec l₂ := by
  simp [Sys.exec, List.foldl_append]

theorem Sys.in_turn_succ (n : Nat) :
    Sys.in_turn (n + 1) = Sys.in_turn n ++ List.replicate 6 n := by
  simp [Sys.in_turn, List.range_succ, List.flatMap_append]

theorem Sys.exec_in_turn_rank (n : Nat) :
    ∀ (s : Sys) (j : Nat) (t2 : Task),
      (s.exec (Sys.in_turn n)).threads[j]? = some t2 →
      ∃ t, s.threads[j]? = some t ∧ t2.rank ≤ t.rank ∧ (j < n → t2.rank = 0) := by
  induction n with
  | zero =>
    intro s j t2 h
    exact ⟨t2, h, le_refl _, fun hj => absurd hj (Nat.not_lt_zero j)⟩
  | succ n ih =>
    intro s j t2 h
    rw [Sys.in_turn_succ, Sys.exec_append] at h
    obtain ⟨t1, h1, hr1, hk1⟩ := Sys.exec_replicate_rank n 6 (s.exec (Sys.in_turn n)) j t2 h
    obtain ⟨t, h0, hr0, hk0⟩ := ih s j t1 h1
    refine ⟨t, h0, by omega, fun hj => ?_⟩
    by_cases hjn : j = n
    · have a := hk1 hjn
      have b := Task.rank_le t1
      omega
    · have a := hk0 (by omega)
      omega

/-- From any state, letting every call in turn run six steps makes all of them return. -/
theorem Sys.in_turn_finishes (s : Sys) :
    ∀ t ∈ (s.exec (Sys.in_turn s.threads.length)).threads, t.finished = true := by
  intro t ht
  obtain ⟨j, hj, hjt⟩ := List.getElem_of_mem ht
  have hlen := Sys.exec_length (Sys.in_turn s.threads.length) s
  have h : (s.exec (Sys.in_turn s.threads.length)).threads[j]? = some t := by
    rw [List.getElem?_eq_getElem hj, hjt]
  obtain ⟨_, _, _, h0⟩ := Sys.exec_in_turn_rank s.threads.length s j t h
  exact Task.finished_of_rank t (h0 (by omega))

/-! ### What a step does to the table and to a device -/

theorem Memory.deref_call (m : Memory) (h dev : Nat) (f : Device → Device) (d : Device)
    (hd : m.deref dev = some d) :
    (m.call h f).deref dev = some (if h = dev then f d else d) := by
  by_cases hh : h = dev
  · subst hh
    rw [Memory.deref_call_same, hd]
    simp
  · rw [Memory.deref_call_other m h dev f hh, hd]
    simp [hh]

theorem DevicePool.RegisterDevice_deref (m : Memory) (id : Int) (st : State) (dev : Nat)
    (d : Device) (hd : m.deref dev = some d) :
    (DevicePool.RegisterDevice m id st).deref dev = some d := by
  have hlt : dev < m.heap.length := by
    unfold Memory.deref at hd
    exact (List.getElem?_eq_some.1 hd).1
  simp only [DevicePool.RegisterDevice, Memory.deref, List.getElem?_append_left hlt]
  exact hd

/-- A step keeps the entry of `id` in the table unless it registers `id`. -/
theorem Task.step_pool (m : Memory) (t : Task) (id : Int) (dev : Nat)
    (hne : ∀ st, t ≠ Task.reg id st) (hf : umap_find m._pool id = some dev) :
    umap_find (t.step m).1._pool id = some dev := by
  cases t with
  | reg id2 st =>
    have hid : id ≠ id2 := fun h => hne st (by rw [h])
    simp only [Task.step, DevicePool.RegisterDevice]
    rw [umap_find_assign_other _ _ _ _ hid]
    exact hf
  | set_find id2 st => simp only [Task.step]; cases umap_find m._pool id2 <;> exact hf
  | ini_find id2 ty p => simp only [Task.step]; cases umap_find m._pool id2 <;> exact hf
  | get_find id2 a => simp only [Task.step]; cases umap_find m._pool id2 <;> exact hf
  | get_read h a => simp only [Task.step]; cases m.deref h <;> exact hf
  | _ => exact hf

/-- A step keeps every device object alive and changes the status of an action in it
only if the stepping task holds the id of that action. -/
theorem Task.step_frame (m : Memory) (t : Task) (dev : Nat) (d : Device)
    (hd : m.deref dev = some d) :
    ∃ d2, (t.step m).1.deref dev = some d2 ∧
      ∀ b, t.held ≠ some b → d2.get_action_status b = d.get_action_status b := by
  cases t with
  | reg id st =>
    exact ⟨d, DevicePool.RegisterDevice_deref m id st dev d hd, fun _ _ => rfl⟩
  | set_find id st =>
    simp only [Task.step]; cases umap_find m._pool id <;> exact ⟨d, hd, fun _ _ => rfl⟩
  | ini_find id ty p =>
    simp only [Task.step]; cases umap_find m._pool id <;> exact ⟨d, hd, fun _ _ => rfl⟩
  | get_find id a =>
    simp only [Task.step]; cases umap_find m._pool id <;> exact ⟨d, hd, fun _ _ => rfl⟩
  | get_read h a =>
    simp only [Task.step]; cases m.deref h <;> exact ⟨d, hd, fun _ _ => rfl⟩
  | set_apply h st =>
    refine ⟨_, Memory.deref_call m h dev _ d hd, fun b _ => ?_⟩
    by_cases hh : h = dev <;> simp [hh, Device.get_action_status_set_state]
  | ini_mark h act =>
    refine ⟨_, Memory.deref_call m h dev _ d hd, fun b _ => ?_⟩
    by_cases hh : h = dev <;> simp [hh, Device.get_action_status_set_state]
  | wrk_reset h a =>
    refine ⟨_, Memory.deref_call m h dev _ d hd, fun b _ => ?_⟩
    by_cases hh : h = dev <;> simp [hh, Device.get_action_status_set_state]
  | ini_add h act =>
    refine ⟨_, Memory.deref_call m h dev _ d hd, fun b hb => ?_⟩
    have hne : b ≠ act.id := fun h2 => hb (by rw [h2]; rfl)
    by_cases hh : h = dev
    · simp [hh, Device.get_action_status_add_action_other d act b hne]
    · simp [hh]
  | wrk_update h a =>
    refine ⟨_, Memory.deref_call m h dev _ d hd, fun b hb => ?_⟩
    have hne : b ≠ a := fun h2 => hb (by rw [h2]; rfl)
    by_cases hh : h = dev
    · simp [hh, Device.get_action_status_update_other d a b _ hne]
    · simp [hh]
  | ini_ctor h ty p => exact ⟨d, hd, fun _ _ => rfl⟩
  | _ => exact ⟨d, hd, fun _ _ => rfl⟩

theorem Task.step_not_reg (m : Memory) (t : Task) (id : Int) (st : State) :
    (t.step m).2 ≠ Task.reg id st := by
  cases t with
  | set_find id2 st2 => simp only [Task.step]; cases umap_find m._pool id2 <;> simp
  | ini_find id2 ty p => simp only [Task.step]; cases umap_find m._pool id2 <;> simp
  | get_find id2 a => simp only [Task.step]; cases umap_find m._pool id2 <;> simp
  | get_read h a => simp only [Task.step]; cases m.deref h <;> simp
  | _ => simp [Task.step]

/-- A call of `Initiate(id, ...)` stays on the object that `id` is registered with. -/
theorem Task.step_initiates (m : Memory) (t : Task) (id : Int) (dev : Nat)
    (hf : umap_find m._pool id = some dev) (h : t.initiates id dev) :
    (t.step m).2.initiates id dev := by
  cases t with
  | ini_find id2 ty p =>
    simp only [Task.initiates] at h
    subst h
    simp [Task.step, hf, Task.initiates]
  | ini_ctor h2 ty p => simpa [Task.step, Task.initiates] using h
  | ini_mark h2 act => simpa [Task.step, Task.initiates] using h
  | ini_add h2 act => simpa [Task.step, Task.initiates] using h
  | wrk_update h2 a => simpa [Task.step, Task.initiates] using h
  | wrk_reset h2 a => simp [Task.step, Task.initiates]
  | ini_ret a => simp [Task.step, Task.initiates]
  | _ => simp [Task.initiates] at h

/-- The step of a call of `Initiate` on `dev` leaves in `dev` what the next program point
expects: the action is present after line 187 and `COMPLETED` after line 196. -/
theorem Task.step_recorded (m : Memory) (t : Task) (id : Int) (dev : Nat) (d : Device)
    (hd : m.deref dev = some d) (h : t.initiates id dev) (hr : t.recorded d) :
    ∃ d2, (t.step m).1.deref dev = some d2 ∧ (t.step m).2.recorded d2 := by
  cases t with
  | ini_find id2 ty p =>
    simp only [Task.step]
    cases umap_find m._pool id2 <;> exact ⟨d, hd, trivial⟩
  | ini_ctor h2 ty p => exact ⟨d, hd, trivial⟩
  | ini_mark h2 act => exact ⟨_, Memory.deref_call m h2 dev _ d hd, trivial⟩
  | ini_add h2 act =>
    simp only [Task.initiates] at h
    subst h
    refine ⟨_, Memory.deref_call m h2 h2 _ d hd, ?_⟩
    simp [Task.step, Task.recorded, Device.get_action_status_add_action]
  | wrk_update h2 a =>
    simp only [Task.initiates] at h
    subst h
    refine ⟨_, Memory.deref_call m h2 h2 _ d hd, ?_⟩
    simp only [Task.recorded] at hr
    simp [Task.step, Task.recorded, Device.get_action_status_update_same d a _ hr]
  | wrk_reset h2 a =>
    simp only [Task.initiates] at h
    subst h
    refine ⟨_, Memory.deref_call m h2 h2 _ d hd, ?_⟩
    simp only [Task.recorded] at hr
    simpa [Task.step, Task.recorded, Device.get_action_status_set_state] using hr
  | ini_ret a => exact ⟨d, hd, hr⟩
  | _ => simp [Task.initiates] at h

/-- What a task has recorded is untouched by changes to the status of other actions. -/
theorem Task.recorded_congr (t : Task) (d d2 : Device)
    (h : ∀ b, t.held = some b → d2.get_action_status b = d.get_action_status b)
    (hr : t.recorded d) : t.recorded d2 := by
  cases t with
  | wrk_update h2 a => simp only [Task.recorded] at hr ⊢; rw [h a rfl]; exact hr
  | wrk_reset h2 a => simp only [Task.recorded] at hr ⊢; rw [h a rfl]; exact hr
  | ini_ret a => simp only [Task.recorded] at hr ⊢; rw [h a rfl]; exact hr
  | _ => trivial

/-! ### Invariants of a run in which a device id is not registered again -/

theorem Call.start_not_reg (c : Call) (id : Int) (st : State)
    (h : c.start = Task.reg id st) : c = Call.RegisterDevice id st := by
  cases c <;> simp_all [Call.start]

theorem Call.start_recorded (c : Call) (d : Device) : c.start.recorded d := by
  cases c <;> trivial

theorem Sys.calls_getElem? (m : Memory) (cs : List Call) (j : Nat) :
    (Sys.calls m cs).threads[j]? = (cs[j]?).map Call.start := by
  simp [Sys.calls, List.getElem?_map]

theorem Sys.serves_calls (m : Memory) (cs : List Call) (id : Int) (dev : Nat)
    (hreg : umap_find m._pool id = some dev) (hd : ∃ d, m.deref dev = some d)
    (hnoreg : ∀ st, Call.RegisterDevice id st ∉ cs) :
    Sys.serves cs id dev (Sys.calls m cs) := by
  refine ⟨hreg, hd, ?_, ?_⟩
  · intro t ht st heq
    simp only [Sys.calls, List.mem_map] at ht
    obtain ⟨c, hc, hct⟩ := ht
    rw [heq] at hct
    exact hnoreg st (Call.start_not_reg c id st hct ▸ hc)
  · intro j ty p t hc ht
    rw [Sys.calls_getElem?, hc] at ht
    simp only [Option.map_some', Option.some.injEq] at ht
    subst ht
    rfl

theorem Sys.serves_advance (cs : List Call) (id : Int) (dev : Nat) (s : Sys) (i : Nat)
    (h : Sys.serves cs id dev s) : Sys.serves cs id dev (s.advance i) := by
  cases ht : s.threads[i]? with
  | none => rw [Sys.advance_none s i ht]; exact h
  | some t =>
    obtain ⟨hA, ⟨d, hd⟩, hC, hD⟩ := h
    have hmem : t ∈ s.threads := List.getElem?_mem ht
    have hm : (s.advance i).mem = (t.step s.mem).1 := by rw [Sys.advance_some s i t ht]
    refine ⟨?_, ?_, ?_, ?_⟩
    · rw [hm]
      exact Task.step_pool s.mem t id dev (hC t hmem) hA
    · rw [hm]
      obtain ⟨d2, hd2, _⟩ := Task.step_frame s.mem t dev d hd
      exact ⟨d2, hd2⟩
    · intro u hu st
      rw [Sys.advance_some s i t ht] at hu
      rcases List.mem_or_eq_of_mem_set hu with hu2 | hu2
      · exact hC u hu2 st
      · rw [hu2]
        exact Task.step_not_reg s.mem t id st
    · intro j ty p u hc hu
      rw [Sys.advance_getElem?] at hu
      by_cases hij : i = j
      · subst hij
        simp only [if_true, ht, Option.map_some', Option.some.injEq] at hu
        subst hu
        exact Task.step_initiates s.mem t id dev hA (hD i ty p t hc ht)
      · simp only [hij, if_false] at hu
        exact hD j ty p u hc hu

theorem Sys.serves_exec (cs : List Call) (id : Int) (dev : Nat) (sched : List Nat) :
    ∀ s : Sys, Sys.serves cs id dev s → Sys.serves cs id dev (s.exec sched) := by
  induction sched with
  | nil => intro s h; exact h
  | cons i sched ih =>
    intro s h
    rw [Sys.exec_cons]
    exact ih _ (Sys.serves_advance cs id dev s i h)

/-- When no id is held twice, two calls at different positions hold different ids. -/
theorem Task.held_distinct (l : List Task) (hnd : (l.filterMap Task.held).Nodup) :
    ∀ (i j : Nat) (t u : Task) (b : Int), i ≠ j → l[i]? = some t → l[j]? = some u →
      u.held = some b → t.held ≠ some b := by
  induction l with
  | nil => intro i j t u b _ hi; simp at hi
  | cons x l ih =>
    intro i j t u b hij hi hj hu ht
    have hsub : (l.filterMap Task.held).Nodup := by
      cases hx : x.held with
      | none => simpa [List.filterMap_cons, hx] using hnd
      | some a =>
        rw [List.filterMap_cons, hx] at hnd
        exact (List.nodup_cons.1 hnd).2
    cases i with
    | zero =>
      cases j with
      | zero => exact hij rfl
      | succ j =>
        simp only [List.getElem?_cons_zero, Option.some.injEq] at hi
        simp only [List.getElem?_cons_succ] at hj
        subst hi
        rw [List.filterMap_cons, ht] at hnd
        have hb : b ∈ l.filterMap Task.held :=
          List.mem_filterMap.2 ⟨u, List.getElem?_mem hj, hu⟩
        exact (List.nodup_cons.1 hnd).1 hb
    | succ i =>
      cases j with
      | zero =>
        simp only [List.getElem?_cons_zero, Option.some.injEq] at hj
        simp only [List.getElem?_cons_succ] at hi
        subst hj
        rw [List.filterMap_cons, hu] at hnd
        have hb : b ∈ l.filterMap Task.held :=
          List.mem_filterMap.2 ⟨t, List.getElem?_mem hi, ht⟩
        exact (List.nodup_cons.1 hnd).1 hb
      | succ j =>
        simp only [List.getElem?_cons_succ] at hi hj
        exact ih hsub i j t u b (fun h => hij (by rw [h])) hi hj hu ht

theorem Sys.records_advance (cs : List Call) (id : Int) (dev : Nat) (s : Sys) (i : Nat)
    (hs : Sys.serves cs id dev s) (hr : Sys.records cs id dev s)
    (hnd : (s.threads.filterMap Task.held).Nodup) :
    Sys.records cs id dev (s.advance i) := by
  cases ht : s.threads[i]? with
  | none => rw [Sys.advance_none s i ht]; exact hr
  | some t =>
    obtain ⟨_, ⟨d, hd⟩, _, hD⟩ := hs
    have hm : (s.advance i).mem = (t.step s.mem).1 := by rw [Sys.advance_some s i t ht]
    intro j ty p u d2 hc hu hd2
    rw [hm] at hd2
    rw [Sys.advance_getElem?] at hu
    by_cases hij : i = j
    · subst hij
      simp only [if_true, ht, Option.map_some', Option.some.injEq] at hu
      subst hu
      obtain ⟨d3, hd3, hrec⟩ := Task.step_recorded s.mem t id dev d hd
        (hD i ty p t hc ht) (hr i ty p t d hc ht hd)
      rw [hd3] at hd2
      rw [← Option.some.inj hd2]
      exact hrec
    · simp only [hij, if_false] at hu
      obtain ⟨d3, hd3, hframe⟩ := Task.step_frame s.mem t dev d hd
      rw [hd3] at hd2
      rw [← Option.some.inj hd2]
      refine Task.recorded_congr u d d3 ?_ (hr j ty p u d hc hu hd)
      intro b hb
      exact hframe b (Task.held_distinct s.threads hnd i j t u b hij ht hu hb)

/-- With at most `2 ^ 32` calls, no two calls ever hold the same action id. -/
theorem Sys.held_nodup (m : Memory) (hwf : m.wf) (cs : List Call) (hN : cs.length ≤ 2 ^ 32)
    (sched : List Nat) :
    (((Sys.calls m cs).exec sched).threads.filterMap Task.held).Nodup := by
  have hperm := Sys.held_perm sched (Sys.calls m cs)
  rw [Sys.calls_held, List.nil_append] at hperm
  have hiss := (Sys.issued_eq sched (Sys.calls m cs) hwf.2.1 hwf.2.2).1
  have hlen : ((Sys.calls m cs).issued sched).length ≤ 2 ^ 32 := by
    rw [← hperm.length_eq]
    refine le_trans (List.length_filterMap_le _ _) ?_
    rw [Sys.exec_length]
    simpa [Sys.calls] using hN
  rw [hperm.nodup_iff, hiss]
  exact id_seq_nodup _ _ hlen

theorem Sys.exec_snoc (s : Sys) (sched : List Nat) (i : Nat) :
    s.exec (sched ++ [i]) = (s.exec sched).advance i := by
  simp [Sys.exec, List.foldl_append]

theorem Sys.records_exec (m : Memory) (hwf : m.wf) (id : Int) (dev : Nat)
    (hreg : umap_find m._pool id = some dev) (cs : List Call)
    (hnoreg : ∀ st, Call.RegisterDevice id st ∉ cs) (hN : cs.length ≤ 2 ^ 32)
    (sched : List Nat) :
    Sys.records cs id dev ((Sys.calls m cs).exec sched) := by
  have h0 := Sys.serves_calls m cs id dev hreg (Memory.deref_of_wf m hwf id dev hreg) hnoreg
  induction sched using List.reverseRecOn with
  | nil =>
    intro j ty p t d hc ht _
    have ht2 : (Sys.calls m cs).threads[j]? = some t := ht
    rw [Sys.calls_getElem?, hc] at ht2
    simp only [Option.map_some', Option.some.injEq] at ht2
    subst ht2
    exact Call.start_recorded _ d
  | append_singleton sched i ih =>
    rw [Sys.exec_snoc]
    exact Sys.records_advance cs id dev _ i (Sys.serves_exec cs id dev sched _ h0) ih
      (Sys.held_nodup m hwf cs hN sched)

theorem DevicePool.GetDeviceAction_of_deref (m : Memory) (id a : Int) (dev : Nat)
    (d : Device) (hf : umap_find m._pool id = some dev) (hd : m.deref dev = some d) :
    (DevicePool.GetDeviceAction m id a).1 = d.get_action_status a := by
  simp [DevicePool.GetDeviceAction, hf, hd]

/-- C10 (amended): for every list of at most `2 ^ 32` calls, none of them a
`RegisterDevice(id, ...)`, on a memory where `id` is registered, and for every schedule
of their steps: no two calls hold or have returned the same action id; every call
`Initiate(id, ...)` of the list finds its device; once it has recorded its action
(line 187) the action is present under `id`; once it has returned `a`, the worker has
settled and `GetDeviceAction(id, a)` is `COMPLETED`.  Every schedule extends to one in
which all calls have returned. -/
theorem C10_concurrent_initiates (m : Memory) (hwf : m.wf) (id : Int) (dev : Nat)
    (hreg : umap_find m._pool id = some dev) (cs : List Call)
    (hnoreg : ∀ st, Call.RegisterDevice id st ∉ cs) (hN : cs.length ≤ 2 ^ 32)
    (sched : List Nat) :
    (∀ (j k : Nat) (t u : Task) (a : Int), j ≠ k →
        ((Sys.calls m cs).exec sched).threads[j]? = some t →
        ((Sys.calls m cs).exec sched).threads[k]? = some u →
        t.held = some a → u.held ≠ some a) ∧
    (∀ (j : Nat) (ty : ActionType) (p : String), cs[j]? = some (Call.Initiate id ty p) →
        ∃ t, ((Sys.calls m cs).exec sched).threads[j]? = some t ∧
          t ≠ Task.ini_notfound ∧
          (∀ h a, t = Task.wrk_update h a ∨ t = Task.wrk_reset h a ∨ t = Task.ini_ret a →
            (DevicePool.GetDeviceAction ((Sys.calls m cs).exec sched).mem id a).1 ≠ none) ∧
          (t.finished = true → ∃ a, t = Task.ini_ret a ∧
            (DevicePool.GetDeviceAction ((Sys.calls m cs).exec sched).mem id a).1
              = some ActionStatus.COMPLETED)) ∧
    (∀ t ∈ (((Sys.calls m cs).exec sched).exec (Sys.in_turn cs.length)).threads,
        t.finished = true) := by
  have hnd := Sys.held_nodup m hwf cs hN sched
  have hserves := Sys.serves_exec cs id dev sched _
    (Sys.serves_calls m cs id dev hreg (Memory.deref_of_wf m hwf id dev hreg) hnoreg)
  have hrec := Sys.records_exec m hwf id dev hreg cs hnoreg hN sched
  have hlen : ((Sys.calls m cs).exec sched).threads.length = cs.length := by
    rw [Sys.exec_length]
    simp [Sys.calls]
  refine ⟨?_, ?_, ?_⟩
  · intro j k t u a hjk hj hk ht
    exact Task.held_distinct _ hnd k j u t a (Ne.symm hjk) hk hj ht
  · intro j ty p hc
    obtain ⟨hA, ⟨d, hd⟩, _, hD⟩ := hserves
    have hj : j < ((Sys.calls m cs).exec sched).threads.length := by
      rw [hlen]
      exact (List.getElem?_eq_some.1 hc).1
    have ht := List.getElem?_eq_getElem hj
    have hini := hD j ty p _ hc ht
    have hr := hrec j ty p _ d hc ht hd
    have hst := fun a => DevicePool.GetDeviceAction_of_deref
      ((Sys.calls m cs).exec sched).mem id a dev d hA hd
    refine ⟨_, ht, ?_, ?_, ?_⟩
    · intro h
      rw [h] at hini
      exact hini
    · intro h a hcase
      rw [hst]
      rcases hcase with hc2 | hc2 | hc2 <;> rw [hc2] at hr
      · exact hr
      · simp only [Task.recorded] at hr
        rw [hr]
        simp
      · simp only [Task.recorded] at hr
        rw [hr]
        simp
    · intro hfin
      generalize ((Sys.calls m cs).exec sched).threads[j] = t at hini hr hfin
      cases t with
      | ini_ret a => exact ⟨a, rfl, by rw [hst]; exact hr⟩
      | ini_find id2 ty2 p2 => simp [Task.finished, Task.result] at hfin
      | ini_ctor h2 ty2 p2 => simp [Task.finished, Task.result] at hfin
      | ini_mark h2 act => simp [Task.finished, Task.result] at hfin
      | ini_add h2 act => simp [Task.finished, Task.result] at hfin
      | wrk_update h2 a => simp [Task.finished, Task.result] at hfin
      | wrk_reset h2 a => simp [Task.finished, Task.result] at hfin
      | _ => exact absurd hini (by simp [Task.initiates])
  · have h := Sys.in_turn_finishes ((Sys.calls m cs).exec sched)
    rw [hlen] at h
    exact h

/-- C10 (amended) on `Memory.sample`, for two interleaved calls of `Initiate` on device 7. -/
theorem C10_concurrent_initiates_witness :
    Memory.sample.wf ∧
    umap_find Memory.sample._pool 7 = some 0 ∧
    (∀ st, Call.RegisterDevice 7 st ∉ Call.sample_pair) ∧
    Call.sample_pair.length ≤ 2 ^ 32 ∧
    ((∀ (j k : Nat) (t u : Task) (a : Int), j ≠ k →
        ((Sys.calls Memory.sample Call.sample_pair).exec Sys.sample_pair_sched).threads[j]?
          = some t →
        ((Sys.calls Memory.sample Call.sample_pair).exec Sys.sample_pair_sched).threads[k]?
          = some u →
        t.held = some a → u.held ≠ some a) ∧
    (∀ (j : Nat) (ty : ActionType) (p : String),
        Call.sample_pair[j]? = some (Call.Initiate 7 ty p) →
        ∃ t, ((Sys.calls Memory.sample Call.sample_pair).exec
              Sys.sample_pair_sched).threads[j]? = some t ∧
          t ≠ Task.ini_notfound ∧
          (∀ h a, t = Task.wrk_update h a ∨ t = Task.wrk_reset h a ∨ t = Task.ini_ret a →
            (DevicePool.GetDeviceAction
              ((Sys.calls Memory.sample Call.sample_pair).exec Sys.sample_pair_sched).mem 7 a).1
              ≠ none) ∧
          (t.finished = true → ∃ a, t = Task.ini_ret a ∧
            (DevicePool.GetDeviceAction
              ((Sys.calls Memory.sample Call.sample_pair).exec Sys.sample_pair_sched).mem 7 a).1
              = some ActionStatus.COMPLETED)) ∧
    (∀ t ∈ (((Sys.calls Memory.sample Call.sample_pair).exec Sys.sample_pair_sched).exec
          (Sys.in_turn Call.sample_pair.length)).threads,
        t.finished = true)) :=
  ⟨by decide, by decide, by simp [Call.sample_pair], by decide,
    C10_concurrent_initiates Memory.sample (by decide) 7 0 (by decide) Call.sample_pair
      (by simp [Call.sample_pair]) (by decide) Sys.sample_pair_sched⟩

/-- After `2 ^ 32` values the generator hands out a value for the second time. -/
theorem id_seq_not_nodup (g : Int) (n : Nat) (h : 2 ^ 32 < n) : ¬ (id_seq g n).Nodup := by
  intro hnd
  rw [List.nodup_iff_getElem?_ne_getElem?] at hnd
  have h1 := hnd 0 (2 ^ 32) (by norm_num) (by rw [id_seq_length]; exact h)
  rw [id_seq_getElem? g n 0 (by omega), id_seq_getElem? g n (2 ^ 32) h] at h1
  apply h1
  congr 1
  unfold wrap32
  push_cast
  omega

/-- The run of `n` calls `Initiate(0, SOFTWARE_UPDATE, "")` made in turn right after
`RegisterDevice(0, IDLE)` at process start: every call returns an action id, and the ids
returned are, up to order, the first `n` values of the generator. -/
theorem Sys.in_turn_run (n : Nat) :
    (∀ t ∈ ((Sys.calls (DevicePool.RegisterDevice Memory.init 0 State.IDLE)
        (List.replicate n (Call.Initiate 0 ActionType.SOFTWARE_UPDATE ""))).exec
        (Sys.in_turn n)).threads, ∃ a, t = Task.ini_ret a) ∧
    (((Sys.calls (DevicePool.RegisterDevice Memory.init 0 State.IDLE)
        (List.replicate n (Call.Initiate 0 ActionType.SOFTWARE_UPDATE ""))).exec
        (Sys.in_turn n)).threads.filterMap Task.held).Perm (id_seq 1 n) := by
  generalize hcs : List.replicate n (Call.Initiate 0 ActionType.SOFTWARE_UPDATE "") = cs
  have hcl : cs.length = n := by rw [← hcs]; simp
  have hnoreg : ∀ st, Call.RegisterDevice 0 st ∉ cs := by
    intro st hmem
    rw [← hcs] at hmem
    exact Call.noConfusion (List.eq_of_mem_replicate hmem)
  have hserves := Sys.serves_exec cs 0 0 (Sys.in_turn n) _
    (Sys.serves_calls (DevicePool.RegisterDevice Memory.init 0 State.IDLE) cs 0 0 rfl
      ⟨_, rfl⟩ hnoreg)
  have hlen0 : (Sys.calls (DevicePool.RegisterDevice Memory.init 0 State.IDLE) cs).threads.length
      = n := by simp [Sys.calls, hcl]
  have hfin := Sys.in_turn_finishes
    (Sys.calls (DevicePool.RegisterDevice Memory.init 0 State.IDLE) cs)
  rw [hlen0] at hfin
  have hlen := Sys.exec_length (Sys.in_turn n)
    (Sys.calls (DevicePool.RegisterDevice Memory.init 0 State.IDLE) cs)
  rw [hlen0] at hlen
  have hret : ∀ t ∈ ((Sys.calls (DevicePool.RegisterDevice Memory.init 0 State.IDLE) cs).exec
      (Sys.in_turn n)).threads, ∃ a, t = Task.ini_ret a := by
    intro t ht
    obtain ⟨j, hj, hjt⟩ := List.getElem_of_mem ht
    have hc : cs[j]? = some (Call.Initiate 0 ActionType.SOFTWARE_UPDATE "") := by
      rw [← hcs, List.getElem?_replicate]
      simp [show j < n by omega]
    have hini := hserves.2.2.2 j _ _ t hc (by rw [List.getElem?_eq_getElem hj, hjt])
    have hf := hfin t ht
    cases t with
    | ini_ret a => exact ⟨a, rfl⟩
    | ini_find id2 ty2 p2 => simp [Task.finished, Task.result] at hf
    | ini_ctor h2 ty2 p2 => simp [Task.finished, Task.result] at hf
    | ini_mark h2 act => simp [Task.finished, Task.result] at hf
    | ini_add h2 act => simp [Task.finished, Task.result] at hf
    | wrk_update h2 a => simp [Task.finished, Task.result] at hf
    | wrk_reset h2 a => simp [Task.finished, Task.result] at hf
    | _ => exact absurd hini (by simp [Task.initiates])
  refine ⟨hret, ?_⟩
  have hperm := Sys.held_perm (Sys.in_turn n)
    (Sys.calls (DevicePool.RegisterDevice Memory.init 0 State.IDLE) cs)
  rw [Sys.calls_held, List.nil_append] at hperm
  have hg : (Sys.calls (DevicePool.RegisterDevice Memory.init 0 State.IDLE) cs).mem._id_gen
      = 1 := rfl
  have hiss := (Sys.issued_eq (Sys.in_turn n)
    (Sys.calls (DevicePool.RegisterDevice Memory.init 0 State.IDLE) cs)
    (by rw [hg]; norm_num) (by rw [hg]; norm_num)).1
  rw [hg] at hiss
  have hall : (((Sys.calls (DevicePool.RegisterDevice Memory.init 0 State.IDLE) cs).exec
      (Sys.in_turn n)).threads.filterMap Task.held).length = n := by
    have hsome : ∀ t ∈ ((Sys.calls (DevicePool.RegisterDevice Memory.init 0 State.IDLE) cs).exec
        (Sys.in_turn n)).threads, (Task.held t).isSome := by
      intro t ht
      obtain ⟨a, ha⟩ := hret t ht
      rw [ha]
      rfl
    rw [List.filterMap_length_eq_length.2 hsome, hlen]
  rw [hperm.length_eq] at hall
  rw [hall] at hiss
  rw [hiss] at hperm
  exact hperm

/-- C10 as stated fails for `N = 2 ^ 32 + 1`: at process start, `RegisterDevice(0, IDLE)`
followed by `2 ^ 32 + 1` calls `Initiate(0, SOFTWARE_UPDATE, "")`, each run to its end in
turn.  All calls have returned an action id, and the ids returned are not pairwise
distinct: the 32-bit generator has come back to its first value. -/
theorem C10_ids_repeat_counterexample :
    (∀ t ∈ ((Sys.calls (DevicePool.RegisterDevice Memory.init 0 State.IDLE)
        (List.replicate (2 ^ 32 + 1) (Call.Initiate 0 ActionType.SOFTWARE_UPDATE ""))).exec
        (Sys.in_turn (2 ^ 32 + 1))).threads, ∃ a, t = Task.ini_ret a) ∧
    ¬ (((Sys.calls (DevicePool.RegisterDevice Memory.init 0 State.IDLE)
        (List.replicate (2 ^ 32 + 1) (Call.Initiate 0 ActionType.SOFTWARE_UPDATE ""))).exec
        (Sys.in_turn (2 ^ 32 + 1))).threads.filterMap Task.held).Nodup := by
  obtain ⟨h1, h2⟩ := Sys.in_turn_run (2 ^ 32 + 1)
  refine ⟨h1, ?_⟩
  rw [h2.nodup_iff]
  exact id_seq_not_nodup 1 (2 ^ 32 + 1) (Nat.lt_succ_self _)

/-! ### The two views agree, and well-formedness is kept -/

/-- A call run alone under the scheduler for six steps does what `DevicePool.invoke`
does, and returns the same value. -/
theorem Task.run_invoke (m : Memory) (c : Call) :
    (Task.run 6 m c.start).1 = (DevicePool.invoke m c).2 ∧
    (Task.run 6 m c.start).2.result = some (DevicePool.invoke m c).1 := by
  cases c with
  | RegisterDevice id st => exact ⟨rfl, rfl⟩
  | SetDeviceStatus id st =>
    cases h : umap_find m._pool id <;>
      simp [Call.start, Task.run, Task.step, DevicePool.invoke, DevicePool.SetDeviceStatus, h,
        Task.result]
  | GetDevice id => exact ⟨rfl, rfl⟩
  | Initiate id ty p =>
    have h := Task.run_Initiate m id ty p
    exact ⟨h.1, h.2⟩
  | GetDeviceAction id a =>
    cases h : umap_find m._pool id with
    | none =>
      simp [Call.start, Task.run, Task.step, DevicePool.invoke, DevicePool.GetDeviceAction, h,
        Task.result]
    | some dev =>
      cases hd : m.deref dev <;>
        simp [Call.start, Task.run, Task.step, DevicePool.invoke, DevicePool.GetDeviceAction,
          h, hd, Task.result]

theorem Memory.call_wf (m : Memory) (hwf : m.wf) (dev : Nat) (f : Device → Device) :
    (m.call dev f).wf := by
  refine ⟨?_, hwf.2⟩
  intro e he
  simp only [Memory.call, List.length_modify]
  exact hwf.1 e he

/-- A step keeps the memory well-formed. -/
theorem Task.step_wf (m : Memory) (hwf : m.wf) (t : Task) : (t.step m).1.wf := by
  cases t with
  | reg id st => exact DevicePool.RegisterDevice_wf m hwf id st
  | set_find id st => simp only [Task.step]; cases umap_find m._pool id <;> exact hwf
  | ini_find id ty p => simp only [Task.step]; cases umap_find m._pool id <;> exact hwf
  | get_find id a => simp only [Task.step]; cases umap_find m._pool id <;> exact hwf
  | get_read h a => simp only [Task.step]; cases m.deref h <;> exact hwf
  | set_apply h st => exact Memory.call_wf m hwf h _
  | ini_mark h act => exact Memory.call_wf m hwf h _
  | ini_add h act => exact Memory.call_wf m hwf h _
  | wrk_update h a => exact Memory.call_wf m hwf h _
  | wrk_reset h a => exact Memory.call_wf m hwf h _
  | ini_ctor h ty p => exact ⟨hwf.1, wrap32_range _⟩
  | _ => exact hwf

/-- Every memory reached under the scheduler from a well-formed one is well-formed. -/
theorem Sys.exec_wf (sched : List Nat) :
    ∀ s : Sys, s.mem.wf → (s.exec sched).mem.wf := by
  induction sched with
  | nil => intro s h; exact h
  | cons i sched ih =>
    intro s h
    rw [Sys.exec_cons]
    apply ih
    cases ht : s.threads[i]? with
    | none => rw [Sys.advance_none s i ht]; exact h
    | some t => rw [Sys.advance_some s i t ht]; exact Task.step_wf s.mem h t

theorem Task.steps_keep_wf (n : Nat) :
    ∀ (m : Memory) (t : Task), m.wf → (Task.run n m t).1.wf := by
  induction n with
  | zero => intro m t h; exact h
  | succ n ih => intro m t h; exact ih _ _ (Task.step_wf m h t)

/-- Every memory reached by calls made one after the other from a well-formed one is
well-formed; in particular every memory reached from process start. -/
theorem DevicePool.calls_keep_wf (cs : List Call) :
    ∀ m : Memory, m.wf → (DevicePool.run m cs).wf := by
  induction cs with
  | nil => intro m h; exact h
  | cons c cs ih =>
    intro m h
    apply ih
    rw [← (Task.run_invoke m c).1]
    exact Task.steps_keep_wf 6 m c.start h

/-! ## The methods of `Device` -/

theorem umap_keys_assign_found {V : Type} (m : unordered_map V) (key : Int) (v w : V)
    (h : umap_find m key = some w) : umap_keys (umap_assign m key v) = umap_keys m := by
  induction m with
  | nil => simp [umap_find] at h
  | cons e m ih =>
    obtain ⟨k, x⟩ := e
    by_cases hk : k = key
    · simp [umap_assign, umap_keys, hk]
    · simp only [umap_find, hk, if_false] at h
      have := ih h
      simp only [umap_keys] at this
      simp [umap_assign, umap_keys, hk, this]

/-- C11: `Device::update_action_status(id, st)` returns `true` exactly when `id` is a key
of the action map.  When it returns `true`, the action under `id` is the old one with
status `st`, the device's state and info are unchanged, every other entry is unchanged
and the set of keys is the same.  When it returns `false` the device is unchanged. -/
theorem C11_update_action_status (d : Device) (id : Int) (st : ActionStatus) :
    ((d.update_action_status id st).1 = true ↔ id ∈ umap_keys d._actions) ∧
    ((d.update_action_status id st).1 = true →
      (d.update_action_status id st).2.get_action_status id = some st ∧
      (∃ ac, umap_find d._actions id = some ac ∧
        umap_find (d.update_action_status id st).2._actions id = some (ac.set_status st)) ∧
      (d.update_action_status id st).2.get_state = d.get_state ∧
      (d.update_action_status id st).2.get_info = d.get_info ∧
      (∀ j, j ≠ id →
        umap_find (d.update_action_status id st).2._actions j = umap_find d._actions j) ∧
      umap_keys (d.update_action_status id st).2._actions = umap_keys d._actions) ∧
    ((d.update_action_status id st).1 = false → (d.update_action_status id st).2 = d) := by
  cases hf : umap_find d._actions id with
  | none =>
    have hk := (umap_find_none_iff _ _).1 hf
    simp [Device.update_action_status, hf, hk]
  | some ac =>
    have hk : id ∈ umap_keys d._actions := by
      by_contra hk
      rw [(umap_find_none_iff _ _).2 hk] at hf
      exact Option.noConfusion hf
    have hu : d.update_action_status id st
        = (true, { d with _actions := umap_assign d._actions id (ac.set_status st) }) := by
      simp [Device.update_action_status, hf]
    rw [hu]
    refine ⟨⟨fun _ => hk, fun _ => rfl⟩, fun _ => ⟨?_, ⟨ac, rfl, ?_⟩, rfl, rfl, ?_, ?_⟩, ?_⟩
    · simp [Device.get_action_status, umap_find_assign_same, Action.status, Action.set_status]
    · exact umap_find_assign_same _ _ _
    · intro j hj
      exact umap_find_assign_other _ _ _ _ hj
    · exact umap_keys_assign_found _ _ _ ac hf
    · intro h
      exact absurd h (by simp)

theorem Device.apply_nodup (d : Device) (op : DeviceOp) (h : (umap_keys d._actions).Nodup) :
    (umap_keys (d.apply op)._actions).Nodup := by
  cases op with
  | set_info info => exact h
  | set_state st => exact h
  | add_action ac => exact umap_assign_nodup _ _ _ h
  | update_action_status id st =>
    simp only [Device.apply, Device.update_action_status]
    cases hf : umap_find d._actions id with
    | none => exact h
    | some ac => exact umap_assign_nodup _ _ _ h

theorem Device.foldl_apply_nodup (ops : List DeviceOp) :
    ∀ d : Device, (umap_keys d._actions).Nodup →
      (umap_keys (ops.foldl Device.apply d)._actions).Nodup := by
  induction ops with
  | nil => intro d h; exact h
  | cons op ops ih => intro d h; exact ih _ (Device.apply_nodup d op h)

/-- C12: after `Device::add_action(ac)` the entry under `ac.id()` is `ac`, so
`get_action_status(ac.id())` is the status of `ac`, whether or not the id was present
before; `get_action_status(j)` is unchanged for every other `j`; state and info are
unchanged.  A map with pairwise different keys keeps pairwise different keys, and a
device made by the constructor and changed by any calls of its mutating methods never
holds two entries with the same id. -/
theorem C12_add_action (d : Device) (ac : Action) :
    (d.add_action ac).get_action_status ac.id = some ac.status ∧
    umap_find (d.add_action ac)._actions ac.id = some ac ∧
    (∀ j, j ≠ ac.id → (d.add_action ac).get_action_status j = d.get_action_status j) ∧
    (d.add_action ac).get_state = d.get_state ∧
    (d.add_action ac).get_info = d.get_info ∧
    ((umap_keys d._actions).Nodup → (umap_keys (d.add_action ac)._actions).Nodup) ∧
    (∀ (st : State) (ops : List DeviceOp),
      (umap_keys (ops.foldl Device.apply (Device.create st))._actions).Nodup) := by
  refine ⟨Device.get_action_status_add_action d ac, umap_find_assign_same _ _ _, ?_, rfl, rfl,
    umap_assign_nodup _ _ _, ?_⟩
  · intro j hj
    exact Device.get_action_status_add_action_other d ac j hj
  · intro st ops
    exact Device.foldl_apply_nodup ops _ (by simp [Device.create, umap_keys])

/-! ## The handler of `GetDeviceAction` -/

/-- C13: the handler `GetDeviceAction` returns `OK` for every request, never `NOT_FOUND`.
On the registry at process start, for the unknown device 5, and on `Memory.sample`, for
the unknown action 99 of the known device 7, the registry returns the absent value and
the handler still answers `OK`, while the handler `SetDeviceStatus` answers `NOT_FOUND`
for the unknown device 5. -/
theorem C13_handler_never_not_found :
    (∀ (R : Type) (encode : Option ActionStatus → R) (m : Memory) (device_id action_id : Int),
      (DeviceFleetManagementImpl.GetDeviceAction encode m device_id action_id).1
        = StatusCode.OK) ∧
    (DevicePool.GetDeviceAction Memory.init 5 1).1 = none ∧
    (DeviceFleetManagementImpl.GetDeviceAction (fun o => o) Memory.init 5 1).1
      = StatusCode.OK ∧
    (DevicePool.GetDeviceAction Memory.sample 7 99).1 = none ∧
    (DeviceFleetManagementImpl.GetDeviceAction (fun o => o) Memory.sample 7 99).1
      = StatusCode.OK ∧
    (DeviceFleetManagementImpl.SetDeviceStatus Memory.init 5 State.IDLE).1
      = StatusCode.NOT_FOUND := by
  refine ⟨fun _ _ _ _ _ => rfl, ?_, rfl, ?_, rfl, ?_⟩ <;> decide

/-! ## Invariants of every device object -/

theorem Call.start_local_ok (c : Call) : c.start.local_ok := by
  cases c <;> trivial

/-- Whatever the task, after its step its local action has the status of its program
point. -/
theorem Task.step_local_ok (m : Memory) (t : Task) (h : t.local_ok) :
    (t.step m).2.local_ok := by
  cases t with
  | set_find id st => simp only [Task.step]; cases umap_find m._pool id <;> trivial
  | ini_find id ty p => simp only [Task.step]; cases umap_find m._pool id <;> trivial
  | get_find id a => simp only [Task.step]; cases umap_find m._pool id <;> trivial
  | get_read dev a => simp only [Task.step]; cases m.deref dev <;> trivial
  | ini_ctor dev ty p => rfl
  | ini_mark dev act => rfl
  | _ => trivial

theorem Memory.call_devices (R : Device → Prop) (m : Memory) (h2 : Nat) (f : Device → Device)
    (hf : ∀ d, R d → R (f d)) (hR : ∀ h d, m.deref h = some d → R d) :
    ∀ h d, (m.call h2 f).deref h = some d → R d := by
  intro h d hd
  by_cases hh : h2 = h
  · subst hh
    rw [Memory.deref_call_same] at hd
    cases hd0 : m.deref h2 with
    | none => simp [hd0] at hd
    | some d0 =>
      simp only [hd0, Option.map_some', Option.some.injEq] at hd
      rw [← hd]
      exact hf d0 (hR h2 d0 hd0)
  · rw [Memory.deref_call_other m h2 h f hh] at hd
    exact hR h d hd

theorem DevicePool.RegisterDevice_devices (R : Device → Prop) (m : Memory) (id : Int)
    (st : State) (hcreate : R (Device.create st)) (hR : ∀ h d, m.deref h = some d → R d) :
    ∀ h d, (DevicePool.RegisterDevice m id st).deref h = some d → R d := by
  intro h d hd
  simp only [DevicePool.RegisterDevice, Memory.deref] at hd
  by_cases hlt : h < m.heap.length
  · rw [List.getElem?_append_left hlt] at hd
    exact hR h d hd
  · rw [List.getElem?_append_right (Nat.le_of_not_lt hlt)] at hd
    have hmem := List.getElem?_mem hd
    simp only [List.mem_singleton] at hmem
    rw [hmem]
    exact hcreate

/-- A property of devices that holds for new devices and is kept by the three mutations
the registry performs is kept by every step. -/
theorem Task.step_devices (R : Device → Prop) (m : Memory) (t : Task)
    (hcreate : ∀ st, R (Device.create st))
    (hset : ∀ d st, R d → R (d.set_state st))
    (hadd : ∀ d act, act.status = ActionStatus.RUNNING → R d → R (d.add_action act))
    (hupd : ∀ d a, R d → R (d.update_action_status a ActionStatus.COMPLETED).2)
    (hloc : t.local_ok) (hR : ∀ h d, m.deref h = some d → R d) :
    ∀ h d, (t.step m).1.deref h = some d → R d := by
  cases t with
  | reg id st => exact DevicePool.RegisterDevice_devices R m id st (hcreate st) hR
  | set_find id st => simp only [Task.step]; cases umap_find m._pool id <;> exact hR
  | ini_find id ty p => simp only [Task.step]; cases umap_find m._pool id <;> exact hR
  | get_find id a => simp only [Task.step]; cases umap_find m._pool id <;> exact hR
  | get_read dev a => simp only [Task.step]; cases m.deref dev <;> exact hR
  | set_apply dev st => exact Memory.call_devices R m dev _ (fun d hd => hset d st hd) hR
  | ini_mark dev act => exact Memory.call_devices R m dev _ (fun d hd => hset d _ hd) hR
  | wrk_reset dev a => exact Memory.call_devices R m dev _ (fun d hd => hset d _ hd) hR
  | ini_add dev act => exact Memory.call_devices R m dev _ (fun d hd => hadd d act hloc hd) hR
  | wrk_update dev a => exact Memory.call_devices R m dev _ (fun d hd => hupd d a hd) hR
  | ini_ctor dev ty p => exact hR
  | _ => exact hR

/-- Such a property holds for every device object of every state reached under the
scheduler. -/
theorem Sys.exec_devices (R : Device → Prop)
    (hcreate : ∀ st, R (Device.create st))
    (hset : ∀ d st, R d → R (d.set_state st))
    (hadd : ∀ d act, act.status = ActionStatus.RUNNING → R d → R (d.add_action act))
    (hupd : ∀ d a, R d → R (d.update_action_status a ActionStatus.COMPLETED).2)
    (sched : List Nat) :
    ∀ s : Sys, (∀ h d, s.mem.deref h = some d → R d) → (∀ t ∈ s.threads, t.local_ok) →
      (∀ h d, (s.exec sched).mem.deref h = some d → R d) ∧
      (∀ t ∈ (s.exec sched).threads, t.local_ok) := by
  induction sched with
  | nil => intro s h1 h2; exact ⟨h1, h2⟩
  | cons i sched ih =>
    intro s h1 h2
    rw [Sys.exec_cons]
    cases ht : s.threads[i]? with
    | none => rw [Sys.advance_none s i ht]; exact ih s h1 h2
    | some t =>
      have hloc := h2 t (List.getElem?_mem ht)
      apply ih
      · rw [Sys.advance_some s i t ht]
        exact Task.step_devices R s.mem t hcreate hset hadd hupd hloc h1
      · intro u hu
        rw [Sys.advance_some s i t ht] at hu
        rcases List.mem_or_eq_of_mem_set hu with hu2 | hu2
        · exact h2 u hu2
        · rw [hu2]
          exact Task.step_local_ok s.mem t hloc

theorem Sys.calls_local_ok (m : Memory) (cs : List Call) :
    ∀ t ∈ (Sys.calls m cs).threads, t.local_ok := by
  intro t ht
  simp only [Sys.calls, List.mem_map] at ht
  obtain ⟨c, _, hc⟩ := ht
  rw [← hc]
  exact Call.start_local_ok c

theorem Memory.init_deref (h : Nat) : Memory.init.deref h = none := by
  simp [Memory.init, Memory.deref]

/-- Every action stored in a device object of a state reached from process start is
`RUNNING` or `COMPLETED`. -/
theorem Sys.stored_status (cs : List Call) (sched : List Nat) :
    ∀ h d, ((Sys.calls Memory.init cs).exec sched).mem.deref h = some d →
      ∀ a ac, umap_find d._actions a = some ac →
        ac.status = ActionStatus.RUNNING ∨ ac.status = ActionStatus.COMPLETED := by
  refine (Sys.exec_devices
    (fun d => ∀ a ac, umap_find d._actions a = some ac →
      ac.status = ActionStatus.RUNNING ∨ ac.status = ActionStatus.COMPLETED)
    ?_ ?_ ?_ ?_ sched (Sys.calls Memory.init cs) ?_ (Sys.calls_local_ok _ _)).1
  · intro st a ac h
    simp [Device.create, umap_find] at h
  · intro d st hd
    exact hd
  · intro d act hact hd a ac h
    by_cases ha : a = act.id
    · subst ha
      simp only [Device.add_action, umap_find_assign_same, Option.some.injEq] at h
      rw [← h]
      exact Or.inl hact
    · simp only [Device.add_action, umap_find_assign_other _ _ _ _ ha] at h
      exact hd a ac h
  · intro d a0 hd a ac h
    unfold Device.update_action_status at h
    cases hf : umap_find d._actions a0 with
    | none =>
      simp only [hf] at h
      exact hd a ac h
    | some ac0 =>
      simp only [hf] at h
      by_cases ha : a = a0
      · subst ha
        simp only [umap_find_assign_same, Option.some.injEq] at h
        rw [← h]
        exact Or.inr rfl
      · simp only [umap_find_assign_other _ _ _ _ ha] at h
        exact hd a ac h
  · intro h d hd
    have : (Sys.calls Memory.init cs).mem.deref h = none := Memory.init_deref h
    rw [this] at hd
    exact Option.noConfusion hd

/-- C17: in every state reached from the empty registry by any calls under any schedule,
every action stored in every device object (registered or replaced) is `RUNNING` or
`COMPLETED`, hence one of `RUNNING`, `COMPLETED`, `FAILED`; `GetDeviceAction` never
returns `PENDING`. -/
theorem C17_pending_never_observable (cs : List Call) (sched : List Nat) :
    (∀ h d a ac, ((Sys.calls Memory.init cs).exec sched).mem.deref h = some d →
      umap_find d._actions a = some ac →
      ac.status = ActionStatus.RUNNING ∨ ac.status = ActionStatus.COMPLETED) ∧
    (∀ h d a ac, ((Sys.calls Memory.init cs).exec sched).mem.deref h = some d →
      umap_find d._actions a = some ac →
      ac.status = ActionStatus.RUNNING ∨ ac.status = ActionStatus.COMPLETED ∨
        ac.status = ActionStatus.FAILED) ∧
    (∀ id a, (DevicePool.GetDeviceAction ((Sys.calls Memory.init cs).exec sched).mem id a).1
      ≠ some ActionStatus.PENDING) := by
  have hs := Sys.stored_status cs sched
  refine ⟨fun h d a ac hd hf => hs h d hd a ac hf, fun h d a ac hd hf => ?_, ?_⟩
  · rcases hs h d hd a ac hf with h1 | h1
    · exact Or.inl h1
    · exact Or.inr (Or.inl h1)
  · intro id a hp
    rw [DevicePool.GetDeviceAction_eq] at hp
    unfold Memory.view at hp
    cases hf : umap_find ((Sys.calls Memory.init cs).exec sched).mem._pool id with
    | none => simp [hf] at hp
    | some dev =>
      simp only [hf] at hp
      cases hd : ((Sys.calls Memory.init cs).exec sched).mem.deref dev with
      | none => simp [hd] at hp
      | some d =>
        simp only [hd, Option.bind_some, Device.get_action_status] at hp
        cases hac : umap_find d._actions a with
        | none => simp [hac] at hp
        | some ac =>
          have hp2 : ac.status = ActionStatus.PENDING := by simpa [hac] using hp
          rcases hs dev d hd a ac hac with h1 | h1 <;> rw [h1] at hp2 <;> cases hp2

/-- C20: in every state reached from the empty registry by any calls under any schedule,
`get_info()` of every device object, so of every registered device, is the empty string.
A call of `Device::set_info` makes `get_info()` return the text given and leaves the
state and the action map as they were. -/
theorem C20_info_stays_empty (cs : List Call) (sched : List Nat) :
    (∀ h d, ((Sys.calls Memory.init cs).exec sched).mem.deref h = some d →
      d.get_info = "") ∧
    (∀ id d, ((Sys.calls Memory.init cs).exec sched).mem.view id = some d →
      d.get_info = "") ∧
    (∀ (d : Device) (text : String),
      (d.set_info text).get_info = text ∧ (d.set_info text).get_state = d.get_state ∧
      (d.set_info text)._actions = d._actions) := by
  have hs := (Sys.exec_devices (fun d => d.get_info = "")
    (fun _ => rfl) (fun d st hd => hd) (fun d act _ hd => hd)
    (fun d a hd => (Device.get_info_update d a _).trans hd)
    sched (Sys.calls Memory.init cs)
    (fun h d hd => by
      have : (Sys.calls Memory.init cs).mem.deref h = none := Memory.init_deref h
      rw [this] at hd
      exact Option.noConfusion hd)
    (Sys.calls_local_ok _ _)).1
  refine ⟨hs, ?_, fun d text => ⟨rfl, rfl, rfl⟩⟩
  intro id d hv
  unfold Memory.view at hv
  cases hf : umap_find ((Sys.calls Memory.init cs).exec sched).mem._pool id with
  | none => simp [hf] at hv
  | some dev =>
    simp only [hf] at hv
    exact hs dev d hv

/-! ## Overlapping actions and replaced devices -/

/-- C15: from process start and for every state `s`, `RegisterDevice(7, s)`, then two
calls of `Initiate` on device 7 that get the ids 1 and 2, then only the worker of action
1.  After the registration the device is in state `s`.  When both calls have recorded
their action and no worker has taken a step, the device is `UPDATING` and both actions are
`RUNNING`.  The first step of the worker of action 1 makes action 1 `COMPLETED` and leaves
the device `UPDATING`; its second step writes `IDLE`.  In the state reached, the first
call has returned, the worker of the second has not run, `GetDevice(7)->get_state()` is
`IDLE` and `GetDeviceAction(7, 2)` is `RUNNING`: a device with a `RUNNING` action need not
be `UPDATING`. -/
theorem C15_idle_while_action_running (s : State) :
    (((Sys.calls Memory.init (Call.sample_overlap s)).exec [0]).mem.deref 0).map
      Device.get_state = some s ∧
    ((Sys.calls Memory.init (Call.sample_overlap s)).exec Sys.sample_dispatch_sched).threads
      = [Task.reg_ret, Task.wrk_update 0 1, Task.wrk_update 0 2] ∧
    (((Sys.calls Memory.init (Call.sample_overlap s)).exec
      Sys.sample_dispatch_sched).mem.deref 0).map Device.get_state = some State.UPDATING ∧
    (DevicePool.GetDeviceAction ((Sys.calls Memory.init (Call.sample_overlap s)).exec
      Sys.sample_dispatch_sched).mem 7 1).1 = some ActionStatus.RUNNING ∧
    (DevicePool.GetDeviceAction ((Sys.calls Memory.init (Call.sample_overlap s)).exec
      Sys.sample_dispatch_sched).mem 7 2).1 = some ActionStatus.RUNNING ∧
    ((Sys.calls Memory.init (Call.sample_overlap s)).exec
      (Sys.sample_dispatch_sched ++ [1])).threads
      = [Task.reg_ret, Task.wrk_reset 0 1, Task.wrk_update 0 2] ∧
    (((Sys.calls Memory.init (Call.sample_overlap s)).exec
      (Sys.sample_dispatch_sched ++ [1])).mem.deref 0).map Device.get_state
      = some State.UPDATING ∧
    (DevicePool.GetDeviceAction ((Sys.calls Memory.init (Call.sample_overlap s)).exec
      (Sys.sample_dispatch_sched ++ [1])).mem 7 1).1 = some ActionStatus.COMPLETED ∧
    Sys.sample_overlap_sched = Sys.sample_dispatch_sched ++ [1, 1] ∧
    ((Sys.calls Memory.init (Call.sample_overlap s)).exec Sys.sample_overlap_sched).threads
      = [Task.reg_ret, Task.ini_ret 1, Task.wrk_update 0 2] ∧
    (DevicePool.GetDevice
      ((Sys.calls Memory.init (Call.sample_overlap s)).exec Sys.sample_overlap_sched).mem 7).1
      = some 0 ∧
    (((Sys.calls Memory.init (Call.sample_overlap s)).exec
      Sys.sample_overlap_sched).mem.deref 0).map Device.get_state = some State.IDLE ∧
    (DevicePool.GetDeviceAction
      ((Sys.calls Memory.init (Call.sample_overlap s)).exec Sys.sample_overlap_sched).mem 7
      1).1 = some ActionStatus.COMPLETED ∧
    (DevicePool.GetDeviceAction
      ((Sys.calls Memory.init (Call.sample_overlap s)).exec Sys.sample_overlap_sched).mem 7
      2).1 = some ActionStatus.RUNNING := by
  cases s <;> decide

/-- One schedule of the two calls of C16: the synchronous part of `Initiate(id, ...)`,
then `RegisterDevice(id, s)`, then the two steps of the worker. -/
theorem Sys.exec_replaced (m : Memory) (id : Int) (dev : Nat) (ty : ActionType) (p : String)
    (s : State) (hreg : umap_find m._pool id = some dev) :
    (Sys.calls m [Call.Initiate id ty p, Call.RegisterDevice id s]).exec [0, 0, 0, 0, 1]
      = ⟨DevicePool.RegisterDevice (DevicePool.Initiate_dispatch m dev ty p).2 id s,
         [Task.wrk_update dev m._id_gen, Task.reg_ret]⟩ ∧
    (Sys.calls m [Call.Initiate id ty p, Call.RegisterDevice id s]).exec [0, 0, 0, 0, 1, 0, 0]
      = ⟨DevicePool.Initiate_worker
          (DevicePool.RegisterDevice (DevicePool.Initiate_dispatch m dev ty p).2 id s)
          dev m._id_gen,
         [Task.ini_ret m._id_gen, Task.reg_ret]⟩ := by
  constructor <;>
    simp [Sys.exec, Sys.advance, Sys.calls, Call.start, Task.step, hreg,
      DevicePool.Initiate_dispatch, DevicePool.Initiate_worker, Action.create, Action.id,
      Action.set_status, Memory.call, DevicePool.RegisterDevice]

theorem list_set_of_getElem? {α : Type} (l : List α) (i : Nat) (a : α)
    (h : l[i]? = some a) : l.set i a = l := by
  induction l generalizing i with
  | nil => rfl
  | cons x l ih =>
    cases i with
    | zero =>
      simp only [List.getElem?_cons_zero, Option.some.injEq] at h
      simp [h]
    | succ i =>
      simp only [List.getElem?_cons_succ] at h
      simp [ih i h]

theorem id_seq_mem (g : Int) (n : Nat) (a : Int) (h : a ∈ id_seq g n) :
    ∃ k : Nat, k < n ∧ a = wrap32 (g + (k : Int)) := by
  simp only [id_seq, List.mem_map, List.mem_range] at h
  obtain ⟨k, hk, hka⟩ := h
  exact ⟨k, hk, hka.symm⟩

/-- The first `2 ^ 32 - 2` values of a generator started at 1 are all different from
`-1`. -/
theorem id_seq_no_sentinel (n : Nat) (hn : n ≤ 2 ^ 32 - 2) : (-1 : Int) ∉ id_seq 1 n := by
  intro h
  obtain ⟨k, hk, hka⟩ := id_seq_mem 1 n (-1) h
  unfold wrap32 at hka
  omega

/-- C18 as stated fails: at process start, `RegisterDevice(0, IDLE)` followed by
`2 ^ 32 - 1` calls of `Initiate(0, SOFTWARE_UPDATE, "")` made one after the other.  Every
call finds its device, and the last one returns `-1`. -/
theorem C18_sentinel_returned_counterexample :
    (DevicePool.returned_ids Memory.init
      (Call.RegisterDevice 0 State.IDLE ::
        List.replicate (2 ^ 32 - 1) (Call.Initiate 0 ActionType.SOFTWARE_UPDATE ""))).length
      = 2 ^ 32 - 1 ∧
    (DevicePool.returned_ids Memory.init
      (Call.RegisterDevice 0 State.IDLE ::
        List.replicate (2 ^ 32 - 1) (Call.Initiate 0 ActionType.SOFTWARE_UPDATE "")))[2 ^ 32 - 2]?
      = some (-1) := by
  rw [DevicePool.returned_ids_from_start]
  refine ⟨id_seq_length _ _, ?_⟩
  rw [id_seq_getElem? 1 (2 ^ 32 - 1) (2 ^ 32 - 2) (by norm_num)]
  decide

/-- C18 (amended): `Initiate` returns `-1` exactly when the device is not registered or
the generator holds `-1`.  From process start, as long as at most `2 ^ 32 - 2` actions
have been created, no call that finds its device returns `-1`: neither among calls made
one after the other, nor under the scheduler, where every call that has returned `-1` is
at `return -1` of line 175. -/
theorem C18_sentinel_until_wrap (cs : List Call) (sched : List Nat)
    (hn : (DevicePool.returned_ids Memory.init cs).length ≤ 2 ^ 32 - 2)
    (hs : ((Sys.calls Memory.init cs).issued sched).length ≤ 2 ^ 32 - 2) :
    (∀ (m : Memory) (id : Int) (ty : ActionType) (p : String),
      (DevicePool.Initiate m id ty p).1 = -1 ↔
        (umap_find m._pool id = none ∨ m._id_gen = -1)) ∧
    (-1 : Int) ∉ DevicePool.returned_ids Memory.init cs ∧
    (-1 : Int) ∉ (Sys.calls Memory.init cs).issued sched ∧
    (∀ t ∈ ((Sys.calls Memory.init cs).exec sched).threads,
      t.result = some (Ret.int (-1)) → t = Task.ini_notfound) := by
  have hg : (Sys.calls Memory.init cs).mem._id_gen = 1 := rfl
  have hiss := (Sys.issued_eq sched (Sys.calls Memory.init cs)
    (by rw [hg]; norm_num) (by rw [hg]; norm_num)).1
  rw [hg] at hiss
  have hno : (-1 : Int) ∉ (Sys.calls Memory.init cs).issued sched := by
    rw [hiss]
    exact id_seq_no_sentinel _ hs
  refine ⟨?_, ?_, hno, ?_⟩
  · intro m id ty p
    cases hf : umap_find m._pool id with
    | none => simp [DevicePool.Initiate, hf]
    | some dev =>
      rw [DevicePool.Initiate_found m id dev ty p hf]
      simp
  · rw [(DevicePool.returned_ids_eq cs Memory.init (by decide) (by decide)).1]
    exact id_seq_no_sentinel _ hn
  · intro t ht hres
    have hperm := Sys.held_perm sched (Sys.calls Memory.init cs)
    rw [Sys.calls_held, List.nil_append] at hperm
    cases t with
    | ini_notfound => rfl
    | ini_ret a =>
      simp only [Task.result, Option.some.injEq, Ret.int.injEq] at hres
      subst hres
      have hmem : (-1 : Int) ∈ ((Sys.calls Memory.init cs).exec sched).threads.filterMap
          Task.held := List.mem_filterMap.2 ⟨_, ht, rfl⟩
      exact absurd (hperm.mem_iff.1 hmem) hno
    | _ => simp [Task.result] at hres

/-- C18 (amended) for `Call.sample_session`, which creates two actions. -/
theorem C18_sentinel_until_wrap_witness :
    (DevicePool.returned_ids Memory.init Call.sample_session).length ≤ 2 ^ 32 - 2 ∧
    ((Sys.calls Memory.init Call.sample_session).issued Sys.sample_session_sched).length
      ≤ 2 ^ 32 - 2 ∧
    ((∀ (m : Memory) (id : Int) (ty : ActionType) (p : String),
      (DevicePool.Initiate m id ty p).1 = -1 ↔
        (umap_find m._pool id = none ∨ m._id_gen = -1)) ∧
    (-1 : Int) ∉ DevicePool.returned_ids Memory.init Call.sample_session ∧
    (-1 : Int) ∉ (Sys.calls Memory.init Call.sample_session).issued Sys.sample_session_sched ∧
    (∀ t ∈ ((Sys.calls Memory.init Call.sample_session).exec Sys.sample_session_sched).threads,
      t.result = some (Ret.int (-1)) → t = Task.ini_notfound)) :=
  ⟨by decide, by decide,
    C18_sentinel_until_wrap Call.sample_session Sys.sample_session_sched (by decide) (by decide)⟩

/-! ## Statuses only move forward -/

theorem Task.held_of_added (t : Task) (a : Int) (h : t.added = some a) : t.held = some a := by
  cases t <;> simp_all [Task.added, Task.held]

theorem Task.step_added (m : Memory) (t : Task) (a : Int) (h : t.added = some a) :
    (t.step m).2.added = some a := by
  cases t <;> simp_all [Task.added, Task.step]

theorem Device.update_keys (d : Device) (id : Int) (st : ActionStatus) :
    umap_keys (d.update_action_status id st).2._actions = umap_keys d._actions := by
  unfold Device.update_action_status
  cases hf : umap_find d._actions id with
  | none => rfl
  | some ac => exact umap_keys_assign_found _ _ _ ac hf

theorem Memory.call_deref_inv (m : Memory) (h2 h : Nat) (f : Device → Device) (d : Device)
    (hd : (m.call h2 f).deref h = some d) :
    ∃ d0, m.deref h = some d0 ∧ d = if h2 = h then f d0 else d0 := by
  cases hd0 : m.deref h with
  | none =>
    by_cases hh : h2 = h
    · subst hh
      rw [Memory.deref_call_same, hd0] at hd
      exact Option.noConfusion hd
    · rw [Memory.deref_call_other m h2 h f hh, hd0] at hd
      exact Option.noConfusion hd
  | some d0 =>
    rw [Memory.deref_call m h2 h f d0 hd0] at hd
    exact ⟨d0, rfl, (Option.some.inj hd).symm⟩

/-- A key found in a device after a step was there before, unless the step is the
`add_action` of line 187 on that device and the key is the id of the action added. -/
theorem Task.step_keys (m : Memory) (t : Task) (h : Nat) (d : Device) (a : Int)
    (hd : (t.step m).1.deref h = some d) (ha : a ∈ umap_keys d._actions) :
    (∃ d0, m.deref h = some d0 ∧ a ∈ umap_keys d0._actions) ∨
    (∃ act, t = Task.ini_add h act ∧ a = act.id) := by
  cases t with
  | reg id st =>
    left
    simp only [Task.step, DevicePool.RegisterDevice, Memory.deref] at hd
    by_cases hlt : h < m.heap.length
    · rw [List.getElem?_append_left hlt] at hd
      exact ⟨d, hd, ha⟩
    · rw [List.getElem?_append_right (Nat.le_of_not_lt hlt)] at hd
      have hmem := List.getElem?_mem hd
      simp only [List.mem_singleton] at hmem
      rw [hmem] at ha
      simp [Device.create, umap_keys] at ha
  | set_find id st =>
    simp only [Task.step] at hd
    cases hf : umap_find m._pool id <;> simp only [hf] at hd <;> exact Or.inl ⟨d, hd, ha⟩
  | ini_find id ty p =>
    simp only [Task.step] at hd
    cases hf : umap_find m._pool id <;> simp only [hf] at hd <;> exact Or.inl ⟨d, hd, ha⟩
  | get_find id a2 =>
    simp only [Task.step] at hd
    cases hf : umap_find m._pool id <;> simp only [hf] at hd <;> exact Or.inl ⟨d, hd, ha⟩
  | get_read dev a2 =>
    simp only [Task.step] at hd
    cases hf : m.deref dev <;> simp only [hf] at hd <;> exact Or.inl ⟨d, hd, ha⟩
  | set_apply dev st =>
    obtain ⟨d0, hd0, hdd⟩ := Memory.call_deref_inv m dev h _ d hd
    left
    refine ⟨d0, hd0, ?_⟩
    by_cases hh : dev = h <;> simp only [hh, if_true, if_false] at hdd <;> rw [hdd] at ha <;>
      exact ha
  | ini_mark dev act =>
    obtain ⟨d0, hd0, hdd⟩ := Memory.call_deref_inv m dev h _ d hd
    left
    refine ⟨d0, hd0, ?_⟩
    by_cases hh : dev = h <;> simp only [hh, if_true, if_false] at hdd <;> rw [hdd] at ha <;>
      exact ha
  | wrk_reset dev a2 =>
    obtain ⟨d0, hd0, hdd⟩ := Memory.call_deref_inv m dev h _ d hd
    left
    refine ⟨d0, hd0, ?_⟩
    by_cases hh : dev = h <;> simp only [hh, if_true, if_false] at hdd <;> rw [hdd] at ha <;>
      exact ha
  | wrk_update dev a2 =>
    obtain ⟨d0, hd0, hdd⟩ := Memory.call_deref_inv m dev h _ d hd
    left
    refine ⟨d0, hd0, ?_⟩
    by_cases hh : dev = h
    · simp only [hh, if_true] at hdd
      rw [hdd, Device.update_keys] at ha
      exact ha
    · simp only [hh, if_false] at hdd
      rw [hdd] at ha
      exact ha
  | ini_add dev act =>
    obtain ⟨d0, hd0, hdd⟩ := Memory.call_deref_inv m dev h _ d hd
    by_cases hh : dev = h
    · subst hh
      simp only [if_true] at hdd
      rw [hdd] at ha
      simp only [Device.add_action] at ha
      rcases (umap_keys_assign _ _ _ _).1 ha with h1 | h1
      · exact Or.inr ⟨act, rfl, h1⟩
      · exact Or.inl ⟨d0, hd0, h1⟩
    · simp only [hh, if_false] at hdd
      rw [hdd] at ha
      exact Or.inl ⟨d0, hd0, ha⟩
  | ini_ctor dev ty p => exact Or.inl ⟨d, hd, ha⟩
  | _ => exact Or.inl ⟨d, hd, ha⟩

theorem Sys.keys_added_advance (s : Sys) (i : Nat) (hk : s.keys_added) :
    (s.advance i).keys_added := by
  cases ht : s.threads[i]? with
  | none => rw [Sys.advance_none s i ht]; exact hk
  | some t =>
    intro h d a hd ha
    have hm : (s.advance i).mem = (t.step s.mem).1 := by rw [Sys.advance_some s i t ht]
    rw [hm] at hd
    rcases Task.step_keys s.mem t h d a hd ha with ⟨d0, hd0, ha0⟩ | ⟨act, hact, haa⟩
    · obtain ⟨j, u, hu, hua⟩ := hk h d0 a hd0 ha0
      by_cases hij : i = j
      · subst hij
        rw [ht] at hu
        have hut : t = u := Option.some.inj hu
        subst hut
        refine ⟨i, (t.step s.mem).2, ?_, Task.step_added s.mem t a hua⟩
        rw [Sys.advance_getElem?]
        simp [ht]
      · refine ⟨j, u, ?_, hua⟩
        rw [Sys.advance_getElem?]
        simp [hij, hu]
    · refine ⟨i, (t.step s.mem).2, ?_, ?_⟩
      · rw [Sys.advance_getElem?]
        simp [ht]
      · rw [hact, haa]
        rfl

theorem Sys.keys_added_exec (sched : List Nat) :
    ∀ s : Sys, s.keys_added → (s.exec sched).keys_added := by
  induction sched with
  | nil => intro s h; exact h
  | cons i sched ih =>
    intro s h
    rw [Sys.exec_cons]
    exact ih _ (Sys.keys_added_advance s i h)

theorem Sys.keys_added_start (cs : List Call) : (Sys.calls Memory.init cs).keys_added := by
  intro h d a hd _
  have : (Sys.calls Memory.init cs).mem.deref h = none := Memory.init_deref h
  rw [this] at hd
  exact Option.noConfusion hd

theorem Device.mem_keys_of_status (d : Device) (a : Int) (st : ActionStatus)
    (h : d.get_action_status a = some st) : a ∈ umap_keys d._actions := by
  by_contra hk
  have hf := (umap_find_none_iff _ _).2 hk
  simp [Device.get_action_status, hf] at h

/-- One step of the scheduler leaves the status of a stored action as it is, or takes it
from `RUNNING` to `COMPLETED`, in a state where every key was recorded by a call in the
thread list, no two calls hold the same id and no stored status is `PENDING` or
`FAILED`. -/
theorem Sys.status_step (s : Sys) (i : Nat) (hk : s.keys_added)
    (hnd : (s.threads.filterMap Task.held).Nodup)
    (hst : ∀ h d a st, s.mem.deref h = some d → d.get_action_status a = some st →
      st = ActionStatus.RUNNING ∨ st = ActionStatus.COMPLETED)
    (h : Nat) (d : Device) (a : Int) (st : ActionStatus)
    (hd : s.mem.deref h = some d) (hs : d.get_action_status a = some st) :
    ∃ d2, (s.advance i).mem.deref h = some d2 ∧
      (d2.get_action_status a = some st ∨
        (st = ActionStatus.RUNNING ∧
          d2.get_action_status a = some ActionStatus.COMPLETED)) := by
  cases ht : s.threads[i]? with
  | none => rw [Sys.advance_none s i ht]; exact ⟨d, hd, Or.inl hs⟩
  | some t =>
    have hm : (s.advance i).mem = (t.step s.mem).1 := by rw [Sys.advance_some s i t ht]
    rw [hm]
    by_cases hheld : t.held = some a
    · cases t with
      | ini_mark h2 act =>
        refine ⟨_, Memory.deref_call s.mem h2 h _ d hd, Or.inl ?_⟩
        by_cases hh : h2 = h <;> simp [hh, Device.get_action_status_set_state, hs]
      | wrk_reset h2 a2 =>
        refine ⟨_, Memory.deref_call s.mem h2 h _ d hd, Or.inl ?_⟩
        by_cases hh : h2 = h <;> simp [hh, Device.get_action_status_set_state, hs]
      | ini_ret a2 => exact ⟨d, hd, Or.inl hs⟩
      | ini_add h2 act =>
        refine ⟨_, Memory.deref_call s.mem h2 h _ d hd, Or.inl ?_⟩
        by_cases hh : h2 = h
        · exfalso
          obtain ⟨j, u, hu, hua⟩ := hk h d a hd (Device.mem_keys_of_status d a st hs)
          have hij : i ≠ j := by
            intro hij
            subst hij
            rw [ht] at hu
            rw [← Option.some.inj hu] at hua
            simp [Task.added] at hua
          exact Task.held_distinct s.threads hnd i j _ u a hij ht hu
            (Task.held_of_added u a hua) hheld
        · simp [hh, hs]
      | wrk_update h2 a2 =>
        have ha : a2 = a := by simpa [Task.held] using hheld
        subst ha
        refine ⟨_, Memory.deref_call s.mem h2 h _ d hd, ?_⟩
        by_cases hh : h2 = h
        · have hne : d.get_action_status a2 ≠ none := by rw [hs]; simp
          have hc := Device.get_action_status_update_same d a2 ActionStatus.COMPLETED hne
          simp only [hh, if_true]
          rcases hst h d a2 st hd hs with h1 | h1
          · exact Or.inr ⟨h1, hc⟩
          · left
            rw [hc, h1]
        · simp [hh, hs]
      | _ => simp [Task.held] at hheld
    · obtain ⟨d2, hd2, hframe⟩ := Task.step_frame s.mem t h d hd
      exact ⟨d2, hd2, Or.inl (by rw [hframe a hheld]; exact hs)⟩

theorem Sys.stored_get_status (cs : List Call) (sched : List Nat) :
    ∀ h d a st, ((Sys.calls Memory.init cs).exec sched).mem.deref h = some d →
      d.get_action_status a = some st →
      st = ActionStatus.RUNNING ∨ st = ActionStatus.COMPLETED := by
  intro h d a st hd hs
  unfold Device.get_action_status at hs
  cases hf : umap_find d._actions a with
  | none => simp [hf] at hs
  | some ac =>
    simp only [hf, Option.some.injEq] at hs
    rw [← hs]
    exact Sys.stored_status cs sched h d hd a ac hf

theorem Task.step_in_initiate (m : Memory) (t : Task) :
    (t.step m).2.in_initiate = t.in_initiate := by
  cases t with
  | set_find id st => simp only [Task.step]; cases umap_find m._pool id <;> rfl
  | ini_find id ty p => simp only [Task.step]; cases umap_find m._pool id <;> rfl
  | get_find id a => simp only [Task.step]; cases umap_find m._pool id <;> rfl
  | get_read dev a => simp only [Task.step]; cases m.deref dev <;> rfl
  | _ => rfl

theorem Call.start_in_initiate (c : Call) : c.start.in_initiate = c.is_initiate := by
  cases c <;> rfl

theorem Task.in_initiate_of_held (t : Task) (a : Int) (h : t.held = some a) :
    t.in_initiate = true := by
  cases t <;> simp [Task.held] at h <;> rfl

/-- A step keeps the number of calls of `Initiate` among the threads. -/
theorem Sys.advance_initiates (s : Sys) (i : Nat) :
    (s.advance i).threads.countP Task.in_initiate = s.threads.countP Task.in_initiate := by
  cases h : s.threads[i]? with
  | none => rw [Sys.advance_none s i h]
  | some t =>
    obtain ⟨l₁, l₂, h1, _, h2, _⟩ := Sys.advance_split s i t h
    rw [h1, h2]
    simp only [List.countP_append, List.countP_cons, Task.step_in_initiate]

theorem Sys.exec_initiates (sched : List Nat) :
    ∀ s : Sys, (s.exec sched).threads.countP Task.in_initiate
      = s.threads.countP Task.in_initiate := by
  induction sched with
  | nil => intro s; rfl
  | cons i sched ih => intro s; rw [Sys.exec_cons, ih, Sys.advance_initiates]

theorem Sys.calls_initiates (m : Memory) (cs : List Call) :
    (Sys.calls m cs).threads.countP Task.in_initiate = cs.countP Call.is_initiate := by
  induction cs with
  | nil => rfl
  | cons c cs ih =>
    simp only [Sys.calls, List.map_cons, List.countP_cons, Call.start_in_initiate] at ih ⊢
    rw [ih]

/-- Only calls of `Initiate` hold an action id. -/
theorem Task.held_le_initiates (l : List Task) :
    (l.filterMap Task.held).length ≤ l.countP Task.in_initiate := by
  induction l with
  | nil => simp
  | cons t l ih =>
    cases h : t.held with
    | none =>
      rw [List.filterMap_cons_none h, List.countP_cons]
      omega
    | some a =>
      rw [List.filterMap_cons_some h, List.countP_cons, Task.in_initiate_of_held t a h]
      simp only [List.length_cons, if_true]
      omega

/-- With at most `2 ^ 32` calls of `Initiate`, and any number of other calls, no two calls
ever hold the same action id. -/
theorem Sys.held_nodup_of_initiates (m : Memory) (hwf : m.wf) (cs : List Call)
    (hN : cs.countP Call.is_initiate ≤ 2 ^ 32) (sched : List Nat) :
    (((Sys.calls m cs).exec sched).threads.filterMap Task.held).Nodup := by
  have hperm := Sys.held_perm sched (Sys.calls m cs)
  rw [Sys.calls_held, List.nil_append] at hperm
  have hiss := (Sys.issued_eq sched (Sys.calls m cs) hwf.2.1 hwf.2.2).1
  have hlen : ((Sys.calls m cs).issued sched).length ≤ 2 ^ 32 := by
    rw [← hperm.length_eq]
    refine le_trans (Task.held_le_initiates _) ?_
    rw [Sys.exec_initiates, Sys.calls_initiates]
    exact hN
  rw [hperm.nodup_iff, hiss]
  exact id_seq_nodup _ _ hlen

/-- From process start and with at most `2 ^ 32` calls of `Initiate`, along any
continuation of any schedule a stored action keeps its status or goes from `RUNNING` to
`COMPLETED`. -/
theorem Sys.status_forward (cs : List Call) (hN : cs.countP Call.is_initiate ≤ 2 ^ 32)
    (sched : List Nat)
    (sched2 : List Nat) :
    ∀ (h : Nat) (d : Device) (a : Int) (st : ActionStatus),
      ((Sys.calls Memory.init cs).exec sched).mem.deref h = some d →
      d.get_action_status a = some st →
      ∃ d2, (((Sys.calls Memory.init cs).exec sched).exec sched2).mem.deref h = some d2 ∧
        (d2.get_action_status a = some st ∨
          (st = ActionStatus.RUNNING ∧
            d2.get_action_status a = some ActionStatus.COMPLETED)) := by
  induction sched2 using List.reverseRecOn with
  | nil => intro h d a st hd hs; exact ⟨d, hd, Or.inl hs⟩
  | append_singleton sched2 i ih =>
    intro h d a st hd hs
    obtain ⟨d1, hd1, hs1⟩ := ih h d a st hd hs
    rw [Sys.exec_snoc, ← Sys.exec_append]
    rw [← Sys.exec_append] at hd1
    have hk := Sys.keys_added_exec (sched ++ sched2) _ (Sys.keys_added_start cs)
    have hnd := Sys.held_nodup_of_initiates Memory.init (by decide) cs hN (sched ++ sched2)
    have hst := Sys.stored_get_status cs (sched ++ sched2)
    rcases hs1 with hs1 | ⟨hrun, hs1⟩
    · obtain ⟨d2, hd2, hs2⟩ := Sys.status_step _ i hk hnd hst h d1 a st hd1 hs1
      exact ⟨d2, hd2, hs2⟩
    · obtain ⟨d2, hd2, hs2⟩ := Sys.status_step _ i hk hnd hst h d1 a
        ActionStatus.COMPLETED hd1 hs1
      refine ⟨d2, hd2, Or.inr ⟨hrun, ?_⟩⟩
      rcases hs2 with hs2 | ⟨hc, _⟩
      · exact hs2
      · cases hc

/-- C14 (amended): from process start, with at most `2 ^ 32` calls of `Initiate` among
calls of any kind and in any number, in every state reached under any schedule: the local
action of a call of `Initiate` is `PENDING` until
line 186 and `RUNNING` when it is recorded; every stored action is `RUNNING` or
`COMPLETED`; one step leaves the status of a stored action unchanged or takes it from
`RUNNING` to `COMPLETED`; and along any continuation of the run a `COMPLETED` action
stays `COMPLETED` and a `RUNNING` action is `RUNNING` or `COMPLETED`, never `PENDING`
again and never removed.  So each arrow is taken at most once. -/
theorem C14_status_moves_forward (cs : List Call)
    (hN : cs.countP Call.is_initiate ≤ 2 ^ 32) (sched : List Nat) :
    (∀ t ∈ ((Sys.calls Memory.init cs).exec sched).threads, t.local_ok) ∧
    (∀ h d a st, ((Sys.calls Memory.init cs).exec sched).mem.deref h = some d →
      d.get_action_status a = some st →
      st = ActionStatus.RUNNING ∨ st = ActionStatus.COMPLETED) ∧
    (∀ (i h : Nat) (d : Device) (a : Int) (st : ActionStatus),
      ((Sys.calls Memory.init cs).exec sched).mem.deref h = some d →
      d.get_action_status a = some st →
      ∃ d2, (((Sys.calls Memory.init cs).exec sched).advance i).mem.deref h = some d2 ∧
        (d2.get_action_status a = some st ∨
          (st = ActionStatus.RUNNING ∧
            d2.get_action_status a = some ActionStatus.COMPLETED))) ∧
    (∀ (sched2 : List Nat) (h : Nat) (d : Device) (a : Int) (st : ActionStatus),
      ((Sys.calls Memory.init cs).exec sched).mem.deref h = some d →
      d.get_action_status a = some st →
      ∃ d2, (((Sys.calls Memory.init cs).exec sched).exec sched2).mem.deref h = some d2 ∧
        (d2.get_action_status a = some st ∨
          (st = ActionStatus.RUNNING ∧
            d2.get_action_status a = some ActionStatus.COMPLETED))) := by
  refine ⟨?_, Sys.stored_get_status cs sched, ?_, ?_⟩
  · exact (Sys.exec_devices (fun _ => True) (fun _ => trivial) (fun _ _ _ => trivial)
      (fun _ _ _ _ => trivial) (fun _ _ _ => trivial) sched (Sys.calls Memory.init cs)
      (fun _ _ _ => trivial) (Sys.calls_local_ok _ _)).2
  · intro i h d a st hd hs
    exact Sys.status_step _ i (Sys.keys_added_exec sched _ (Sys.keys_added_start cs))
      (Sys.held_nodup_of_initiates Memory.init (by decide) cs hN sched)
      (Sys.stored_get_status cs sched) h d a st hd hs
  · intro sched2 h d a st hd hs
    exact Sys.status_forward cs hN sched sched2 h d a st hd hs

/-- C14 (amended) for `Call.sample_session` under `Sys.sample_overlap_sched`. -/
theorem C14_status_moves_forward_witness :
    Call.sample_session.countP Call.is_initiate ≤ 2 ^ 32 ∧
    ((∀ t ∈ ((Sys.calls Memory.init Call.sample_session).exec Sys.sample_overlap_sched).threads,
      t.local_ok) ∧
    (∀ h d a st,
      ((Sys.calls Memory.init Call.sample_session).exec Sys.sample_overlap_sched).mem.deref h
        = some d →
      d.get_action_status a = some st →
      st = ActionStatus.RUNNING ∨ st = ActionStatus.COMPLETED) ∧
    (∀ (i h : Nat) (d : Device) (a : Int) (st : ActionStatus),
      ((Sys.calls Memory.init Call.sample_session).exec Sys.sample_overlap_sched).mem.deref h
        = some d →
      d.get_action_status a = some st →
      ∃ d2, (((Sys.calls Memory.init Call.sample_session).exec Sys.sample_overlap_sched).advance
          i).mem.deref h = some d2 ∧
        (d2.get_action_status a = some st ∨
          (st = ActionStatus.RUNNING ∧
            d2.get_action_status a = some ActionStatus.COMPLETED))) ∧
    (∀ (sched2 : List Nat) (h : Nat) (d : Device) (a : Int) (st : ActionStatus),
      ((Sys.calls Memory.init Call.sample_session).exec Sys.sample_overlap_sched).mem.deref h
        = some d →
      d.get_action_status a = some st →
      ∃ d2, (((Sys.calls Memory.init Call.sample_session).exec Sys.sample_overlap_sched).exec
          sched2).mem.deref h = some d2 ∧
        (d2.get_action_status a = some st ∨
          (st = ActionStatus.RUNNING ∧
            d2.get_action_status a = some ActionStatus.COMPLETED)))) :=
  ⟨by decide,
    C14_status_moves_forward Call.sample_session (by decide) Sys.sample_overlap_sched⟩

/-! ## The frame of `Initiate`, and what happens when an id comes back -/

theorem DevicePool.run_cons (m : Memory) (c : Call) (cs : List Call) :
    DevicePool.run m (c :: cs) = DevicePool.run (DevicePool.invoke m c).2 cs := rfl

theorem DevicePool.run_snoc (cs : List Call) (c : Call) :
    ∀ m : Memory,
      DevicePool.run m (cs ++ [c]) = (DevicePool.invoke (DevicePool.run m cs) c).2 := by
  induction cs with
  | nil => intro m; rfl
  | cons c2 cs ih => intro m; exact ih _

/-- What one whole call of `Initiate` on a registered device does to its device: the new
action is `COMPLETED`, the status of every other id is as before. -/
theorem DevicePool.Initiate_effect (m : Memory) (id : Int) (dev : Nat) (d0 : Device)
    (ty : ActionType) (p : String) (hreg : umap_find m._pool id = some dev)
    (hd : m.deref dev = some d0) :
    umap_find (DevicePool.Initiate m id ty p).2._pool id = some dev ∧
    (DevicePool.Initiate m id ty p).2._id_gen = wrap32 (m._id_gen + 1) ∧
    ∃ d, (DevicePool.Initiate m id ty p).2.deref dev = some d ∧
      d.get_action_status m._id_gen = some ActionStatus.COMPLETED ∧
      ∀ j, j ≠ m._id_gen → d.get_action_status j = d0.get_action_status j := by
  rw [DevicePool.Initiate_found m id dev ty p hreg]
  refine ⟨hreg, rfl, ?_⟩
  obtain ⟨d, hd2, hst, _, _⟩ := DevicePool.settled m dev d0 ty p hd
  refine ⟨d, hd2, hst, ?_⟩
  intro j hj
  rw [DevicePool.deref_worker, DevicePool.deref_dispatch, hd] at hd2
  rw [← Option.some.inj hd2]
  rw [Device.get_action_status_set_state, Device.get_action_status_update_other _ _ _ _ hj,
    Device.get_action_status_add_action_other _ _ _ hj, Device.get_action_status_set_state]

/-- The memory after `RegisterDevice(0, IDLE)` and `n` calls of `Initiate` on device 0
made one after the other from process start, for `1 ≤ n ≤ 2 ^ 32`: the generator holds
`1 + n` reduced to 32 bits, and action 1 of the device is `COMPLETED`. -/
theorem DevicePool.seq_state (n : Nat) (h1 : 1 ≤ n) :
    n ≤ 2 ^ 32 →
    umap_find (DevicePool.run (DevicePool.RegisterDevice Memory.init 0 State.IDLE)
      (List.replicate n (Call.Initiate 0 ActionType.SOFTWARE_UPDATE "")))._pool 0 = some 0 ∧
    (DevicePool.run (DevicePool.RegisterDevice Memory.init 0 State.IDLE)
      (List.replicate n (Call.Initiate 0 ActionType.SOFTWARE_UPDATE "")))._id_gen
      = wrap32 (1 + (n : Int)) ∧
    ∃ d, (DevicePool.run (DevicePool.RegisterDevice Memory.init 0 State.IDLE)
      (List.replicate n (Call.Initiate 0 ActionType.SOFTWARE_UPDATE ""))).deref 0 = some d ∧
      d.get_action_status 1 = some ActionStatus.COMPLETED := by
  induction n, h1 using Nat.le_induction with
  | base =>
    intro _
    have h := DevicePool.Initiate_effect (DevicePool.RegisterDevice Memory.init 0 State.IDLE)
      0 0 (Device.create State.IDLE) ActionType.SOFTWARE_UPDATE "" rfl rfl
    obtain ⟨ha, hb, d, hd, hs, _⟩ := h
    exact ⟨ha, hb, d, hd, hs⟩
  | succ n hn ih =>
    intro hle
    obtain ⟨ha, hb, d0, hd0, hs0⟩ := ih (by omega)
    rw [List.replicate_succ', DevicePool.run_snoc]
    obtain ⟨ha2, hb2, d, hd, _, hs⟩ := DevicePool.Initiate_effect _ 0 0 d0
      ActionType.SOFTWARE_UPDATE "" ha hd0
    refine ⟨ha2, ?_, d, hd, ?_⟩
    · show (DevicePool.Initiate _ 0 ActionType.SOFTWARE_UPDATE "").2._id_gen = _
      have e : (1 : Int) + (n : Int) + 1 = 1 + ((n + 1 : Nat) : Int) := by omega
      rw [hb2, hb, wrap32_wrap32_add, e]
    · have hne : (1 : Int) ≠ wrap32 (1 + (n : Int)) := by
        unfold wrap32
        omega
      rw [hb] at hs
      rw [hs 1 hne, hs0]

/-- The synchronous part of `Initiate` when the generator holds an id that the device
already has: the entry is overwritten, so the status stored under that id becomes
`RUNNING` and no key is added. -/
theorem DevicePool.dispatch_overwrite (m : Memory) (dev : Nat) (d0 : Device) (ty : ActionType)
    (p : String) (hd : m.deref dev = some d0) (hk : m._id_gen ∈ umap_keys d0._actions) :
    ∃ d, (DevicePool.Initiate_dispatch m dev ty p).2.deref dev = some d ∧
      d.get_action_status m._id_gen = some ActionStatus.RUNNING ∧
      umap_keys d._actions = umap_keys d0._actions := by
  rw [DevicePool.deref_dispatch, hd]
  refine ⟨_, rfl, ?_, ?_⟩
  · have h := Device.get_action_status_add_action (d0.set_state State.UPDATING)
      { _action_type := ty, _action_status := ActionStatus.RUNNING,
        _action_param := p, _action_id := m._id_gen }
    simpa [Action.id, Action.status] using h
  · cases hf : umap_find d0._actions m._id_gen with
    | none => exact absurd hk ((umap_find_none_iff _ _).1 hf)
    | some ac =>
      exact umap_keys_assign_found d0._actions m._id_gen _ ac hf

/-- The first four scheduler steps of a call of `Initiate` on a registered device. -/
theorem Sys.exec_dispatch (m : Memory) (id : Int) (dev : Nat) (ty : ActionType) (p : String)
    (hreg : umap_find m._pool id = some dev) :
    (Sys.calls m [Call.Initiate id ty p]).exec [0, 0, 0]
      = ⟨({ m with _id_gen := wrap32 (m._id_gen + 1) } : Memory).call dev
            (fun d => d.set_state State.UPDATING),
         [Task.ini_add dev { _action_type := ty, _action_status := ActionStatus.RUNNING,
                             _action_param := p, _action_id := m._id_gen }]⟩ ∧
    ((Sys.calls m [Call.Initiate id ty p]).exec [0, 0, 0]).advance 0
      = ⟨(DevicePool.Initiate_dispatch m dev ty p).2, [Task.wrk_update dev m._id_gen]⟩ := by
  constructor <;>
    simp [Sys.exec, Sys.advance, Sys.calls, Call.start, Task.step, hreg,
      DevicePool.Initiate_dispatch, Action.create, Action.id, Action.set_status, Memory.call]

theorem DevicePool.run_register_cons (cs : List Call) :
    DevicePool.run Memory.init (Call.RegisterDevice 0 State.IDLE :: cs)
      = DevicePool.run (DevicePool.RegisterDevice Memory.init 0 State.IDLE) cs := rfl

/-- The memory after `RegisterDevice(0, IDLE)` and `2 ^ 32` calls of `Initiate` on device
0 made one after the other from process start: the generator is back at 1, and action 1
of the device is `COMPLETED`. -/
theorem DevicePool.wrapped_state :
    umap_find Memory.wrapped._pool 0 = some 0 ∧
    Memory.wrapped._id_gen = 1 ∧
    ∃ d, Memory.wrapped.deref 0 = some d ∧
      d.get_action_status 1 = some ActionStatus.COMPLETED := by
  unfold Memory.wrapped
  rw [DevicePool.run_register_cons]
  obtain ⟨ha, hb, hc⟩ := DevicePool.seq_state (2 ^ 32) (by norm_num) (le_refl _)
  refine ⟨ha, ?_, hc⟩
  rw [hb]
  decide

/-- On a registered device whose action under the id held by the generator is
`COMPLETED`: the status read through the registry before a call of `Initiate`, after its
first three steps, and after its fourth step (line 187). -/
theorem Sys.overwrite_step (m : Memory) (id : Int) (dev : Nat) (d0 : Device) (ty : ActionType)
    (p : String) (hreg : umap_find m._pool id = some dev) (hd : m.deref dev = some d0)
    (hs : d0.get_action_status m._id_gen = some ActionStatus.COMPLETED) :
    (DevicePool.GetDeviceAction m id m._id_gen).1 = some ActionStatus.COMPLETED ∧
    (DevicePool.GetDeviceAction ((Sys.calls m [Call.Initiate id ty p]).exec [0, 0, 0]).mem
      id m._id_gen).1 = some ActionStatus.COMPLETED ∧
    (DevicePool.GetDeviceAction
      (((Sys.calls m [Call.Initiate id ty p]).exec [0, 0, 0]).advance 0).mem
      id m._id_gen).1 = some ActionStatus.RUNNING := by
  obtain ⟨h3, h4⟩ := Sys.exec_dispatch m id dev ty p hreg
  rw [h4, h3]
  refine ⟨?_, ?_, ?_⟩
  · rw [DevicePool.GetDeviceAction_of_deref m id _ dev d0 hreg hd, hs]
  · have hd3 : (({ m with _id_gen := wrap32 (m._id_gen + 1) } : Memory).call dev
        (fun d => d.set_state State.UPDATING)).deref dev = some (d0.set_state State.UPDATING) := by
      rw [Memory.deref_call_same]
      have : ({ m with _id_gen := wrap32 (m._id_gen + 1) } : Memory).deref dev = m.deref dev :=
        rfl
      rw [this, hd]
      rfl
    have hp3 : umap_find (({ m with _id_gen := wrap32 (m._id_gen + 1) } : Memory).call dev
        (fun d => d.set_state State.UPDATING))._pool id = some dev := hreg
    have h := DevicePool.GetDeviceAction_of_deref _ id m._id_gen dev _ hp3 hd3
    exact h.trans (by rw [Device.get_action_status_set_state, hs])
  · obtain ⟨d, hd4, hrun, _⟩ := DevicePool.dispatch_overwrite m dev d0 ty p hd
      (Device.mem_keys_of_status d0 _ _ hs)
    have hp4 : umap_find (DevicePool.Initiate_dispatch m dev ty p).2._pool id = some dev := hreg
    have h := DevicePool.GetDeviceAction_of_deref _ id m._id_gen dev d hp4 hd4
    exact h.trans hrun

/-- C14 as stated fails: from process start, `RegisterDevice(0, IDLE)` and `2 ^ 32` calls
of `Initiate` on device 0 made one after the other (`Memory.wrapped`), then one more call
of `Initiate` on device 0.  Action 1 is `COMPLETED` before that call and still after its first three
steps; its fourth step, `add_action` (line 187), stores the new action under the id 1
again, and `GetDeviceAction(0, 1)` is `RUNNING`. -/
theorem C14_completed_goes_back_counterexample :
    (DevicePool.GetDeviceAction Memory.wrapped 0 1).1 = some ActionStatus.COMPLETED ∧
    (DevicePool.GetDeviceAction
      ((Sys.calls Memory.wrapped [Call.Initiate 0 ActionType.SOFTWARE_UPDATE ""]).exec
        [0, 0, 0]).mem
      0 1).1 = some ActionStatus.COMPLETED ∧
    (DevicePool.GetDeviceAction
      (((Sys.calls Memory.wrapped [Call.Initiate 0 ActionType.SOFTWARE_UPDATE ""]).exec
        [0, 0, 0]).advance 0).mem
      0 1).1 = some ActionStatus.RUNNING := by
  obtain ⟨ha, hb, d, hd, hs⟩ := DevicePool.wrapped_state
  have h := Sys.overwrite_step Memory.wrapped 0 0 d ActionType.SOFTWARE_UPDATE "" ha hd
    (by rw [hb]; exact hs)
  rw [hb] at h
  exact h

/-- The synchronous part of `Initiate` on a registered device that already holds, as
`COMPLETED`, the id held by the generator: what the registry shows before and after. -/
theorem DevicePool.dispatch_overwrite_read (m : Memory) (id : Int) (dev : Nat) (d0 : Device)
    (ty : ActionType) (p : String) (hreg : umap_find m._pool id = some dev)
    (hd : m.deref dev = some d0)
    (hs : d0.get_action_status m._id_gen = some ActionStatus.COMPLETED) :
    (DevicePool.Initiate_dispatch m dev ty p).1 = m._id_gen ∧
    (DevicePool.GetDeviceAction m id m._id_gen).1 = some ActionStatus.COMPLETED ∧
    (DevicePool.GetDeviceAction (DevicePool.Initiate_dispatch m dev ty p).2 id m._id_gen).1
      = some ActionStatus.RUNNING ∧
    ∃ d0 d, m.deref dev = some d0 ∧
      (DevicePool.Initiate_dispatch m dev ty p).2.deref dev = some d ∧
      umap_keys d._actions = umap_keys d0._actions := by
  obtain ⟨d, hd4, hrun, hkeys⟩ := DevicePool.dispatch_overwrite m dev d0 ty p hd
    (Device.mem_keys_of_status d0 _ _ hs)
  refine ⟨rfl, ?_, ?_, d0, d, hd, hd4, hkeys⟩
  · rw [DevicePool.GetDeviceAction_of_deref m id _ dev d0 hreg hd, hs]
  · have hp4 : umap_find (DevicePool.Initiate_dispatch m dev ty p).2._pool id = some dev := hreg
    have h := DevicePool.GetDeviceAction_of_deref _ id m._id_gen dev d hp4 hd4
    exact h.trans hrun

/-- C19 as stated fails on `Memory.wrapped`, the memory reached from process start by
`RegisterDevice(0, IDLE)` and `2 ^ 32` calls of `Initiate` on device 0, where device 0 is
the object 0: the synchronous part of the next `Initiate(0, ...)` returns the id 1, which the device already holds as
`COMPLETED`; afterwards that action is `RUNNING` and the action map has the same keys as
before, so an action already held has changed and no entry was added. -/
theorem C19_frame_breaks_counterexample :
    umap_find Memory.wrapped._pool 0 = some 0 ∧
    (DevicePool.Initiate_dispatch Memory.wrapped 0 ActionType.SOFTWARE_UPDATE "").1 = 1 ∧
    (DevicePool.GetDeviceAction Memory.wrapped 0 1).1 = some ActionStatus.COMPLETED ∧
    (DevicePool.GetDeviceAction
      (DevicePool.Initiate_dispatch Memory.wrapped 0 ActionType.SOFTWARE_UPDATE "").2 0 1).1
      = some ActionStatus.RUNNING ∧
    ∃ d0 d, Memory.wrapped.deref 0 = some d0 ∧
      (DevicePool.Initiate_dispatch Memory.wrapped 0 ActionType.SOFTWARE_UPDATE "").2.deref 0
        = some d ∧
      umap_keys d._actions = umap_keys d0._actions := by
  obtain ⟨ha, hb, d0, hd, hs⟩ := DevicePool.wrapped_state
  have h := DevicePool.dispatch_overwrite_read Memory.wrapped 0 0 d0
    ActionType.SOFTWARE_UPDATE "" ha hd
    (by rw [hb]; exact hs)
  rw [hb] at h
  exact ⟨ha, h⟩

theorem umap_assign_fresh {V : Type} (m : unordered_map V) (key : Int) (v : V)
    (h : key ∉ umap_keys m) : umap_assign m key v = m ++ [(key, v)] := by
  induction m with
  | nil => rfl
  | cons e m ih =>
    obtain ⟨k, w⟩ := e
    have h2 : ¬ k = key ∧ key ∉ umap_keys m := by
      simp only [umap_keys, List.map_cons, List.mem_cons, not_or] at h
      exact ⟨fun hk => h.1 hk.symm, h.2⟩
    simp only [umap_assign, h2.1, if_false, List.cons_append, ih h2.2]

/-- From process start, as long as fewer than `2 ^ 32` actions have been created, the
value held by the generator is not a key of any action map. -/
theorem Sys.generator_fresh (cs : List Call) (sched : List Nat)
    (hlt : ((Sys.calls Memory.init cs).issued sched).length < 2 ^ 32) :
    ∀ h d, ((Sys.calls Memory.init cs).exec sched).mem.deref h = some d →
      ((Sys.calls Memory.init cs).exec sched).mem._id_gen ∉ umap_keys d._actions := by
  intro h d hd hk
  have hg : (Sys.calls Memory.init cs).mem._id_gen = 1 := rfl
  obtain ⟨hiss, hgen⟩ := Sys.issued_eq sched (Sys.calls Memory.init cs)
    (by rw [hg]; norm_num) (by rw [hg]; norm_num)
  rw [hg] at hiss hgen
  have hperm := Sys.held_perm sched (Sys.calls Memory.init cs)
  rw [Sys.calls_held, List.nil_append] at hperm
  obtain ⟨j, u, hu, hua⟩ := Sys.keys_added_exec sched _ (Sys.keys_added_start cs) h d _ hd hk
  have hmem : ((Sys.calls Memory.init cs).exec sched).mem._id_gen ∈
      ((Sys.calls Memory.init cs).exec sched).threads.filterMap Task.held :=
    List.mem_filterMap.2 ⟨u, List.getElem?_mem hu, Task.held_of_added u _ hua⟩
  have hmem2 := hperm.mem_iff.1 hmem
  rw [hiss] at hmem2
  obtain ⟨k, hk1, hk2⟩ := id_seq_mem _ _ _ hmem2
  rw [hgen] at hk2
  have := wrap32_inj 1 _ _ hlt (by omega) hk2
  omega

/-- C19 (amended): on a memory where `device_id` is registered with the device `d0` and
the value `g` of the generator is not yet a key of its action map, the synchronous part
of `Initiate` (the lookup and lines 181-187, four scheduler steps) returns `g`, leaves
the table, the number of device objects and every other object unchanged, advances the
generator to `g + 1` reduced to 32 bits (`g + 1` itself unless `g` is `2 ^ 31 - 1`), and
leaves the target with state `UPDATING`, its info as before, and its action map extended
by exactly the entry of `g`, which is `RUNNING`; the status of every action held before
is unchanged.  From process start the generator is never a key of an action map while
fewer than `2 ^ 32` actions have been created. -/
theorem C19_initiate_frame (m : Memory) (device_id : Int) (dev : Nat) (d0 : Device)
    (ty : ActionType) (p : String) (hreg : umap_find m._pool device_id = some dev)
    (hd : m.deref dev = some d0) (hfresh : m._id_gen ∉ umap_keys d0._actions) :
    Task.run 4 m (Task.ini_find device_id ty p)
      = ((DevicePool.Initiate_dispatch m dev ty p).2, Task.wrk_update dev m._id_gen) ∧
    (DevicePool.Initiate_dispatch m dev ty p).1 = m._id_gen ∧
    (DevicePool.Initiate_dispatch m dev ty p).2._pool = m._pool ∧
    (DevicePool.Initiate_dispatch m dev ty p).2._id_gen = wrap32 (m._id_gen + 1) ∧
    (-2 ^ 31 ≤ m._id_gen → m._id_gen < 2 ^ 31 - 1 →
      (DevicePool.Initiate_dispatch m dev ty p).2._id_gen = m._id_gen + 1) ∧
    (DevicePool.Initiate_dispatch m dev ty p).2.heap.length = m.heap.length ∧
    (∀ h, h ≠ dev → (DevicePool.Initiate_dispatch m dev ty p).2.deref h = m.deref h) ∧
    (∃ d, (DevicePool.Initiate_dispatch m dev ty p).2.deref dev = some d ∧
      d.get_state = State.UPDATING ∧ d.get_info = d0.get_info ∧
      d._actions = d0._actions ++
        [(m._id_gen, { _action_type := ty, _action_status := ActionStatus.RUNNING,
                       _action_param := p, _action_id := m._id_gen })] ∧
      d.get_action_status m._id_gen = some ActionStatus.RUNNING ∧
      ∀ j, j ∈ umap_keys d0._actions → d.get_action_status j = d0.get_action_status j) ∧
    (∀ (cs : List Call) (sched : List Nat),
      ((Sys.calls Memory.init cs).issued sched).length < 2 ^ 32 →
      ∀ h d, ((Sys.calls Memory.init cs).exec sched).mem.deref h = some d →
        ((Sys.calls Memory.init cs).exec sched).mem._id_gen ∉ umap_keys d._actions) := by
  refine ⟨?_, rfl, rfl, rfl, ?_, ?_, ?_, ?_, Sys.generator_fresh⟩
  · simp only [Task.run, Task.step, hreg]
    rfl
  · intro h1 h2
    rw [DevicePool.dispatch_id_gen]
    exact wrap32_of_range _ (by omega) (by omega)
  · simp [DevicePool.Initiate_dispatch, Memory.call, Action.create]
  · intro h hne
    simp only [DevicePool.Initiate_dispatch, Action.create]
    rw [Memory.deref_call_other _ _ _ _ (Ne.symm hne),
      Memory.deref_call_other _ _ _ _ (Ne.symm hne)]
    rfl
  · rw [DevicePool.deref_dispatch, hd]
    refine ⟨_, rfl, rfl, rfl, ?_, ?_, ?_⟩
    · simp only [Device.add_action, Device.set_state, Action.id]
      exact umap_assign_fresh _ _ _ hfresh
    · have h := Device.get_action_status_add_action (d0.set_state State.UPDATING)
        { _action_type := ty, _action_status := ActionStatus.RUNNING,
          _action_param := p, _action_id := m._id_gen }
      simpa [Action.id, Action.status] using h
    · intro j hj
      have hne : j ≠ m._id_gen := fun h => hfresh (h ▸ hj)
      simp only [Option.map_some']
      rw [Device.get_action_status_add_action_other _ _ _ (by simpa [Action.id] using hne),
        Device.get_action_status_set_state]

/-- C19 (amended) on `Memory.sample`: device 7 holds action 4 and the generator is at 5. -/
theorem C19_initiate_frame_witness :
    umap_find Memory.sample._pool 7 = some 0 ∧
    Memory.sample.deref 0 = some Device.sample ∧
    Memory.sample._id_gen ∉ umap_keys Device.sample._actions ∧
    (Task.run 4 Memory.sample (Task.ini_find 7 ActionType.SOFTWARE_UPDATE "v2.0")
      = ((DevicePool.Initiate_dispatch Memory.sample 0 ActionType.SOFTWARE_UPDATE "v2.0").2,
         Task.wrk_update 0 Memory.sample._id_gen) ∧
    (DevicePool.Initiate_dispatch Memory.sample 0 ActionType.SOFTWARE_UPDATE "v2.0").1
      = Memory.sample._id_gen ∧
    (DevicePool.Initiate_dispatch Memory.sample 0 ActionType.SOFTWARE_UPDATE "v2.0").2._pool
      = Memory.sample._pool ∧
    (DevicePool.Initiate_dispatch Memory.sample 0 ActionType.SOFTWARE_UPDATE "v2.0").2._id_gen
      = wrap32 (Memory.sample._id_gen + 1) ∧
    (-2 ^ 31 ≤ Memory.sample._id_gen → Memory.sample._id_gen < 2 ^ 31 - 1 →
      (DevicePool.Initiate_dispatch Memory.sample 0 ActionType.SOFTWARE_UPDATE "v2.0").2._id_gen
        = Memory.sample._id_gen + 1) ∧
    (DevicePool.Initiate_dispatch Memory.sample 0
        ActionType.SOFTWARE_UPDATE "v2.0").2.heap.length = Memory.sample.heap.length ∧
    (∀ h, h ≠ 0 →
      (DevicePool.Initiate_dispatch Memory.sample 0 ActionType.SOFTWARE_UPDATE "v2.0").2.deref h
        = Memory.sample.deref h) ∧
    (∃ d, (DevicePool.Initiate_dispatch Memory.sample 0
          ActionType.SOFTWARE_UPDATE "v2.0").2.deref 0 = some d ∧
      d.get_state = State.UPDATING ∧ d.get_info = Device.sample.get_info ∧
      d._actions = Device.sample._actions ++
        [(Memory.sample._id_gen,
          { _action_type := ActionType.SOFTWARE_UPDATE,
            _action_status := ActionStatus.RUNNING,
            _action_param := "v2.0", _action_id := Memory.sample._id_gen })] ∧
      d.get_action_status Memory.sample._id_gen = some ActionStatus.RUNNING ∧
      ∀ j, j ∈ umap_keys Device.sample._actions →
        d.get_action_status j = Device.sample.get_action_status j) ∧
    (∀ (cs : List Call) (sched : List Nat),
      ((Sys.calls Memory.init cs).issued sched).length < 2 ^ 32 →
      ∀ h d, ((Sys.calls Memory.init cs).exec sched).mem.deref h = some d →
        ((Sys.calls Memory.init cs).exec sched).mem._id_gen ∉ umap_keys d._actions)) :=
  ⟨by decide, by decide, by decide,
    C19_initiate_frame Memory.sample 7 0 Device.sample ActionType.SOFTWARE_UPDATE "v2.0"
      (by decide) (by decide) (by decide)⟩

/-! ## Calls run in turn under the scheduler are calls made one after the other -/

theorem Sys.exec_replicate_eq (i : Nat) (k : Nat) :
    ∀ (s : Sys) (t : Task), s.threads[i]? = some t →
      s.exec (List.replicate k i)
        = ⟨(Task.run k s.mem t).1, s.threads.set i (Task.run k s.mem t).2⟩ := by
  induction k with
  | zero =>
    intro s t ht
    simp only [List.replicate_zero, Task.run, list_set_of_getElem? _ _ _ ht]
    rfl
  | succ k ih =>
    intro s t ht
    rw [List.replicate_succ, Sys.exec_cons]
    have hi := (List.getElem?_eq_some.1 ht).1
    have hadv := Sys.advance_some s i t ht
    have ht2 : (s.advance i).threads[i]? = some (t.step s.mem).2 := by
      rw [hadv]
      exact List.getElem?_set_self hi
    rw [ih (s.advance i) _ ht2, hadv]
    simp only [List.set_set, Task.run]

theorem Sys.exec_in_turn_from (cs : List Call) :
    ∀ (done : List Task) (m : Memory),
      ((⟨m, done ++ cs.map Call.start⟩ : Sys).exec
        ((List.range' done.length cs.length).flatMap (fun i => List.replicate 6 i))).mem
        = DevicePool.run m cs := by
  induction cs with
  | nil => intro done m; rfl
  | cons c cs ih =>
    intro done m
    rw [List.length_cons, List.range'_succ, List.flatMap_cons, Sys.exec_append]
    have ht : (⟨m, done ++ (c :: cs).map Call.start⟩ : Sys).threads[done.length]?
        = some c.start := by
      show (done ++ (c :: cs).map Call.start)[done.length]? = some c.start
      rw [List.getElem?_append_right (le_refl _)]
      simp
    rw [Sys.exec_replicate_eq done.length 6 _ c.start ht]
    have hset : (done ++ (c :: cs).map Call.start).set done.length
        (Task.run 6 m c.start).2
        = (done ++ [(Task.run 6 m c.start).2]) ++ cs.map Call.start := by
      rw [List.set_append_right _ _ (le_refl _)]
      simp
    have hlen : (done ++ [(Task.run 6 m c.start).2]).length = done.length + 1 := by simp
    simp only [hset]
    rw [← hlen, ih, (Task.run_invoke m c).1]
    rfl

/-- Letting the calls of a list run in turn under the scheduler, each to its end, gives
the memory that the calls give when made one after the other. -/
theorem Sys.in_turn_mem (m : Memory) (cs : List Call) :
    ((Sys.calls m cs).exec (Sys.in_turn cs.length)).mem = DevicePool.run m cs := by
  have h := Sys.exec_in_turn_from cs [] m
  simp only [List.length_nil, List.nil_append] at h
  rw [← h, Sys.in_turn, List.range_eq_range']
  rfl

/-- The memory `Memory.wrapped` is also reached under the scheduler, from process start,
by the same calls run in turn. -/
theorem Memory.wrapped_reached :
    ((Sys.calls Memory.init
        (Call.RegisterDevice 0 State.IDLE ::
          List.replicate (2 ^ 32) (Call.Initiate 0 ActionType.SOFTWARE_UPDATE ""))).exec
      (Sys.in_turn (2 ^ 32 + 1))).mem = Memory.wrapped := by
  have h := Sys.in_turn_mem Memory.init
    (Call.RegisterDevice 0 State.IDLE ::
      List.replicate (2 ^ 32) (Call.Initiate 0 ActionType.SOFTWARE_UPDATE ""))
  rw [List.length_cons, List.length_replicate] at h
  exact h

end Fleet
